import Mathlib

/-! # openswf: decoder and playback clock

A shallow embedding of the SWF decoder of `openswf` (`record.cpp`,
`openswf_parser.cpp`, `openswf_player.cpp`) together with the properties
of its natural-language specification.

Conventions of the embedding:

* a failed `assert` is the result `DecodeError.assertion`;
* a read past the end of the buffer is the result `DecodeError.eof`;
* loops whose termination depends on the input carry a fuel argument and
  yield `DecodeError.fuel` when it runs out;
* unsigned machine integers are natural numbers reduced modulo `2 ^ w`
  where the source stores them in a `w`-bit variable, signed ones are
  integers; stream offsets are natural numbers;
* `float` values that hold decoded integers are integers, times are
  rationals.
-/

namespace openswf

/-! ## Results -/

/-- The three ways a decode can stop without a value. -/
inductive DecodeError where
  | assertion
  | eof
  | fuel
deriving DecidableEq, Repr

/-! ## Stream -/

/-- Modelled from the spec: the class `Stream` (stream.hpp is not among the
sources). A fixed byte buffer, a byte cursor `pos` (the next byte to
fetch), and the bit cursor of a run of bit reads: `cur` is the byte the
run is inside and `unused` the number of its low bits not yet handed out.
Bytes of the buffer are taken modulo 256. -/
structure Stream where
  data : List Nat
  pos : Nat
  cur : Nat
  unused : Nat
deriving DecidableEq, Repr

/-- Result of a decode: a value or an error. A read returns the value
together with the stream after it. -/
abbrev Res : Type → Type := Except DecodeError

/-- Modelled from the spec: a stream over `data`, cursor at offset 0. -/
def Stream.ofData (data : List Nat) : Stream :=
  { data := data, pos := 0, cur := 0, unused := 0 }

/-- Modelled from the spec: `Stream::get_position`, the byte cursor. -/
def Stream.get_position (s : Stream) : Nat := s.pos

/-- Modelled from the spec: `Stream::set_position`, an absolute seek; a
partial bit position is discarded. -/
def Stream.set_position (s : Stream) (p : Nat) : Stream :=
  { s with pos := p, cur := 0, unused := 0 }

/-- Modelled from the spec: `Stream::read_uint8`. A byte-aligned read: it
discards a partial bit position, fetches one byte and advances the byte
cursor; past the end of the buffer it is a decode error. -/
def Stream.read_uint8 (s : Stream) : Res (Nat × Stream) :=
  match s.data[s.pos]? with
  | none => .error .eof
  | some b => .ok (b % 256, { s with pos := s.pos + 1, cur := 0, unused := 0 })

/-- Modelled from the spec: `Stream::read_uint16`, little-endian. -/
def Stream.read_uint16 (s : Stream) : Res (Nat × Stream) := do
  let (b0, s) ← s.read_uint8
  let (b1, s) ← s.read_uint8
  return (b0 + 256 * b1, s)

/-- Modelled from the spec: `Stream::read_uint32`, little-endian. -/
def Stream.read_uint32 (s : Stream) : Res (Nat × Stream) := do
  let (b0, s) ← s.read_uint8
  let (b1, s) ← s.read_uint8
  let (b2, s) ← s.read_uint8
  let (b3, s) ← s.read_uint8
  return (b0 + 256 * b1 + 65536 * b2 + 16777216 * b3, s)

/-- Two's-complement reading of a `w`-bit pattern `v`. -/
def toSigned (w : Nat) (v : Nat) : Int :=
  if 0 < w ∧ 2 ^ (w - 1) ≤ v then (v : Int) - 2 ^ w else v

/-- The conversion of a `uint32_t` value to `int`: the two's-complement
reading of its 32 bits. -/
def int_of_uint32 (v : Nat) : Int := toSigned 32 (v % 4294967296)

/-- Modelled from the spec: `Stream::read_int16`. -/
def Stream.read_int16 (s : Stream) : Res (Int × Stream) := do
  let (v, s) ← s.read_uint16
  return (toSigned 16 v, s)

/-- Modelled from the spec: `Stream::read_int32`. -/
def Stream.read_int32 (s : Stream) : Res (Int × Stream) := do
  let (v, s) ← s.read_uint32
  return (toSigned 32 v, s)

/-- One bit of a bit run, most significant bit of the byte first; a new
byte is fetched when the current one is used up. -/
def Stream.read_bit (s : Stream) : Res (Nat × Stream) :=
  if s.unused = 0 then
    match s.data[s.pos]? with
    | none => .error .eof
    | some b =>
      .ok ((b % 256) / 128, { s with pos := s.pos + 1, cur := b % 256, unused := 7 })
  else
    .ok ((s.cur / 2 ^ (s.unused - 1)) % 2, { s with unused := s.unused - 1 })

/-- The loop of `read_bits_as_uint32`: `n` bits, first bit most
significant. -/
def Stream.read_bits_loop : Nat → Stream → Res (Nat × Stream)
  | 0, s => .ok (0, s)
  | n + 1, s => do
    let (b, s) ← s.read_bit
    let (r, s) ← Stream.read_bits_loop n s
    return (b * 2 ^ n + r, s)

/-- Modelled from the spec: `Stream::read_bits_as_uint32(n)`, `n` bits
(0 to 32) most significant first; `n = 0` yields 0 and consumes nothing.
A width above 32 violates the reader's precondition. -/
def Stream.read_bits_as_uint32 (s : Stream) (n : Nat) : Res (Nat × Stream) :=
  if 32 < n then .error .assertion else Stream.read_bits_loop n s

/-- Modelled from the spec: `Stream::read_bits_as_int32(n)`, the same bits
sign-extended from width `n`. -/
def Stream.read_bits_as_int32 (s : Stream) (n : Nat) : Res (Int × Stream) := do
  let (v, s) ← s.read_bits_as_uint32 n
  return (toSigned n v, s)

/-- Axis-aligned rectangle of the stage or of a shape. -/
structure Rect where
  xmin : Int
  xmax : Int
  ymin : Int
  ymax : Int
deriving DecidableEq, Repr

/-- Modelled from the spec: `Stream::read_rect`, a 5-bit width followed by
four signed fields of that width. -/
def Stream.read_rect (s : Stream) : Res (Rect × Stream) := do
  let (bits, s) ← s.read_bits_as_uint32 5
  let (xmin, s) ← s.read_bits_as_int32 bits
  let (xmax, s) ← s.read_bits_as_int32 bits
  let (ymin, s) ← s.read_bits_as_int32 bits
  let (ymax, s) ← s.read_bits_as_int32 bits
  return ({ xmin := xmin, xmax := xmax, ymin := ymin, ymax := ymax }, s)

/-- The `float` that `read_fixed16` returns, kept exact: the value is
`raw / 256`. -/
structure Fixed where
  raw : Int
deriving DecidableEq, Repr

/-- The rational number a fixed-point value stands for. -/
def Fixed.toRat (f : Fixed) : Rat := (f.raw : Rat) / 256

/-- Modelled from the spec: `Stream::read_fixed16`, a 16-bit signed
little-endian value read as 8.8 fixed point (the form of the header's rate
field and of a focal point). -/
def Stream.read_fixed16 (s : Stream) : Res (Fixed × Stream) := do
  let (v, s) ← s.read_int16
  return ({ raw := v }, s)

/-! ## Composite stream readers -/

/-- Packed colour. -/
structure Color where
  r : Nat
  g : Nat
  b : Nat
  a : Nat
deriving DecidableEq, Repr

/-- Modelled from the spec: `Stream::read_rgb`, three byte-aligned
channels; the colour is opaque. -/
def Stream.read_rgb (s : Stream) : Res (Color × Stream) := do
  let (r, s) ← s.read_uint8
  let (g, s) ← s.read_uint8
  let (b, s) ← s.read_uint8
  return ({ r := r, g := g, b := b, a := 255 }, s)

/-- Modelled from the spec: `Stream::read_rgba`, four byte-aligned
channels. -/
def Stream.read_rgba (s : Stream) : Res (Color × Stream) := do
  let (r, s) ← s.read_uint8
  let (g, s) ← s.read_uint8
  let (b, s) ← s.read_uint8
  let (a, s) ← s.read_uint8
  return ({ r := r, g := g, b := b, a := a }, s)

/-- Affine transform of the plane; scale and rotate/skew terms are 16.16 fixed-point
raw values, the translation is in twips. -/
structure Matrix where
  scale_x : Int
  scale_y : Int
  rotate_skew_0 : Int
  rotate_skew_1 : Int
  translate_x : Int
  translate_y : Int
deriving DecidableEq, Repr

/-- The identity transform, the default of a record's matrix field. -/
def Matrix.identity : Matrix :=
  { scale_x := 65536, scale_y := 65536, rotate_skew_0 := 0, rotate_skew_1 := 0,
    translate_x := 0, translate_y := 0 }

instance : Inhabited Matrix := ⟨Matrix.identity⟩

/-- A pair of signed bit fields whose width is declared in 5 bits. -/
def Stream.read_int_pair (s : Stream) : Res ((Int × Int) × Stream) := do
  let (bits, s) ← s.read_bits_as_uint32 5
  let (x, s) ← s.read_bits_as_int32 bits
  let (y, s) ← s.read_bits_as_int32 bits
  return ((x, y), s)

/-- Modelled from the spec: `Stream::read_matrix`; an optional scale pair,
an optional rotate/skew pair, then the translate pair, each optional block
gated by a presence bit and each pair using a declared-width bit field. -/
def Stream.read_matrix (s : Stream) : Res (Matrix × Stream) := do
  let (has_scale, s) ← s.read_bits_as_uint32 1
  let (scale, s) ← (if has_scale > 0 then s.read_int_pair else pure ((65536, 65536), s))
  let (has_rotate, s) ← s.read_bits_as_uint32 1
  let (rotate, s) ← (if has_rotate > 0 then s.read_int_pair else pure ((0, 0), s))
  let (translate, s) ← s.read_int_pair
  return ({ scale_x := scale.1, scale_y := scale.2,
            rotate_skew_0 := rotate.1, rotate_skew_1 := rotate.2,
            translate_x := translate.1, translate_y := translate.2 }, s)

/-- Colour transform: multiplicative terms (8.8 fixed-point raw values) and
additive terms per channel. -/
structure ColorTransform where
  mult_r : Int
  mult_g : Int
  mult_b : Int
  mult_a : Int
  add_r : Int
  add_g : Int
  add_b : Int
  add_a : Int
deriving DecidableEq, Repr

/-- The neutral colour transform, the default of a record's cxform field. -/
def ColorTransform.identity : ColorTransform :=
  { mult_r := 256, mult_g := 256, mult_b := 256, mult_a := 256,
    add_r := 0, add_g := 0, add_b := 0, add_a := 0 }

instance : Inhabited ColorTransform := ⟨ColorTransform.identity⟩

/-- Three or four signed channel terms of width `bits`. -/
def Stream.read_channels (s : Stream) (bits : Nat) (alpha : Bool) (da : Int) :
    Res ((Int × Int × Int × Int) × Stream) := do
  let (r, s) ← s.read_bits_as_int32 bits
  let (g, s) ← s.read_bits_as_int32 bits
  let (b, s) ← s.read_bits_as_int32 bits
  if alpha then do
    let (a, s) ← s.read_bits_as_int32 bits
    return ((r, g, b, a), s)
  else
    return ((r, g, b, da), s)

/-- The body shared by `read_cxform_rgb` and `read_cxform_rgba`: two
presence bits, a 4-bit width, then the multiplicative and the additive
terms that are present. -/
def Stream.read_cxform (s : Stream) (alpha : Bool) : Res (ColorTransform × Stream) := do
  let (has_add, s) ← s.read_bits_as_uint32 1
  let (has_mult, s) ← s.read_bits_as_uint32 1
  let (bits, s) ← s.read_bits_as_uint32 4
  let (m, s) ← (if has_mult > 0 then s.read_channels bits alpha 256
                else pure ((256, 256, 256, 256), s))
  let (a, s) ← (if has_add > 0 then s.read_channels bits alpha 0
                else pure ((0, 0, 0, 0), s))
  return ({ mult_r := m.1, mult_g := m.2.1, mult_b := m.2.2.1, mult_a := m.2.2.2,
            add_r := a.1, add_g := a.2.1, add_b := a.2.2.1, add_a := a.2.2.2 }, s)

/-- Modelled from the spec: `Stream::read_cxform_rgb`, without alpha. -/
def Stream.read_cxform_rgb (s : Stream) : Res (ColorTransform × Stream) :=
  s.read_cxform false

/-- Modelled from the spec: `Stream::read_cxform_rgba`, with alpha. -/
def Stream.read_cxform_rgba (s : Stream) : Res (ColorTransform × Stream) :=
  s.read_cxform true

/-- The bytes of a null-terminated string at the head of `l` and the number
of bytes it occupies, terminator included. -/
def takeString : List Nat → Option (List Nat × Nat)
  | [] => none
  | b :: bs =>
    if b % 256 = 0 then some ([], 1)
    else match takeString bs with
      | none => none
      | some (str, n) => some ((b % 256) :: str, n + 1)

/-- Modelled from the spec: `Stream::read_string`, the bytes up to and
excluding a null terminator; byte-aligned. -/
def Stream.read_string (s : Stream) : Res (List Nat × Stream) :=
  match takeString (s.data.drop s.pos) with
  | none => .error .eof
  | some (str, n) => .ok (str, { s with pos := s.pos + n, cur := 0, unused := 0 })

/-! ## Loops -/

/-- A `while` loop whose exit depends on the input: `step` is one
iteration, from the loop state `a` and the stream, ending either with the
state for the next iteration (`Sum.inl`) or with the loop's result
(`Sum.inr`, a `break`). -/
def iterate {α ρ : Type} (step : α → Stream → Res ((α ⊕ ρ) × Stream)) :
    Nat → α → Stream → Res (ρ × Stream)
  | 0, _, _ => .error .fuel
  | fuel + 1, a, s => do
    let (r, s) ← step a s
    match r with
    | .inl a => iterate step fuel a s
    | .inr out => return (out, s)

/-- Fuel that the shape-record loops cannot use up: every iteration takes
at least one bit from the buffer. -/
def shapeFuel (s : Stream) : Nat := 8 * s.data.length + 8

/-! ## Tag codes -/

/-- Modelled from the spec: the values of `enum class TagCode` (its
declaration is in record.hpp, not among the sources); they are the tag
numbers the sources quote in their `// TAG:` comments. -/
abbrev TagCode : Type := Nat

def TagCode.END : TagCode := 0
def TagCode.SHOW_FRAME : TagCode := 1
def TagCode.DEFINE_SHAPE : TagCode := 2
def TagCode.PLACE_OBJECT : TagCode := 4
def TagCode.REMOVE_OBJECT : TagCode := 5
def TagCode.DEFINE_SHAPE2 : TagCode := 22
def TagCode.PLACE_OBJECT2 : TagCode := 26
def TagCode.REMOVE_OBJECT2 : TagCode := 28
def TagCode.DEFINE_SHAPE3 : TagCode := 32
def TagCode.DEFINE_SHAPE4 : TagCode := 83

/-! ## Header and tag header (record.cpp, openswf_parser.cpp) -/

/-- The record `Header`. -/
structure Header where
  compressed : Bool
  version : Nat
  size : Nat
  frame_size : Rect
  frame_rate : Fixed
  frame_count : Nat
deriving DecidableEq, Repr

/-- Function `Header::read` (the two copies in record.cpp and openswf_parser.cpp
are the same text). -/
def Header.read (s : Stream) : Res (Header × Stream) := do
  let (b0, s) ← s.read_uint8
  let compressed : Bool := b0 != 70
  let (const_w, s) ← s.read_uint8
  let (const_s, s) ← s.read_uint8
  let (version, s) ← s.read_uint8
  let (size, s) ← s.read_uint32
  if compressed then .error .assertion else
  if ¬ (const_w = 87 ∧ const_s = 83) then .error .assertion else do
  let (frame_size, s) ← s.read_rect
  let (frame_rate, s) ← s.read_fixed16
  let (frame_count, s) ← s.read_uint16
  let frame_count := max frame_count 1
  return ({ compressed := compressed, version := version, size := size,
            frame_size := frame_size, frame_rate := frame_rate,
            frame_count := frame_count }, s)

/-- The record `TagHeader`. -/
structure TagHeader where
  code : TagCode
  size : Nat
  end_pos : Nat
deriving DecidableEq, Repr

/-- Function `TagHeader::read` (the same text in both files). -/
def TagHeader.read (s : Stream) : Res (TagHeader × Stream) := do
  let (header, s) ← s.read_uint16
  let code : TagCode := header >>> 6
  let size := header &&& 0x3f
  if size = 0x3f then do
    let (v, s) ← s.read_int32
    let size := (v % 4294967296).toNat
    return ({ code := code, size := size, end_pos := s.get_position + size }, s)
  else
    return ({ code := code, size := size, end_pos := s.get_position + size }, s)

/-! ## Style counts -/

/-- The first two lines of `read_fill_styles` and of `read_line_styles`, the
same in record.cpp and openswf_parser.cpp: `uint8_t count = read_uint8();
if( count == 0xFF ) count = read_uint16();`, the variable being 8 bits
wide. -/
def read_style_count (s : Stream) : Res (Nat × Stream) := do
  let (count, s) ← s.read_uint8
  if count = 0xFF then do
    let (c, s) ← s.read_uint16
    return (c % 256, s)
  else
    return (count, s)

/-! ## Record decoders of openswf_parser.cpp -/

namespace parser_cpp

/-- The record `LineStyle` of the decoder that `parse` calls. -/
structure LineStyle where
  width : Nat
  rgba : Color
deriving DecidableEq, Repr

/-- The record `FillStyle` of the decoder that `parse` calls. -/
structure FillStyle where
  type : Nat
  rgba : Color
deriving DecidableEq, Repr

/-- Modelled from the spec: the record `ShapeRecord` (declared in
openswf_parser.hpp, not among the sources); a field the decoder does not
assign holds 0 or the empty array. -/
structure ShapeRecord where
  move_delta_x : Int := 0
  move_delta_y : Int := 0
  fill_style_0 : Nat := 0
  fill_style_1 : Nat := 0
  line_style : Nat := 0
  new_fill_styles : List FillStyle := []
  new_line_styles : List LineStyle := []
  fill_index_bits : Nat := 0
  line_index_bits : Nat := 0
deriving DecidableEq, Repr

/-- The record `DefineShape` of the decoder that `parse` calls. -/
structure DefineShape where
  character_id : Nat
  bounds : Rect
  fill_styles : List FillStyle
  line_styles : List LineStyle
  fill_index_bits : Nat
  line_index_bits : Nat
  records : List ShapeRecord
deriving DecidableEq, Repr

/-- The `for` loop of `DefineShape::read_line_styles`. -/
def read_line_styles_loop (type : Nat) :
    Nat → Stream → List LineStyle → Res (List LineStyle × Stream)
  | 0, s, array => .ok (array, s)
  | n + 1, s, array => do
    let (width, s) ← s.read_uint8
    let (rgba, s) ← (if type ≥ 3 then s.read_rgba else s.read_rgb)
    read_line_styles_loop type n s (array ++ [{ width := width, rgba := rgba }])

/-- Function `DefineShape::read_line_styles`. -/
def DefineShape.read_line_styles (s : Stream) (array : List LineStyle) (type : Nat) :
    Res (List LineStyle × Stream) := do
  let (count, s) ← read_style_count s
  read_line_styles_loop type count s array

/-- The `for` loop of `DefineShape::read_fill_styles`. -/
def read_fill_styles_loop (type : Nat) :
    Nat → Stream → List FillStyle → Res (List FillStyle × Stream)
  | 0, s, array => .ok (array, s)
  | n + 1, s, array => do
    let (ty, s) ← s.read_uint8
    if ty = 0x00 then do
      let (rgba, s) ← (if type ≥ 3 then s.read_rgba else s.read_rgb)
      read_fill_styles_loop type n s (array ++ [{ type := ty, rgba := rgba }])
    else
      .error .assertion

/-- Function `DefineShape::read_fill_styles`. -/
def DefineShape.read_fill_styles (s : Stream) (array : List FillStyle) (type : Nat) :
    Res (List FillStyle × Stream) := do
  let (count, s) ← read_style_count s
  read_fill_styles_loop type count s array

/-- The style-change part of one iteration of the shape-record loop: the
fields gated by the bits of `mask`, read into `shape`. -/
def read_style_change (type : Nat) (fill_index_bits line_index_bits : Nat)
    (mask : Nat) (s : Stream) (shape : ShapeRecord) : Res (ShapeRecord × Stream) := do
  let (shape, s) ←
    (if mask &&& 0x01 ≠ 0 then do
      let (bits, s) ← s.read_bits_as_uint32 5
      let (dx, s) ← s.read_bits_as_int32 (bits % 256)
      let (dy, s) ← s.read_bits_as_int32 (bits % 256)
      pure ({ shape with move_delta_x := dx, move_delta_y := dy }, s)
    else pure (shape, s))
  let (shape, s) ←
    (if mask &&& 0x02 ≠ 0 then do
      let (v, s) ← s.read_bits_as_uint32 fill_index_bits
      pure ({ shape with fill_style_0 := v }, s)
    else pure (shape, s))
  let (shape, s) ←
    (if mask &&& 0x04 ≠ 0 then do
      let (v, s) ← s.read_bits_as_uint32 fill_index_bits
      pure ({ shape with fill_style_1 := v }, s)
    else pure (shape, s))
  let (shape, s) ←
    (if mask &&& 0x08 ≠ 0 then do
      let (v, s) ← s.read_bits_as_uint32 line_index_bits
      pure ({ shape with line_style := v }, s)
    else pure (shape, s))
  if mask &&& 0x10 ≠ 0 then
    if ¬ (type ≥ 2) then .error .assertion else do
    let (fills, s) ← DefineShape.read_fill_styles s shape.new_fill_styles type
    let (lines, s) ← DefineShape.read_line_styles s shape.new_line_styles type
    let (fb, s) ← s.read_bits_as_uint32 4
    let (lb, s) ← s.read_bits_as_uint32 4
    pure ({ shape with new_fill_styles := fills, new_line_styles := lines,
                       fill_index_bits := fb, line_index_bits := lb }, s)
  else pure (shape, s)

/-- One iteration of the `while( !finished )` loop of `DefineShape::read`,
from the records pushed so far: `Sum.inr` when the end-of-shape mask is
met, `Sum.inl` with the records after the iteration otherwise. A general
and a vertical straight edge leave the iteration through `continue`,
before the `push_back`. -/
def read_shape_record (type : Nat) (fill_index_bits line_index_bits : Nat)
    (records : List ShapeRecord) (s : Stream) :
    Res ((List ShapeRecord ⊕ List ShapeRecord) × Stream) := do
  let shape : ShapeRecord := {}
  let (is_edge, s) ← s.read_bits_as_uint32 1
  if ¬ (is_edge > 0) then do
    let (mask, s) ← s.read_bits_as_uint32 5
    if mask = 0x00 then
      return (.inr records, s)
    else do
      let (shape, s) ← read_style_change type fill_index_bits line_index_bits mask s shape
      return (.inl (records ++ [shape]), s)
  else do
    let (is_straight, s) ← s.read_bits_as_uint32 1
    if is_straight > 0 then do
      let (bits, s) ← s.read_bits_as_uint32 4
      let (is_general, s) ← s.read_bits_as_uint32 1
      if is_general > 0 then do
        let (_, s) ← s.read_bits_as_int32 (bits + 2)
        let (_, s) ← s.read_bits_as_int32 (bits + 2)
        return (.inl records, s)
      else do
        let (is_vertical, s) ← s.read_bits_as_uint32 1
        if is_vertical > 0 then do
          let (_, s) ← s.read_bits_as_int32 (bits + 2)
          return (.inl records, s)
        else do
          let (dx, s) ← s.read_bits_as_int32 (bits + 2)
          return (.inl (records ++ [{ shape with move_delta_x := dx }]), s)
    else
      .error .assertion

/-- Function `DefineShape::read(stream, type)` of openswf_parser.cpp. -/
def DefineShape.read (s : Stream) (type : Nat) : Res (DefineShape × Stream) := do
  let (character_id, s) ← s.read_uint16
  let (bounds, s) ← s.read_rect
  let (fill_styles, s) ← DefineShape.read_fill_styles s [] type
  let (line_styles, s) ← DefineShape.read_line_styles s [] type
  let (fill_index_bits, s) ← s.read_bits_as_uint32 4
  let (line_index_bits, s) ← s.read_bits_as_uint32 4
  let (records, s) ←
    iterate (read_shape_record type fill_index_bits line_index_bits) (shapeFuel s) [] s
  return ({ character_id := character_id, bounds := bounds, fill_styles := fill_styles,
            line_styles := line_styles, fill_index_bits := fill_index_bits,
            line_index_bits := line_index_bits, records := records }, s)

/-- The record `PlaceObject` of openswf_parser.cpp. -/
structure PlaceObject where
  character_id : Nat := 0
  depth : Nat := 0
  matrix : Matrix := Matrix.identity
  cxform : ColorTransform := ColorTransform.identity
deriving DecidableEq, Repr

/-- The body of `PlaceObject::read(stream, size)` after
`auto start_pos = stream.get_position();`. The parameter is `int size`, a
signed number; the stream position, whose type is declared outside the
sources, is taken as a signed integer too, so that `start_pos + size` is
the sum of the two as integers and lies below `start_pos` when the size is
negative. -/
def PlaceObject.read_from (start_pos : Nat) (size : Int) (s : Stream) :
    Res (PlaceObject × Stream) := do
  let (character_id, s) ← s.read_uint16
  let (depth, s) ← s.read_uint16
  let (matrix, s) ← s.read_matrix
  if (s.get_position : Int) < (start_pos : Int) + size then do
    let (cxform, s) ← s.read_cxform_rgb
    return ({ character_id := character_id, depth := depth, matrix := matrix,
              cxform := cxform }, s)
  else
    return ({ character_id := character_id, depth := depth, matrix := matrix }, s)

/-- Function `PlaceObject::read(stream, size)` of openswf_parser.cpp, with its
parameter `int size`. -/
def PlaceObject.read (s : Stream) (size : Int) : Res (PlaceObject × Stream) :=
  PlaceObject.read_from s.get_position size s

/-- The record `RemoveObject`. -/
structure RemoveObject where
  character_id : Nat
  depth : Nat
deriving DecidableEq, Repr

/-- Function `RemoveObject::read(stream)` of openswf_parser.cpp. -/
def RemoveObject.read (s : Stream) : Res (RemoveObject × Stream) := do
  let (character_id, s) ← s.read_uint16
  let (depth, s) ← s.read_uint16
  return ({ character_id := character_id, depth := depth }, s)

/-- The record `PlaceObject2` of openswf_parser.cpp. -/
structure PlaceObject2 where
  character_id : Nat := 0
  depth : Nat := 0
  matrix : Matrix := Matrix.identity
  cxform : ColorTransform := ColorTransform.identity
  ratio : Nat := 0
  name : List Nat := []
  clip_depth : Nat := 0
deriving DecidableEq, Repr

/-- Function `PlaceObject2::read(stream)` of openswf_parser.cpp. The clip-action
list is not read (the two lines are commented out in the source). -/
def PlaceObject2.read (s : Stream) : Res (PlaceObject2 × Stream) := do
  let record : PlaceObject2 := {}
  let (mask, s) ← s.read_uint8
  let (depth, s) ← s.read_uint16
  let (character_id, s) ← (if mask &&& 0x02 ≠ 0 then s.read_uint16 else pure (0, s))
  let (matrix, s) ← (if mask &&& 0x04 ≠ 0 then s.read_matrix else pure (record.matrix, s))
  let (cxform, s) ← (if mask &&& 0x08 ≠ 0 then s.read_cxform_rgba else pure (record.cxform, s))
  let (ratio, s) ← (if mask &&& 0x10 ≠ 0 then s.read_uint16 else pure (0, s))
  let (name, s) ← (if mask &&& 0x20 ≠ 0 then s.read_string else pure (record.name, s))
  let (clip_depth, s) ← (if mask &&& 0x40 ≠ 0 then s.read_uint16 else pure (record.clip_depth, s))
  return ({ character_id := character_id, depth := depth, matrix := matrix, cxform := cxform,
            ratio := ratio, name := name, clip_depth := clip_depth }, s)

end parser_cpp

/-! ## Player (openswf_player.cpp) -/

/-- The two commands of a frame: `PlaceCommand` and `RemoveCommand`, with
the fields their constructors copy from the records. -/
inductive Command where
  | place (character_id depth : Nat) (transform : Matrix) (cxform : ColorTransform)
  | remove (character_id depth : Nat)
deriving DecidableEq, Repr

/-- Constructor `PlaceCommand::PlaceCommand(const record::PlaceObject&)`. -/
def PlaceCommand.ofPlaceObject (d : parser_cpp.PlaceObject) : Command :=
  .place d.character_id d.depth d.matrix d.cxform

/-- Constructor `PlaceCommand::PlaceCommand(const record::PlaceObject2&)`. -/
def PlaceCommand.ofPlaceObject2 (d : parser_cpp.PlaceObject2) : Command :=
  .place d.character_id d.depth d.matrix d.cxform

/-- Constructor `RemoveCommand::RemoveCommand(const record::RemoveObject&)`. -/
def RemoveCommand.ofRemoveObject (d : parser_cpp.RemoveObject) : Command :=
  .remove d.character_id d.depth

/-- An entry of the display list. -/
structure DisplayEntry where
  character_id : Nat
  transform : Matrix
  cxform : ColorTransform
deriving DecidableEq, Repr

/-- Modelled from the spec: the state of the class `Player` (declared in
openswf_player.hpp, not among the sources): the members that the
destructor and `update` name, the dictionary and the display list being
association lists keyed by character id and by depth. -/
structure Player where
  m_frame_size : Rect
  m_frame_rate : Fixed
  m_frame_count : Nat
  m_dictionary : List (Nat × parser_cpp.DefineShape) := []
  m_records : List Command := []
  m_frames : List (List Command) := []
  m_current_frame : Nat := 0
  m_timer : Rat := 0
  m_displays : List (Nat × DisplayEntry) := []

/-- Modelled from the spec: the constructor `Player(frame_size, frame_rate,
frame_count)`; current frame 0, timer 0, nothing defined, placed or
recorded. -/
def Player.new (frame_size : Rect) (frame_rate : Fixed) (frame_count : Nat) : Player :=
  { m_frame_size := frame_size, m_frame_rate := frame_rate, m_frame_count := frame_count }

/-- Modelled from the spec: `Player::define`, insert into the dictionary
keyed by character id, overwriting silently on id reuse. -/
def Player.define (pl : Player) (id : Nat) (shape : parser_cpp.DefineShape) : Player :=
  { pl with m_dictionary := (id, shape) :: pl.m_dictionary.filter (fun e => e.1 != id) }

/-- Modelled from the spec: `Player::push_command`, append to the currently
open frame's command list. -/
def Player.push_command (pl : Player) (c : Command) : Player :=
  { pl with m_records := pl.m_records ++ [c] }

/-- Modelled from the spec: `Player::record_frame`, close the currently
open frame (push it onto the timeline) and open a new empty frame. -/
def Player.record_frame (pl : Player) : Player :=
  { pl with m_frames := pl.m_frames ++ [pl.m_records], m_records := [] }

/-- Modelled from the spec: `Player::place`, instantiate or replace the
display entry at `depth`; a character id absent from the dictionary makes
it a no-op. -/
def Player.place (pl : Player) (character_id depth : Nat) (transform : Matrix)
    (cxform : ColorTransform) : Player :=
  if pl.m_dictionary.any (fun e => e.1 == character_id) then
    { pl with m_displays :=
        (depth, { character_id := character_id, transform := transform, cxform := cxform })
          :: pl.m_displays.filter (fun e => e.1 != depth) }
  else pl

/-- Modelled from the spec: `Player::remove`, delete the display entry at
`depth`. -/
def Player.remove (pl : Player) (_character_id depth : Nat) : Player :=
  { pl with m_displays := pl.m_displays.filter (fun e => e.1 != depth) }

/-- Function `PlaceCommand::execute` and `RemoveCommand::execute`. -/
def Command.execute (c : Command) (pl : Player) : Player :=
  match c with
  | .place character_id depth transform cxform => pl.place character_id depth transform cxform
  | .remove character_id depth => pl.remove character_id depth

/-- The loop `for( auto command : m_frames[m_current_frame] )
command->execute(this);`. -/
def Player.execute_all (pl : Player) (cs : List Command) : Player :=
  cs.foldl (fun p c => c.execute p) pl

/-- The `while( m_timer > frame_delta )` loop of `Player::update`. The
fuel bounds the number of iterations. -/
def Player.update_loop (frame_delta : Rat) : Nat → Player → Player
  | 0, pl => pl
  | fuel + 1, pl =>
    if pl.m_timer > frame_delta then
      let pl := { pl with m_timer := pl.m_timer - frame_delta,
                          m_current_frame := pl.m_current_frame + 1 }
      if pl.m_current_frame ≥ pl.m_frames.length then pl
      else Player.update_loop frame_delta fuel
             (pl.execute_all (pl.m_frames.getD pl.m_current_frame []))
    else pl

/-- The frame period `1 / m_frame_rate`. -/
def Player.frame_delta (pl : Player) : Rat := 1 / pl.m_frame_rate.toRat

/-- Function `Player::update(dt)`. The loop runs at most once per frame that is
left, so that many iterations of fuel are enough. -/
def Player.update (pl : Player) (dt : Rat) : Player :=
  if pl.m_current_frame ≥ pl.m_frames.length then pl
  else
    let frame_delta := pl.frame_delta
    let pl := { pl with m_timer := pl.m_timer + dt }
    Player.update_loop frame_delta (pl.m_frames.length - pl.m_current_frame) pl

/-! ## The decode loop (openswf_parser.cpp) -/

open parser_cpp in
/-- The `switch(tag.code)` of `parse`: the decoder of the tag and its
effect on the player. -/
def dispatch (tag : TagHeader) (player : Player) (s : Stream) : Res (Player × Stream) :=
  if tag.code = TagCode.DEFINE_SHAPE then do
    let (d, s) ← DefineShape.read s 1
    return (player.define d.character_id d, s)
  else if tag.code = TagCode.DEFINE_SHAPE2 then do
    let (d, s) ← DefineShape.read s 2
    return (player.define d.character_id d, s)
  else if tag.code = TagCode.DEFINE_SHAPE3 then do
    let (d, s) ← DefineShape.read s 3
    return (player.define d.character_id d, s)
  else if tag.code = TagCode.PLACE_OBJECT then do
    let (d, s) ← PlaceObject.read s (int_of_uint32 tag.size)
    return (player.push_command (PlaceCommand.ofPlaceObject d), s)
  else if tag.code = TagCode.PLACE_OBJECT2 then do
    let (d, s) ← PlaceObject2.read s
    return (player.push_command (PlaceCommand.ofPlaceObject2 d), s)
  else if tag.code = TagCode.REMOVE_OBJECT then do
    let (d, s) ← RemoveObject.read s
    return (player.push_command (RemoveCommand.ofRemoveObject d), s)
  else if tag.code = TagCode.SHOW_FRAME then
    return (player.record_frame, s)
  else
    return (player, s)

/-- The loop `while( tag.code != TagCode::END )` of `parse`, one
iteration: the loop is left when the tag read last is the end tag;
otherwise the tag is dispatched, the stream is set to the tag's end offset
and the next tag header is read. -/
def parse_step (st : TagHeader × Player) (s : Stream) :
    Res (((TagHeader × Player) ⊕ Player) × Stream) :=
  if st.1.code = TagCode.END then return (.inr st.2, s)
  else do
    let (player, s) ← dispatch st.1 st.2 s
    let s := s.set_position st.1.end_pos
    let (tag, s) ← TagHeader.read s
    return (.inl (tag, player), s)

/-- Function `parse(stream)`: the player it returns and the stream it leaves, which
it received by reference. Every tag header lies at least two bytes after
the previous one, so the loop cannot use up a fuel of the buffer's
length. -/
def parse (s : Stream) : Res (Player × Stream) := do
  let s := s.set_position 0
  let (header, s) ← Header.read s
  let player := Player.new header.frame_size header.frame_rate header.frame_count
  let (tag, s) ← TagHeader.read s
  iterate parse_step (s.data.length + 1) (tag, player) s

/-! ## Record decoders of record.cpp -/

namespace record_cpp

/-- A point of a shape, in twips. -/
structure Point where
  x : Int
  y : Int
deriving DecidableEq, Repr

/-- A control point of a gradient. -/
structure ControlPoint where
  ratio : Nat
  color : Color
deriving DecidableEq, Repr

/-- The fields of `GradientFill`. -/
structure GradientFill where
  transform : Matrix
  spread : Nat
  interp : Nat
  controls : List ControlPoint
deriving DecidableEq, Repr

/-- The fill styles `read_fill_style` allocates: `SolidFill`,
`LinearGradientFill`, `RadialGradientFill`, `FocalRadialGradientFill`. -/
inductive FillStyle where
  | solid (color : Color)
  | linear (gradient : GradientFill)
  | radial (gradient : GradientFill)
  | focal (gradient : GradientFill) (focal : Fixed)
deriving DecidableEq, Repr

/-- The loop over the control points in `read_gradient`. -/
def read_gradient_controls (tag : TagCode) :
    Nat → Stream → List ControlPoint → Res (List ControlPoint × Stream)
  | 0, s, controls => .ok (controls, s)
  | n + 1, s, controls => do
    let (ratio, s) ← s.read_uint8
    let (color, s) ← (if tag = TagCode.DEFINE_SHAPE3 ∨ tag = TagCode.DEFINE_SHAPE4
                      then s.read_rgba else s.read_rgb)
    read_gradient_controls tag n s (controls ++ [{ ratio := ratio, color := color }])

/-- Function `read_gradient`. -/
def read_gradient (s : Stream) (tag : TagCode) : Res (GradientFill × Stream) := do
  let (transform, s) ← s.read_matrix
  let (spread, s) ← s.read_bits_as_uint32 2
  let (interp, s) ← s.read_bits_as_uint32 2
  let (count, s) ← s.read_bits_as_uint32 4
  if ¬ (count > 0) then .error .assertion else do
  let (controls, s) ← read_gradient_controls tag count s []
  return ({ transform := transform, spread := spread, interp := interp,
            controls := controls }, s)

/-- Function `read_fill_style`; the codes are those of `enum class FillStyleCode`. -/
def read_fill_style (s : Stream) (tag : TagCode) : Res (FillStyle × Stream) := do
  let (type, s) ← s.read_uint8
  if type = 0x00 then do
    let (color, s) ← (if tag = TagCode.DEFINE_SHAPE3 ∨ tag = TagCode.DEFINE_SHAPE4
                      then s.read_rgba else s.read_rgb)
    return (.solid color, s)
  else if type = 0x10 then do
    let (g, s) ← read_gradient s tag
    return (.linear g, s)
  else if type = 0x12 then do
    let (g, s) ← read_gradient s tag
    return (.radial g, s)
  else if type = 0x13 then do
    let (g, s) ← read_gradient s tag
    let (focal, s) ← s.read_fixed16
    return (.focal g focal, s)
  else
    .error .assertion

/-- Modelled from the spec: the record `LineStyle` (declared in record.hpp,
not among the sources); a field that `read_line_styles` does not assign
holds 0 or `false`. The fill of an extended line style is read and
dropped (`line.fill = nullptr`). -/
structure LineStyle where
  width : Nat := 0
  start_cap : Nat := 0
  join : Nat := 0
  has_fill : Bool := false
  no_hscale : Bool := false
  no_vscale : Bool := false
  pixel_hinting : Bool := false
  no_close : Bool := false
  end_cap : Nat := 0
  miter_limit_factor : Nat := 0
  color : Color := { r := 0, g := 0, b := 0, a := 0 }
deriving DecidableEq, Repr

/-- Modelled from the spec: the value of `Joincode::MITER` (the enum is
declared in record.hpp, not among the sources), the miter join code of the
format. -/
def Joincode.MITER : Nat := 2

/-- The body of the `for` loop of `read_line_styles`: one line style. -/
def read_line_style (s : Stream) (type : TagCode) : Res (LineStyle × Stream) := do
  let (width, s) ← s.read_uint16
  if type = TagCode.DEFINE_SHAPE4 then do
    let (start_cap, s) ← s.read_bits_as_uint32 2
    let (join, s) ← s.read_bits_as_uint32 2
    let (has_fill, s) ← s.read_bits_as_uint32 1
    let (no_hscale, s) ← s.read_bits_as_uint32 1
    let (no_vscale, s) ← s.read_bits_as_uint32 1
    let (pixel_hinting, s) ← s.read_bits_as_uint32 1
    let (reserved, s) ← s.read_bits_as_uint32 5
    if ¬ (reserved = 0) then .error .assertion else do
    let (no_close, s) ← s.read_bits_as_uint32 1
    let (end_cap, s) ← s.read_bits_as_uint32 2
    let (miter_limit_factor, s) ← (if join = Joincode.MITER then s.read_uint16 else pure (0, s))
    let line : LineStyle :=
      { width := width, start_cap := start_cap, join := join, has_fill := decide (has_fill > 0),
        no_hscale := decide (no_hscale > 0), no_vscale := decide (no_vscale > 0),
        pixel_hinting := decide (pixel_hinting > 0), no_close := decide (no_close > 0),
        end_cap := end_cap, miter_limit_factor := miter_limit_factor }
    if has_fill > 0 then do
      let (_, s) ← read_fill_style s type
      return (line, s)
    else do
      let (color, s) ← s.read_rgba
      return ({ line with color := color }, s)
  else do
    let (color, s) ← (if type = TagCode.DEFINE_SHAPE3 then s.read_rgba else s.read_rgb)
    return ({ width := width, color := color }, s)

/-- The `for` loop of `read_line_styles`. -/
def read_line_styles_loop (type : TagCode) :
    Nat → Stream → List LineStyle → Res (List LineStyle × Stream)
  | 0, s, array => .ok (array, s)
  | n + 1, s, array => do
    let (line, s) ← read_line_style s type
    read_line_styles_loop type n s (array ++ [line])

/-- Function `read_line_styles`. -/
def read_line_styles (s : Stream) (array : List LineStyle) (type : TagCode) :
    Res (List LineStyle × Stream) := do
  let (count, s) ← read_style_count s
  read_line_styles_loop type count s array

/-- The `for` loop of `read_fill_styles`. -/
def read_fill_styles_loop (tag : TagCode) :
    Nat → Stream → List FillStyle → Res (List FillStyle × Stream)
  | 0, s, array => .ok (array, s)
  | n + 1, s, array => do
    let (style, s) ← read_fill_style s tag
    read_fill_styles_loop tag n s (array ++ [style])

/-- Function `read_fill_styles`. -/
def read_fill_styles (s : Stream) (array : List FillStyle) (tag : TagCode) :
    Res (List FillStyle × Stream) := do
  let (count, s) ← read_style_count s
  read_fill_styles_loop tag count s array

/-- The two constructors of `ShapeEdge`: `ShapeEdge(cursor)` for a straight
edge and `ShapeEdge(cx, cy, ax, ay)` for a curved one. -/
inductive ShapeEdge where
  | straight (anchor : Point)
  | curve (cx cy ax ay : Int)
deriving DecidableEq, Repr

/-- Modelled from the spec: the record `ShapePath` (declared in record.hpp,
not among the sources): a left-fill index, a right-fill index, a line-style
index, the starting cursor and the edges. -/
structure ShapePath where
  left_fill : Nat := 0
  right_fill : Nat := 0
  line : Nat := 0
  start : Point := { x := 0, y := 0 }
  edges : List ShapeEdge := []
deriving DecidableEq, Repr

/-- Modelled from the spec: `ShapePath::restart(cursor)`, a new path at the
cursor: no edges, the styles kept. -/
def ShapePath.restart (p : ShapePath) (cursor : Point) : ShapePath :=
  { p with start := cursor, edges := [] }

/-- Modelled from the spec: `ShapePath::reset()`, the path's styles set to
"no style". -/
def ShapePath.reset (p : ShapePath) : ShapePath :=
  { p with left_fill := 0, right_fill := 0, line := 0 }

/-- The record `DefineShape` of record.cpp. -/
structure DefineShape where
  character_id : Nat
  bounds : Rect
  edge_bounds : Rect
  fill_styles : List FillStyle
  paths : List ShapePath
deriving DecidableEq, Repr

/-- The variables of `DefineShape::read` that its shape-record loop reads
and writes: `record.fill_styles`, `record.paths` and the locals. -/
structure ShapeState where
  fill_styles : List FillStyle
  line_styles : List LineStyle
  fill_index_bits : Nat
  line_index_bits : Nat
  fill_index_base : Nat := 0
  line_index_base : Nat := 0
  cursor : Point := { x := 0, y := 0 }
  current_path : ShapePath := {}
  paths : List ShapePath := []
deriving DecidableEq, Repr

/-- The lambda `push_path` of `DefineShape::read`; a call without argument
is `push_path st false`. -/
def push_path (st : ShapeState) (reset : Bool) : ShapeState :=
  let st := if st.current_path.edges ≠ [] then
              { st with paths := st.paths ++ [st.current_path] }
            else st
  let st := { st with current_path := st.current_path.restart st.cursor }
  if reset then { st with current_path := st.current_path.reset } else st

/-- The block `if( mask & SHAPE_MOVE_TO )`. -/
def style_move_to (mask : Nat) (st : ShapeState) (s : Stream) : Res (ShapeState × Stream) :=
  if mask &&& 0x01 ≠ 0 then do
    let (bits, s) ← s.read_bits_as_uint32 5
    let bits := bits % 256
    let (x, s) ← s.read_bits_as_int32 bits
    let (y, s) ← s.read_bits_as_int32 bits
    let st := { st with cursor := { x := x, y := y } }
    return (push_path st true, s)
  else return (st, s)

/-- The block `if( (mask & SHAPE_FILL_STYLE_0) && fill_index_bits > 0 )`. -/
def style_fill_0 (mask : Nat) (st : ShapeState) (s : Stream) : Res (ShapeState × Stream) :=
  if mask &&& 0x02 ≠ 0 ∧ st.fill_index_bits > 0 then do
    let st := push_path st false
    let (v, s) ← s.read_bits_as_uint32 st.fill_index_bits
    let v := if v > 0 then v + st.fill_index_base else v
    return ({ st with current_path := { st.current_path with left_fill := v } }, s)
  else return (st, s)

/-- The block `if( (mask & SHAPE_FILL_STYLE_1) && fill_index_bits > 0 )`. -/
def style_fill_1 (mask : Nat) (st : ShapeState) (s : Stream) : Res (ShapeState × Stream) :=
  if mask &&& 0x04 ≠ 0 ∧ st.fill_index_bits > 0 then do
    let st := push_path st false
    let (v, s) ← s.read_bits_as_uint32 st.fill_index_bits
    let v := if v > 0 then v + st.fill_index_base else v
    return ({ st with current_path := { st.current_path with right_fill := v } }, s)
  else return (st, s)

/-- The block `if( (mask & SHAPE_LINE_STYLE) && line_index_bits > 0 )`. -/
def style_line (mask : Nat) (st : ShapeState) (s : Stream) : Res (ShapeState × Stream) :=
  if mask &&& 0x08 ≠ 0 ∧ st.line_index_bits > 0 then do
    let st := push_path st false
    let (v, s) ← s.read_bits_as_uint32 st.line_index_bits
    return ({ st with current_path := { st.current_path with line := v } }, s)
  else return (st, s)

/-- The block `if( mask & SHAPE_NEW_STYLE )`. -/
def style_new (type : TagCode) (mask : Nat) (st : ShapeState) (s : Stream) :
    Res (ShapeState × Stream) :=
  if mask &&& 0x10 ≠ 0 then
    if ¬ (type = TagCode.DEFINE_SHAPE3 ∨ type = TagCode.DEFINE_SHAPE4) then .error .assertion
    else do
    let st := push_path st false
    let st := { st with fill_index_base := st.fill_styles.length,
                        line_index_base := st.line_styles.length }
    let (fill_styles, s) ← read_fill_styles s st.fill_styles type
    let (line_styles, s) ← read_line_styles s st.line_styles type
    let (fill_index_bits, s) ← s.read_bits_as_uint32 4
    let (line_index_bits, s) ← s.read_bits_as_uint32 4
    return ({ st with fill_styles := fill_styles, line_styles := line_styles,
                      fill_index_bits := fill_index_bits,
                      line_index_bits := line_index_bits }, s)
  else return (st, s)

/-- The style-change record: the five blocks in the order of the source. -/
def style_change (type : TagCode) (mask : Nat) (st : ShapeState) (s : Stream) :
    Res (ShapeState × Stream) := do
  let (st, s) ← style_move_to mask st s
  let (st, s) ← style_fill_0 mask st s
  let (st, s) ← style_fill_1 mask st s
  let (st, s) ← style_line mask st s
  style_new type mask st s

/-- The straight-edge record. -/
def straight_edge (st : ShapeState) (s : Stream) : Res (ShapeState × Stream) := do
  let (b, s) ← s.read_bits_as_uint32 4
  let bits := b + 2
  let (is_general, s) ← s.read_bits_as_uint32 1
  let ((dx, dy), s) ← (if is_general > 0 then do
      let (dx, s) ← s.read_bits_as_int32 bits
      let (dy, s) ← s.read_bits_as_int32 bits
      pure ((dx, dy), s)
    else do
      let (is_vertical, s) ← s.read_bits_as_uint32 1
      if is_vertical > 0 then do
        let (dy, s) ← s.read_bits_as_int32 bits
        pure (((0 : Int), dy), s)
      else do
        let (dx, s) ← s.read_bits_as_int32 bits
        pure ((dx, (0 : Int)), s))
  let cursor : Point := { x := st.cursor.x + dx, y := st.cursor.y + dy }
  return ({ st with cursor := cursor,
                    current_path := { st.current_path with
                      edges := st.current_path.edges ++ [.straight cursor] } }, s)

/-- The curved-edge record. -/
def curved_edge (st : ShapeState) (s : Stream) : Res (ShapeState × Stream) := do
  let (b, s) ← s.read_bits_as_uint32 4
  let bits := b + 2
  let (cx, s) ← s.read_bits_as_int32 bits
  let (cy, s) ← s.read_bits_as_int32 bits
  let (ax, s) ← s.read_bits_as_int32 bits
  let (ay, s) ← s.read_bits_as_int32 bits
  return ({ st with cursor := { x := ax, y := ay },
                    current_path := { st.current_path with
                      edges := st.current_path.edges ++ [.curve cx cy ax ay] } }, s)

/-- One iteration of the `while( true )` loop of `DefineShape::read`:
`Sum.inr` at the end-of-shape record, after its `push_path()`. -/
def shape_record (type : TagCode) (st : ShapeState) (s : Stream) :
    Res ((ShapeState ⊕ ShapeState) × Stream) := do
  let (is_edge, s) ← s.read_bits_as_uint32 1
  if ¬ (is_edge > 0) then do
    let (mask, s) ← s.read_bits_as_uint32 5
    if mask = 0x00 then
      return (.inr (push_path st false), s)
    else do
      let (st, s) ← style_change type mask st s
      return (.inl st, s)
  else do
    let (is_straight, s) ← s.read_bits_as_uint32 1
    if is_straight > 0 then do
      let (st, s) ← straight_edge st s
      return (.inl st, s)
    else do
      let (st, s) ← curved_edge st s
      return (.inl st, s)

/-- Function `DefineShape::read(stream, type)` of record.cpp up to its `return`,
with the variables of the loop as they are when the loop is left. -/
def DefineShape.read_state (s : Stream) (type : TagCode) :
    Res ((Nat × Rect × Rect × ShapeState) × Stream) := do
  if ¬ (type = TagCode.DEFINE_SHAPE ∨ type = TagCode.DEFINE_SHAPE2 ∨
        type = TagCode.DEFINE_SHAPE3 ∨ type = TagCode.DEFINE_SHAPE4) then .error .assertion
  else do
  let (character_id, s) ← s.read_uint16
  let (bounds, s) ← s.read_rect
  let (edge_bounds, s) ← (if type = TagCode.DEFINE_SHAPE4 then do
      let (edge_bounds, s) ← s.read_rect
      let (_, s) ← s.read_bits_as_uint32 5
      let (_, s) ← s.read_bits_as_uint32 1
      let (_, s) ← s.read_bits_as_uint32 1
      let (_, s) ← s.read_bits_as_uint32 1
      pure (edge_bounds, s)
    else pure (({ xmin := 0, xmax := 0, ymin := 0, ymax := 0 } : Rect), s))
  let (fill_styles, s) ← read_fill_styles s [] type
  let (line_styles, s) ← read_line_styles s [] type
  let (fill_index_bits, s) ← s.read_bits_as_uint32 4
  let (line_index_bits, s) ← s.read_bits_as_uint32 4
  let st : ShapeState :=
    { fill_styles := fill_styles, line_styles := line_styles,
      fill_index_bits := fill_index_bits, line_index_bits := line_index_bits }
  let (st, s) ← iterate (shape_record type) (shapeFuel s) st s
  return ((character_id, bounds, edge_bounds, st), s)

/-- Function `DefineShape::read(stream, type)` of record.cpp. -/
def DefineShape.read (s : Stream) (type : TagCode) : Res (DefineShape × Stream) := do
  let ((character_id, bounds, edge_bounds, st), s) ← DefineShape.read_state s type
  return ({ character_id := character_id, bounds := bounds, edge_bounds := edge_bounds,
            fill_styles := st.fill_styles, paths := st.paths }, s)

/-- Modelled from the spec: the record `PlaceObject` of record.cpp (declared
in record.hpp, not among the sources), with the fields that `parse_tag_4`
and `parse_tag_26` assign; a field that is not assigned keeps the value of
a fresh record: the identity transform, the neutral colour transform, 0 or
the empty string. -/
structure PlaceObject where
  character_id : Nat := 0
  depth : Nat := 0
  matrix : Matrix := Matrix.identity
  cxform : ColorTransform := ColorTransform.identity
  ratio : Nat := 0
  name : List Nat := []
  clip_depth : Nat := 0
deriving DecidableEq, Repr

/-- Function `PlaceObject::parse_tag_4(stream, header)`, on the record
`this`. -/
def PlaceObject.parse_tag_4 (this : PlaceObject) (s : Stream) (header : TagHeader) :
    Res (PlaceObject × Stream) := do
  let (character_id, s) ← s.read_uint16
  let (depth, s) ← s.read_uint16
  let (matrix, s) ← s.read_matrix
  let this := { this with character_id := character_id, depth := depth, matrix := matrix }
  if s.get_position < header.end_pos then do
    let (cxform, s) ← s.read_cxform_rgb
    return ({ this with cxform := cxform }, s)
  else
    return (this, s)

/-- Function `PlaceObject::parse_tag_26(stream)`, on the record `this`. The
clip-action list is not read (the two lines are commented out in the
source). -/
def PlaceObject.parse_tag_26 (this : PlaceObject) (s : Stream) :
    Res (PlaceObject × Stream) := do
  let (mask, s) ← s.read_uint8
  let (depth, s) ← s.read_uint16
  let (character_id, s) ← (if mask &&& 0x02 ≠ 0 then s.read_uint16 else pure (0, s))
  let (matrix, s) ← (if mask &&& 0x04 ≠ 0 then s.read_matrix else pure (this.matrix, s))
  let (cxform, s) ← (if mask &&& 0x08 ≠ 0 then s.read_cxform_rgba else pure (this.cxform, s))
  let (ratio, s) ← (if mask &&& 0x10 ≠ 0 then s.read_uint16 else pure (0, s))
  let (name, s) ← (if mask &&& 0x20 ≠ 0 then s.read_string else pure (this.name, s))
  let (clip_depth, s) ← (if mask &&& 0x40 ≠ 0 then s.read_uint16 else pure (this.clip_depth, s))
  return ({ character_id := character_id, depth := depth, matrix := matrix, cxform := cxform,
            ratio := ratio, name := name, clip_depth := clip_depth }, s)

/-- Function `PlaceObject::read(stream, header)` of record.cpp. -/
def PlaceObject.read (s : Stream) (header : TagHeader) : Res (PlaceObject × Stream) :=
  if ¬ (header.code = TagCode.PLACE_OBJECT ∨ header.code = TagCode.PLACE_OBJECT2) then
    .error .assertion
  else
    let record : PlaceObject := {}
    if header.code = TagCode.PLACE_OBJECT then record.parse_tag_4 s header
    else record.parse_tag_26 s

/-- The record `RemoveObject` of record.cpp. -/
structure RemoveObject where
  character_id : Nat
  depth : Nat
deriving DecidableEq, Repr

/-- Function `RemoveObject::read(stream, type)` (the same text in record.cpp
and record_control.cpp). -/
def RemoveObject.read (s : Stream) (type : TagCode) : Res (RemoveObject × Stream) :=
  if ¬ (type = TagCode.REMOVE_OBJECT ∨ type = TagCode.REMOVE_OBJECT2) then .error .assertion
  else do
    let (character_id, s) ← (if type = TagCode.REMOVE_OBJECT then s.read_uint16 else pure (0, s))
    let (depth, s) ← s.read_uint16
    return ({ character_id := character_id, depth := depth }, s)

end record_cpp

/-! ## Notions used to state the properties -/

/-- The same stream over a buffer with `e` appended. -/
def Stream.extend (s : Stream) (e : List Nat) : Stream := { s with data := s.data ++ e }

/-- A read is local when a successful read leaves the buffer as it is and
gives the same value and cursor after any bytes are appended to the
buffer. -/
def Local {α : Type} (f : Stream → Res (α × Stream)) : Prop :=
  ∀ s v s', f s = .ok (v, s') →
    s'.data = s.data ∧ ∀ e, f (s.extend e) = .ok (v, s'.extend e)

/-- The two bytes of a short tag header for code `c` and size field `sz`. -/
def encodeShortTag (c sz : Nat) : List Nat :=
  [((c <<< 6) ||| sz) % 256, ((c <<< 6) ||| sz) / 256]

/-- The six bytes of a long tag header for code `c` and 32-bit size `sz`. -/
def encodeLongTag (c sz : Nat) : List Nat :=
  encodeShortTag c 0x3f ++ [sz % 256, sz / 256 % 256, sz / 65536 % 256, sz / 16777216 % 256]

/-- The bytes of a header declaring frame count 0: signature `FWS`,
version 5, size 0, an empty stage rectangle, 12 frames per second. -/
def headerZeroFrames : List Nat := [70, 87, 83, 5, 0, 0, 0, 0, 0, 0, 12, 0, 0]

/-- The eight fixed bytes of a header with the signature `CWS` of a
compressed file. -/
def headerCompressed : List Nat := [67, 87, 83, 5, 0, 0, 0, 0]

/-- The tag codes that the `switch` of `parse` has a case for. -/
def dispatchedCodes : List TagCode :=
  [TagCode.DEFINE_SHAPE, TagCode.DEFINE_SHAPE2, TagCode.DEFINE_SHAPE3, TagCode.PLACE_OBJECT,
   TagCode.PLACE_OBJECT2, TagCode.REMOVE_OBJECT, TagCode.SHOW_FRAME]

/-- The tag chain of a buffer: starting from a tag header `tag` whose body
begins at the stream `s`, the tags met before the end tag by going from
each tag's end offset to the next header, each with the stream at the
start of its body. -/
def tagChain : Nat → TagHeader → Stream → Res (List (TagHeader × Stream))
  | 0, _, _ => .error .fuel
  | fuel + 1, tag, s =>
    if tag.code = TagCode.END then .ok []
    else do
      let (next, s2) ← TagHeader.read (s.set_position tag.end_pos)
      let rest ← tagChain fuel next s2
      return (tag, s) :: rest

/-- The tag chain of a whole file: the header, the first tag header, then
the chain from there. -/
def fileTagChain (s : Stream) : Res (List (TagHeader × Stream)) := do
  let (_, s) ← Header.read (s.set_position 0)
  let (tag, s) ← TagHeader.read s
  tagChain (s.data.length + 1) tag s

/-- A file whose PLACE_OBJECT tag declares size 0 and is followed by
SHOW_FRAME, the end tag and two more bytes: header (13 bytes), PLACE_OBJECT
header, SHOW_FRAME header, END header (bytes 17 and 18), then `x`, 0. -/
def overreadFile (x : Nat) : List Nat :=
  [70, 87, 83, 5, 0, 0, 0, 0, 0, 0, 12, 1, 0,
   0x00, 0x01,
   0x40, 0x00,
   0x00, 0x00,
   x, 0x00]

/-- The file of scenario A: a header (12 frames per second, frame count
1); DEFINE_SHAPE with id 1, one solid fill and a square of four straight
edges; PLACE_OBJECT2 with character 1, depth 1 and the identity matrix;
SHOW_FRAME; the end tag. -/
def scenarioA : List Nat :=
  [70, 87, 83, 5, 0, 0, 0, 0, 0, 0, 12, 1, 0,
   148, 0, 1, 0, 0, 1, 0, 255, 0, 0, 0, 16, 20, 29, 66, 154, 165, 53, 54, 106, 236, 0,
   134, 6, 6, 1, 0, 1, 0, 0,
   64, 0,
   0, 0]

namespace record_cpp

/-- The style indices of a path are within what their bit widths allow: a
fill index is at most `n` (a fill index base) plus the largest 15-bit
value, a line index is at most the largest 15-bit value. -/
def ShapePath.indicesWithin (n : Nat) (p : ShapePath) : Prop :=
  p.left_fill ≤ n + 32767 ∧ p.right_fill ≤ n + 32767 ∧ p.line ≤ 32767

/-- The invariant of the shape-record loop of `DefineShape::read`. -/
structure ShapeInv (st : ShapeState) : Prop where
  paths_edges : ∀ p ∈ st.paths, p.edges ≠ []
  fill_bits : st.fill_index_bits ≤ 15
  line_bits : st.line_index_bits ≤ 15
  base : st.fill_index_base ≤ st.fill_styles.length
  current : st.current_path.indicesWithin st.fill_styles.length
  paths_within : ∀ p ∈ st.paths, p.indicesWithin st.fill_styles.length

/-- A shape stream with no fill style and no line style whose only path
has left fill index 5 and line index 7: character id 1, empty bounds, both
style counts 0, index widths 4 and 4, a style-change record (fill style 0
and line style), a horizontal straight edge, the end-of-shape record. -/
def unboundedIndexShape : List Nat := [1, 0, 0, 0, 0, 68, 41, 95, 1, 0]

end record_cpp

namespace record_cpp

/-- The body of the DEFINE_SHAPE tag of scenario A: character id 1, one
solid fill, a square of four straight edges filled on the right. -/
def squareShape : List Nat :=
  [1, 0, 0, 1, 0, 255, 0, 0, 0, 16, 20, 29, 66, 154, 165, 53, 54, 106, 236, 0]

end record_cpp

/-! ### Optional fields of the placement records -/

/-- An optional field: when `c` holds the field is read with `f` from the
stream `s`, giving the value `v` and the stream `t`; when `c` does not hold
nothing is consumed (`t = s`) and the value is the default `d`. -/
def gatedRead {α : Type} (c : Prop) (f : Stream → Res (α × Stream)) (d : α)
    (s : Stream) (v : α) (t : Stream) : Prop :=
  (c → f s = .ok (v, t)) ∧ (¬ c → v = d ∧ t = s)

/-- The reads of the extended placement decoder from the stream `s` to the
stream `t`: the mask, the depth, then in this order the character id, the
matrix, the colour transform, the ratio, the name and the clip depth, each
one gated by its bit of the mask; `dm`, `dc`, `dn` and `dk` are the values
that the matrix, the colour transform, the name and the clip depth have
when their bit is clear. -/
def Place2Reads (s t : Stream) (dm : Matrix) (dc : ColorTransform) (dn : List Nat) (dk : Nat)
    (mask character_id depth : Nat) (matrix : Matrix) (cxform : ColorTransform)
    (ratio : Nat) (name : List Nat) (clip_depth : Nat) : Prop :=
  ∃ s0 s1 s2 s3 s4 s5 s6 : Stream,
    s.read_uint8 = .ok (mask, s0) ∧
    s0.read_uint16 = .ok (depth, s1) ∧
    gatedRead (mask &&& 0x02 ≠ 0) Stream.read_uint16 0 s1 character_id s2 ∧
    gatedRead (mask &&& 0x04 ≠ 0) Stream.read_matrix dm s2 matrix s3 ∧
    gatedRead (mask &&& 0x08 ≠ 0) Stream.read_cxform_rgba dc s3 cxform s4 ∧
    gatedRead (mask &&& 0x10 ≠ 0) Stream.read_uint16 0 s4 ratio s5 ∧
    gatedRead (mask &&& 0x20 ≠ 0) Stream.read_string dn s5 name s6 ∧
    gatedRead (mask &&& 0x40 ≠ 0) Stream.read_uint16 dk s6 clip_depth t

/-- A PLACE_OBJECT2 body whose mask `0x02` has the character bit only:
depth 1, character 5, then bytes that are not read. -/
def place2NoMatrix : List Nat := [0x02, 1, 0, 5, 0, 0xff, 0xff, 0xff]

/-- A file whose only frame holds a REMOVE_OBJECT2 tag for depth 1: header
(13 bytes), the tag header `0x0702` (code 28, size 2), the depth, then
SHOW_FRAME and the end tag. -/
def removeObject2File : List Nat :=
  [70, 87, 83, 5, 0, 0, 0, 0, 0, 0, 12, 1, 0,
   0x02, 0x07, 1, 0,
   0x40, 0x00,
   0x00, 0x00]

/-- The same file with a REMOVE_OBJECT tag (code 5, size 4) for character 9
at depth 1 in place of the REMOVE_OBJECT2 tag. -/
def removeObjectFile : List Nat :=
  [70, 87, 83, 5, 0, 0, 0, 0, 0, 0, 12, 1, 0,
   0x44, 0x01, 9, 0, 1, 0,
   0x40, 0x00,
   0x00, 0x00]

/-- The fill-style type bytes that `read_fill_style` accepts: solid, linear
gradient, radial gradient, focal radial gradient. -/
def supportedFillCodes : List Nat := [0x00, 0x10, 0x12, 0x13]

/-- A DEFINE_SHAPE body with one fill style of type `0x40`, a repeating
bitmap: character id 1, empty bounds, fill-style count 1, the type byte. -/
def bitmapFillShape : List Nat := [1, 0, 0, 1, 0x40, 0, 0, 0, 0, 0, 0, 0]

/-- The part of `parse_tag_26` that follows the read of the mask, as a
function of the mask. -/
def place2Body (this : record_cpp.PlaceObject) (mask : Nat) (s : Stream) :
    Res (record_cpp.PlaceObject × Stream) := do
  let (depth, s) ← s.read_uint16
  let (character_id, s) ← (if mask &&& 0x02 ≠ 0 then s.read_uint16 else pure (0, s))
  let (matrix, s) ← (if mask &&& 0x04 ≠ 0 then s.read_matrix else pure (this.matrix, s))
  let (cxform, s) ← (if mask &&& 0x08 ≠ 0 then s.read_cxform_rgba else pure (this.cxform, s))
  let (ratio, s) ← (if mask &&& 0x10 ≠ 0 then s.read_uint16 else pure (0, s))
  let (name, s) ← (if mask &&& 0x20 ≠ 0 then s.read_string else pure (this.name, s))
  let (clip_depth, s) ← (if mask &&& 0x40 ≠ 0 then s.read_uint16 else pure (this.clip_depth, s))
  return ({ character_id := character_id, depth := depth, matrix := matrix, cxform := cxform,
            ratio := ratio, name := name, clip_depth := clip_depth }, s)

/-- The record of openswf_parser.cpp with the fields of a placement record
of record.cpp. -/
def record_cpp.PlaceObject.toParser2 (r : record_cpp.PlaceObject) : parser_cpp.PlaceObject2 :=
  { character_id := r.character_id, depth := r.depth, matrix := r.matrix, cxform := r.cxform,
    ratio := r.ratio, name := r.name, clip_depth := r.clip_depth }

/-- A PLACE_OBJECT2 body whose mask `0x82` has the clip-actions bit and the
character bit: depth 1, character 5, then two bytes that would begin a
clip-action list. -/
def place2ClipActions : List Nat := [0x82, 1, 0, 5, 0, 0xff, 0xff]

/-! ### The playback clock -/

/-- The player with its timer and frame index replaced. -/
def Player.withClock (pl : Player) (timer : Rat) (frame : Nat) : Player :=
  { pl with m_timer := timer, m_current_frame := frame }

/-- A player at frame 0 of a timeline of three frames, 12 frames per
second, whose dictionary holds no character. -/
def threeFramePlayer : Player :=
  { m_frame_size := { xmin := 0, xmax := 0, ymin := 0, ymax := 0 },
    m_frame_rate := { raw := 3072 }, m_frame_count := 3,
    m_frames := [[], [Command.remove 0 1], [Command.remove 0 2]] }

/-- A player whose frame index has reached the number of frames. -/
def finishedPlayer : Player :=
  { threeFramePlayer with m_current_frame := 3 }

namespace record_cpp

/-- A DefineShape body with no styles and index widths 0 and 0: a straight
edge by (1, 0), a style-change record with mask 0x02 (fill style 0), a
straight edge by (1, 0), the end record. -/
def zeroWidthShape : List Nat := [1, 0, 0, 0, 0, 0x00, 0xC0, 0x42, 0xC0, 0x40]

/-- The same records with a fill index width of 1: the style-change record
is followed by the index 0 in one bit. -/
def oneBitWidthShape : List Nat := [1, 0, 0, 0, 0, 0x10, 0xC0, 0x42, 0x60, 0x20, 0x00]

/-- The state in which a path with one edge and left fill 3 is in progress and
the fill index width is `w`. -/
def pathInProgress (w : Nat) : ShapeState :=
  { fill_styles := [], line_styles := [], fill_index_bits := w, line_index_bits := 0,
    fill_index_base := 2, cursor := { x := 1, y := 0 },
    current_path := { left_fill := 3, right_fill := 3,
                      edges := [ShapeEdge.straight { x := 1, y := 0 }] } }

end record_cpp

/-- A DefineShape body with no styles and index widths 0 and 0, whose only
record before the end record is a style-change record with mask 0x10 (new
styles) that declares no new fill style, no new line style and the widths 0
and 0. -/
def newStylesShape : List Nat := [1, 0, 0, 0, 0, 0x00, 0x40, 0, 0, 0x00, 0x00]

namespace record_cpp

/-- The body of a general straight-edge record after its two type bits:
length field 0 (deltas of 2 bits), general flag 1, dx = 1, dy = -1. -/
def generalEdgeBody : List Nat := [0x0B, 0x80]

/-- The body of a curved-edge record after its two type bits: length field
0 (values of 2 bits), control point (1, 1), anchor (-1, 1). -/
def curvedEdgeBody : List Nat := [0x05, 0xD0]

end record_cpp

/-! ### Style counts, dropped edges, loop iterations -/

/-- The count that a style array declares: the count byte when it is below
`0xFF`, the 16-bit field that follows it when the count byte is `0xFF`. -/
def declared_style_count (s : Stream) : Res (Nat × Stream) := do
  let (count, s) ← s.read_uint8
  if count = 0xFF then s.read_uint16 else return (count, s)

/-- A style array that declares 257 entries in the extended form (count
byte `0xFF`, then the 16-bit count `0x0101`), followed by 257 entries of
four bytes each: a solid fill of type byte 0 with an RGB colour. -/
def wideCountStyles : List Nat :=
  [0xFF, 0x01, 0x01] ++ (List.replicate 257 [0, 1, 2, 3]).flatten

/-- A DefineShape body with no styles and index widths 0 and 0, holding a
style-change record (mask 0x02), a general straight edge by (1, 1), a
vertical straight edge by 1, a horizontal straight edge by 1 and the end
record. -/
def mixedEdgesShape : List Nat := [1, 0, 0, 0, 0, 0x00, 0x0b, 0x0a, 0xe0, 0xb8, 0x08, 0x00]

/-- The number of iterations that the loop `Player.update_loop` performs:
the loop with its effects left out and its iterations counted. -/
def Player.update_loop_count (frame_delta : Rat) : Nat → Player → Nat
  | 0, _ => 0
  | fuel + 1, pl =>
    if pl.m_timer > frame_delta then
      let pl := { pl with m_timer := pl.m_timer - frame_delta,
                          m_current_frame := pl.m_current_frame + 1 }
      if pl.m_current_frame ≥ pl.m_frames.length then 1
      else 1 + Player.update_loop_count frame_delta fuel
                 (pl.execute_all (pl.m_frames.getD pl.m_current_frame []))
    else 0

/-- The player of three frames at frame 1 with a frame rate of -12 frames per
second, so that the frame period is negative. -/
def negativeRatePlayer : Player :=
  { threeFramePlayer with m_frame_rate := { raw := -3072 }, m_current_frame := 1 }

/-! ### The records of a shape-record stream -/

namespace record_cpp

/-- A record of a shape-record stream before the end record: a
style-change record with its mask, or an edge record with the edge it
decodes to. -/
inductive ShapeEvent where
  | style (mask : Nat)
  | edge (e : ShapeEdge)
deriving DecidableEq, Repr

/-- The edges of a list of records, in order. -/
def ShapeEvent.edges : List ShapeEvent → List ShapeEdge
  | [] => []
  | .style _ :: rest => ShapeEvent.edges rest
  | .edge e :: rest => e :: ShapeEvent.edges rest

/-- What an edge record decodes to at the cursor `cursor`, the stream being
right after the record's first bit: a straight edge to the cursor moved by
the deltas read (both for a general line, one for a vertical or a
horizontal line), or a curved edge with the four values read. -/
def edge_of_record (cursor : Point) (s : Stream) : Res (ShapeEdge × Stream) := do
  let (is_straight, s) ← s.read_bits_as_uint32 1
  let (L, s) ← s.read_bits_as_uint32 4
  if is_straight > 0 then do
    let (general, s) ← s.read_bits_as_uint32 1
    if general > 0 then do
      let (dx, s) ← s.read_bits_as_int32 (L + 2)
      let (dy, s) ← s.read_bits_as_int32 (L + 2)
      return (.straight { x := cursor.x + dx, y := cursor.y + dy }, s)
    else do
      let (vertical, s) ← s.read_bits_as_uint32 1
      let (d, s) ← s.read_bits_as_int32 (L + 2)
      if vertical > 0 then return (.straight { x := cursor.x, y := cursor.y + d }, s)
      else return (.straight { x := cursor.x + d, y := cursor.y }, s)
  else do
    let (cx, s) ← s.read_bits_as_int32 (L + 2)
    let (cy, s) ← s.read_bits_as_int32 (L + 2)
    let (ax, s) ← s.read_bits_as_int32 (L + 2)
    let (ay, s) ← s.read_bits_as_int32 (L + 2)
    return (.curve cx cy ax ay, s)

/-- The record at the head of the stream, `none` for the end record. -/
def record_event (cursor : Point) (s : Stream) : Res (Option ShapeEvent) := do
  let (is_edge, s) ← s.read_bits_as_uint32 1
  if is_edge > 0 then do
    let (e, _) ← edge_of_record cursor s
    return some (.edge e)
  else do
    let (mask, _) ← s.read_bits_as_uint32 5
    return (if mask = 0 then none else some (.style mask))

/-- The records of a shape-record stream up to its end record, read with the
loop state of `DefineShape::read` (the cursor and the index widths are those
of the decoder). -/
def shape_events (type : TagCode) : Nat → ShapeState → Stream → Res (List ShapeEvent)
  | 0, _, _ => .error .fuel
  | fuel + 1, st, s => do
    let ev ← record_event st.cursor s
    match ev with
    | none => return []
    | some e => do
      let (r, s) ← shape_record type st s
      let rest ← shape_events type fuel (Sum.elim id id r) s
      return e :: rest

/-- The state and the stream with which `DefineShape::read` of record.cpp
enters its loop: the part of the function before `while( true )`. -/
def shape_loop_start (s : Stream) (type : TagCode) : Res (ShapeState × Stream) := do
  if ¬ (type = TagCode.DEFINE_SHAPE ∨ type = TagCode.DEFINE_SHAPE2 ∨
        type = TagCode.DEFINE_SHAPE3 ∨ type = TagCode.DEFINE_SHAPE4) then .error .assertion
  else do
  let (_, s) ← s.read_uint16
  let (_, s) ← s.read_rect
  let (_, s) ← (if type = TagCode.DEFINE_SHAPE4 then do
      let (edge_bounds, s) ← s.read_rect
      let (_, s) ← s.read_bits_as_uint32 5
      let (_, s) ← s.read_bits_as_uint32 1
      let (_, s) ← s.read_bits_as_uint32 1
      let (_, s) ← s.read_bits_as_uint32 1
      pure (edge_bounds, s)
    else pure (({ xmin := 0, xmax := 0, ymin := 0, ymax := 0 } : Rect), s))
  let (fill_styles, s) ← read_fill_styles s [] type
  let (line_styles, s) ← read_line_styles s [] type
  let (fill_index_bits, s) ← s.read_bits_as_uint32 4
  let (line_index_bits, s) ← s.read_bits_as_uint32 4
  return ({ fill_styles := fill_styles, line_styles := line_styles,
            fill_index_bits := fill_index_bits, line_index_bits := line_index_bits }, s)

/-- The edges a loop state holds: those of the paths emitted so far, then
those of the path in progress. -/
def ShapeState.all_edges (st : ShapeState) : List ShapeEdge :=
  (st.paths.map (fun p => p.edges)).flatten ++ st.current_path.edges

end record_cpp

/-- The loop state and the stream after `n` iterations of a loop that has
neither ended nor failed before. -/
def loop_state_after {α ρ : Type} (step : α → Stream → Res ((α ⊕ ρ) × Stream)) :
    Nat → α → Stream → Option (α × Stream)
  | 0, a, s => some (a, s)
  | n + 1, a, s =>
    match step a s with
    | .ok (.inl a1, s1) => loop_state_after step n a1 s1
    | _ => none

/-! ### Termination of the decode loops -/

/-- The bits that the reads can still consume: those of the bytes from the
cursor to the end of the buffer and the unused bits of the current byte. -/
def Stream.bits_left (s : Stream) : Nat := 8 * (s.data.length - s.pos) + s.unused

/-- A reader that ends within its fuel and only moves forward: on a stream
with at most 7 unused bits it does not run out of fuel, and when it succeeds
it leaves the buffer unchanged, at most 7 unused bits, and no more bits to
consume than before. -/
def Steady {α : Type} (f : Stream → Res (α × Stream)) : Prop :=
  ∀ s, s.unused ≤ 7 → f s ≠ .error .fuel ∧
    ∀ a s', f s = .ok (a, s') →
      s'.data = s.data ∧ s'.unused ≤ 7 ∧ s'.bits_left ≤ s.bits_left

/-- A reader that consumes at least one bit when it succeeds. -/
def Strict {α : Type} (f : Stream → Res (α × Stream)) : Prop :=
  ∀ s, s.unused ≤ 7 → ∀ a s', f s = .ok (a, s') → s'.bits_left < s.bits_left

namespace record_cpp

end record_cpp

/-! # Properties -/

/-! ## Locality of the stream readers -/

theorem bind_eq_ok {α β : Type} (x : Res α) (g : α → Res β) (b : β) :
    (x >>= g) = .ok b ↔ ∃ a, x = .ok a ∧ g a = .ok b := by
  cases x with
  | error err => exact ⟨fun h => (by cases h), fun ⟨a, h, _⟩ => (by cases h)⟩
  | ok a => exact ⟨fun h => ⟨a, rfl, h⟩, fun ⟨a', h, h'⟩ => (by cases h; exact h')⟩

theorem Local.pure_of {α : Type} (F : Stream → α)
    (hF : ∀ s e, F (s.extend e) = F s) :
    Local (fun s => (Pure.pure (F s, s) : Res (α × Stream))) := by
  intro s v s' h
  cases h
  exact ⟨rfl, fun e => (by show Except.ok (F (s.extend e), s.extend e) = _; rw [hF])⟩

theorem Local.pure {α : Type} (v : α) :
    Local (fun s => (Pure.pure (v, s) : Res (α × Stream))) :=
  Local.pure_of (fun _ => v) (fun _ _ => rfl)

theorem Local.ok {α : Type} (v : α) :
    Local (fun s => (Except.ok (v, s) : Res (α × Stream))) :=
  Local.pure v

theorem Local.error {α : Type} (err : DecodeError) :
    Local (fun _ => (Except.error err : Res (α × Stream))) := by
  intro s v s' h; cases h

theorem Local.bind {α β : Type} {f : Stream → Res (α × Stream)}
    {g : α × Stream → Res (β × Stream)}
    (hf : Local f) (hg : ∀ a, Local (fun s => g (a, s))) :
    Local (fun s => f s >>= g) := by
  intro s v s' h
  change f s >>= g = _ at h
  obtain ⟨⟨a, s1⟩, hfs, hgs⟩ := (bind_eq_ok _ _ _).1 h
  obtain ⟨hd1, he1⟩ := hf s a s1 hfs
  obtain ⟨hd2, he2⟩ := hg a s1 v s' hgs
  refine ⟨hd2.trans hd1, fun e => ?_⟩
  show f (s.extend e) >>= g = _
  rw [he1 e]
  exact he2 e

theorem Local.ite {α : Type} (c : Prop) [Decidable c] {f g : Stream → Res (α × Stream)}
    (hf : Local f) (hg : Local g) : Local (fun s => if c then f s else g s) := by
  by_cases h : c
  · simpa [h] using hf
  · simpa [h] using hg

theorem Local.ite_pos {α : Type} (P : Nat → Prop) [DecidablePred P]
    {f g : Stream → Res (α × Stream)}
    (hf : Local f) (hg : Local g) : Local (fun s => if P s.get_position then f s else g s) := by
  intro s v s' h
  by_cases hp : P s.get_position
  · simp only [hp, if_true] at h
    obtain ⟨h1, h2⟩ := hf s v s' h
    refine ⟨h1, fun e => ?_⟩
    have : P (s.extend e).get_position := hp
    simp only [this, if_true]
    exact h2 e
  · simp only [hp, if_false] at h
    obtain ⟨h1, h2⟩ := hg s v s' h
    refine ⟨h1, fun e => ?_⟩
    have : ¬ P (s.extend e).get_position := hp
    simp only [this, if_false]
    exact h2 e

theorem getElem?_extend (s : Stream) (e : List Nat) (b : Nat)
    (hb : s.data[s.pos]? = some b) : (s.extend e).data[(s.extend e).pos]? = some b := by
  obtain ⟨hlt, hb⟩ := List.getElem?_eq_some.1 hb
  show (s.data ++ e)[s.pos]? = some b
  rw [List.getElem?_append_left hlt, List.getElem?_eq_some]
  exact ⟨hlt, hb⟩

theorem local_read_uint8 : Local Stream.read_uint8 := by
  intro s v s' h
  unfold Stream.read_uint8 at h
  split at h
  · cases h
  · rename_i b hb
    cases h
    refine ⟨rfl, fun e => ?_⟩
    unfold Stream.read_uint8
    rw [getElem?_extend s e b hb]
    rfl

theorem local_read_bit : Local Stream.read_bit := by
  intro s v s' h
  unfold Stream.read_bit at h
  split at h
  · rename_i hu
    split at h
    · cases h
    · rename_i b hb
      cases h
      refine ⟨rfl, fun e => ?_⟩
      unfold Stream.read_bit
      have hu' : (s.extend e).unused = 0 := hu
      rw [if_pos hu', getElem?_extend s e b hb]
      rfl
  · rename_i hu
    cases h
    refine ⟨rfl, fun e => ?_⟩
    unfold Stream.read_bit
    have hu' : ¬ (s.extend e).unused = 0 := hu
    rw [if_neg hu']
    rfl

theorem local_read_uint16 : Local Stream.read_uint16 := by
  unfold Stream.read_uint16
  repeat (first | exact local_read_uint8 | exact Local.pure _ | apply Local.bind | intro _)

theorem local_read_uint32 : Local Stream.read_uint32 := by
  unfold Stream.read_uint32
  repeat (first | exact local_read_uint8 | exact Local.pure _ | apply Local.bind | intro _)

theorem local_read_int16 : Local Stream.read_int16 := by
  unfold Stream.read_int16
  repeat (first | exact local_read_uint16 | exact Local.pure _ | apply Local.bind | intro _)

theorem local_read_int32 : Local Stream.read_int32 := by
  unfold Stream.read_int32
  repeat (first | exact local_read_uint32 | exact Local.pure _ | apply Local.bind | intro _)

theorem local_read_bits_loop (n : Nat) : Local (Stream.read_bits_loop n) := by
  induction n with
  | zero => exact Local.ok 0
  | succ n ih =>
    show Local (fun s => Stream.read_bits_loop (n + 1) s)
    unfold Stream.read_bits_loop
    repeat (first | exact local_read_bit | exact ih | exact Local.pure _ | apply Local.bind | intro _)

theorem local_read_bits_as_uint32 (n : Nat) : Local (fun s => Stream.read_bits_as_uint32 s n) := by
  unfold Stream.read_bits_as_uint32
  exact Local.ite _ (Local.error _) (local_read_bits_loop n)

theorem local_read_bits_as_int32 (n : Nat) : Local (fun s => Stream.read_bits_as_int32 s n) := by
  unfold Stream.read_bits_as_int32
  repeat (first | exact local_read_bits_as_uint32 _ | exact Local.pure _ | apply Local.bind | intro _)

theorem local_read_rect : Local Stream.read_rect := by
  unfold Stream.read_rect
  repeat (first | exact local_read_bits_as_uint32 _ | exact local_read_bits_as_int32 _
                | exact Local.pure _ | apply Local.bind | intro _)

theorem local_read_fixed16 : Local Stream.read_fixed16 := by
  unfold Stream.read_fixed16
  repeat (first | exact local_read_int16 | exact Local.pure _ | apply Local.bind | intro _)

theorem local_Header_read : Local Header.read := by
  unfold Header.read
  repeat (first | exact local_read_uint8 | exact local_read_uint32 | exact local_read_rect
                | exact local_read_fixed16 | exact local_read_uint16
                | exact Local.pure _ | exact Local.error _
                | apply Local.bind | apply Local.ite | intro _)

theorem local_TagHeader_read : Local TagHeader.read := by
  unfold TagHeader.read
  repeat (first | exact local_read_uint16 | exact local_read_int32
                | exact Local.pure_of (fun s => (_ : TagHeader)) (fun _ _ => rfl)
                | exact Local.error _
                | apply Local.bind | apply Local.ite | intro _)

/-! ## Byte-aligned reads -/

theorem read_uint8_ok {s s' : Stream} {v : Nat} (h : s.read_uint8 = .ok (v, s')) :
    ∃ b, s.data[s.pos]? = some b ∧ v = b % 256 ∧
      s' = { s with pos := s.pos + 1, cur := 0, unused := 0 } := by
  unfold Stream.read_uint8 at h
  split at h
  · cases h
  · rename_i b hb
    cases h
    exact ⟨b, hb, rfl, rfl⟩

theorem read_uint8_of_getElem? {s : Stream} {b : Nat} (hb : s.data[s.pos]? = some b) :
    s.read_uint8 = .ok (b % 256, { s with pos := s.pos + 1, cur := 0, unused := 0 }) := by
  unfold Stream.read_uint8
  rw [hb]

theorem read_uint16_ok {s s' : Stream} {v : Nat} (h : s.read_uint16 = .ok (v, s')) :
    ∃ b0 b1, s.data[s.pos]? = some b0 ∧ s.data[s.pos + 1]? = some b1 ∧
      v = b0 % 256 + 256 * (b1 % 256) ∧
      s' = { s with pos := s.pos + 2, cur := 0, unused := 0 } := by
  unfold Stream.read_uint16 at h
  obtain ⟨⟨x0, s0⟩, h0, h⟩ := (bind_eq_ok _ _ _).1 h
  obtain ⟨⟨x1, s1⟩, h1, h⟩ := (bind_eq_ok _ _ _).1 h
  obtain ⟨b0, hb0, rfl, rfl⟩ := read_uint8_ok h0
  obtain ⟨b1, hb1, rfl, rfl⟩ := read_uint8_ok h1
  cases h
  exact ⟨b0, b1, hb0, hb1, rfl, rfl⟩

theorem read_uint16_lt {s s' : Stream} {v : Nat} (h : s.read_uint16 = .ok (v, s')) :
    v < 65536 := by
  obtain ⟨b0, b1, -, -, rfl, -⟩ := read_uint16_ok h
  omega

theorem read_uint32_ok {s s' : Stream} {v : Nat} (h : s.read_uint32 = .ok (v, s')) :
    ∃ b0 b1 b2 b3, s.data[s.pos]? = some b0 ∧ s.data[s.pos + 1]? = some b1 ∧
      s.data[s.pos + 2]? = some b2 ∧ s.data[s.pos + 3]? = some b3 ∧
      v = b0 % 256 + 256 * (b1 % 256) + 65536 * (b2 % 256) + 16777216 * (b3 % 256) ∧
      s' = { s with pos := s.pos + 4, cur := 0, unused := 0 } := by
  unfold Stream.read_uint32 at h
  obtain ⟨⟨x0, s0⟩, h0, h⟩ := (bind_eq_ok _ _ _).1 h
  obtain ⟨⟨x1, s1⟩, h1, h⟩ := (bind_eq_ok _ _ _).1 h
  obtain ⟨⟨x2, s2⟩, h2, h⟩ := (bind_eq_ok _ _ _).1 h
  obtain ⟨⟨x3, s3⟩, h3, h⟩ := (bind_eq_ok _ _ _).1 h
  obtain ⟨b0, hb0, rfl, rfl⟩ := read_uint8_ok h0
  obtain ⟨b1, hb1, rfl, rfl⟩ := read_uint8_ok h1
  obtain ⟨b2, hb2, rfl, rfl⟩ := read_uint8_ok h2
  obtain ⟨b3, hb3, rfl, rfl⟩ := read_uint8_ok h3
  cases h
  exact ⟨b0, b1, b2, b3, hb0, hb1, hb2, hb3, rfl, rfl⟩

/-! ## Header::read -/

/-- C1. Whenever `Header::read` succeeds, the last two bytes it consumed
are the declared 16-bit little-endian frame count, and the returned
`frame_count` is the maximum of that value and 1; so it is never 0, and a
declared count of 0 yields 1. -/
theorem Header_read_frame_count_floor (s s' : Stream) (hd : Header)
    (h : Header.read s = .ok (hd, s')) :
    ∃ b0 b1 : Nat, 2 ≤ s'.pos ∧ s.data[s'.pos - 2]? = some b0 ∧
      s.data[s'.pos - 1]? = some b1 ∧
      hd.frame_count = max (b0 % 256 + 256 * (b1 % 256)) 1 ∧
      hd.frame_count ≠ 0 ∧
      (b0 % 256 + 256 * (b1 % 256) = 0 → hd.frame_count = 1) := by
  have hdata := (local_Header_read s hd s' h).1
  unfold Header.read at h
  obtain ⟨⟨x0, s0⟩, h0, h⟩ := (bind_eq_ok _ _ _).1 h
  obtain ⟨⟨x1, s1⟩, h1, h⟩ := (bind_eq_ok _ _ _).1 h
  obtain ⟨⟨x2, s2⟩, h2, h⟩ := (bind_eq_ok _ _ _).1 h
  obtain ⟨⟨x3, s3⟩, h3, h⟩ := (bind_eq_ok _ _ _).1 h
  obtain ⟨⟨x4, s4⟩, h4, h⟩ := (bind_eq_ok _ _ _).1 h
  dsimp only at h
  split at h
  · cases h
  split at h
  · cases h
  obtain ⟨⟨r, s5⟩, h5, h⟩ := (bind_eq_ok _ _ _).1 h
  obtain ⟨⟨fr, s6⟩, h6, h⟩ := (bind_eq_ok _ _ _).1 h
  obtain ⟨⟨fc, s7⟩, h7, h⟩ := (bind_eq_ok _ _ _).1 h
  cases h
  obtain ⟨b0, b1, hb0, hb1, rfl, rfl⟩ := read_uint16_ok h7
  have hd6 : s6.data = s.data := hdata
  refine ⟨b0, b1, ?_, ?_, ?_, rfl, ?_, ?_⟩
  · show 2 ≤ s6.pos + 2
    omega
  · show s.data[s6.pos + 2 - 2]? = some b0
    rw [← hd6]; simpa using hb0
  · show s.data[s6.pos + 2 - 1]? = some b1
    rw [← hd6]; simpa using hb1
  · show max (b0 % 256 + 256 * (b1 % 256)) 1 ≠ 0
    omega
  · intro hz
    show max (b0 % 256 + 256 * (b1 % 256)) 1 = 1
    omega

/-- Witness of C1: a header declaring 0 frames decodes to `frame_count = 1`. -/
theorem Header_read_frame_count_floor_witness :
    ∃ b0 b1 : Nat, 2 ≤ 13 ∧ headerZeroFrames[13 - 2]? = some b0 ∧
      headerZeroFrames[13 - 1]? = some b1 ∧
      1 = max (b0 % 256 + 256 * (b1 % 256)) 1 ∧
      1 ≠ 0 ∧
      (b0 % 256 + 256 * (b1 % 256) = 0 → 1 = 1) :=
  Header_read_frame_count_floor (Stream.ofData headerZeroFrames)
    { data := headerZeroFrames, pos := 13, cur := 0, unused := 0 }
    { compressed := false, version := 5, size := 0,
      frame_size := { xmin := 0, xmax := 0, ymin := 0, ymax := 0 },
      frame_rate := { raw := 3072 }, frame_count := 1 }
    rfl

/-! ## Results that are not assertion failures -/

theorem ok_bind {α β : Type} (a : α) (g : α → Res β) : (Except.ok a >>= g) = g a := rfl

theorem error_bind {α β : Type} (err : DecodeError) (g : α → Res β) :
    ((Except.error err : Res α) >>= g) = Except.error err := rfl

theorem bind_ne_assertion {α β : Type} {x : Res α} {g : α → Res β}
    (hx : x ≠ .error .assertion) (hg : ∀ a, x = .ok a → g a ≠ .error .assertion) :
    (x >>= g) ≠ .error .assertion := by
  cases x with
  | error err =>
    rw [error_bind]
    intro h
    cases h
    exact hx rfl
  | ok a =>
    rw [ok_bind]
    exact hg a rfl

theorem read_uint8_ne_assertion (s : Stream) : s.read_uint8 ≠ .error .assertion := by
  unfold Stream.read_uint8
  split <;> simp

theorem read_uint16_ne_assertion (s : Stream) : s.read_uint16 ≠ .error .assertion := by
  unfold Stream.read_uint16
  refine bind_ne_assertion (read_uint8_ne_assertion _) (fun a _ => ?_)
  refine bind_ne_assertion (read_uint8_ne_assertion _) (fun b _ => ?_)
  simp [pure, Except.pure]

theorem read_int16_ne_assertion (s : Stream) : s.read_int16 ≠ .error .assertion := by
  unfold Stream.read_int16
  refine bind_ne_assertion (read_uint16_ne_assertion _) (fun a _ => ?_)
  simp [pure, Except.pure]

theorem read_fixed16_ne_assertion (s : Stream) : s.read_fixed16 ≠ .error .assertion := by
  unfold Stream.read_fixed16
  refine bind_ne_assertion (read_int16_ne_assertion _) (fun a _ => ?_)
  simp [pure, Except.pure]

theorem read_bit_ne_assertion (s : Stream) : s.read_bit ≠ .error .assertion := by
  unfold Stream.read_bit
  split
  · split <;> simp
  · simp

theorem read_bit_lt {s s' : Stream} {v : Nat} (h : s.read_bit = .ok (v, s')) : v < 2 := by
  unfold Stream.read_bit at h
  split at h
  · split at h
    · cases h
    · cases h
      omega
  · cases h
    omega

theorem read_bits_loop_ne_assertion (n : Nat) (s : Stream) :
    Stream.read_bits_loop n s ≠ .error .assertion := by
  induction n generalizing s with
  | zero => simp [Stream.read_bits_loop]
  | succ n ih =>
    unfold Stream.read_bits_loop
    refine bind_ne_assertion (read_bit_ne_assertion _) (fun a _ => ?_)
    refine bind_ne_assertion (ih _) (fun b _ => ?_)
    simp [pure, Except.pure]

theorem read_bits_loop_lt (n : Nat) {s s' : Stream} {v : Nat}
    (h : Stream.read_bits_loop n s = .ok (v, s')) : v < 2 ^ n := by
  induction n generalizing s s' v with
  | zero =>
    cases h
    simp
  | succ n ih =>
    unfold Stream.read_bits_loop at h
    obtain ⟨⟨b, s1⟩, h1, h⟩ := (bind_eq_ok _ _ _).1 h
    obtain ⟨⟨r, s2⟩, h2, h⟩ := (bind_eq_ok _ _ _).1 h
    cases h
    have hb := read_bit_lt h1
    have hr := ih h2
    show b * 2 ^ n + r < 2 ^ (n + 1)
    have : b * 2 ^ n ≤ 1 * 2 ^ n := Nat.mul_le_mul_right _ (by omega)
    rw [pow_succ]
    omega

theorem read_bits_as_uint32_lt {n : Nat} {s s' : Stream} {v : Nat}
    (h : s.read_bits_as_uint32 n = .ok (v, s')) : v < 2 ^ n ∧ n ≤ 32 := by
  unfold Stream.read_bits_as_uint32 at h
  split at h
  · cases h
  · exact ⟨read_bits_loop_lt n h, by omega⟩

theorem read_bits_as_uint32_ne_assertion (s : Stream) (n : Nat) (hn : n ≤ 32) :
    s.read_bits_as_uint32 n ≠ .error .assertion := by
  unfold Stream.read_bits_as_uint32
  rw [if_neg (by omega)]
  exact read_bits_loop_ne_assertion n s

theorem read_bits_as_int32_ne_assertion (s : Stream) (n : Nat) (hn : n ≤ 32) :
    s.read_bits_as_int32 n ≠ .error .assertion := by
  unfold Stream.read_bits_as_int32
  refine bind_ne_assertion (read_bits_as_uint32_ne_assertion _ _ hn) (fun a _ => ?_)
  simp [pure, Except.pure]

theorem read_rect_ne_assertion (s : Stream) : s.read_rect ≠ .error .assertion := by
  unfold Stream.read_rect
  refine bind_ne_assertion (read_bits_as_uint32_ne_assertion _ _ (by omega)) (fun a ha => ?_)
  obtain ⟨bits, s1⟩ := a
  have hb : bits ≤ 32 := by
    have := (read_bits_as_uint32_lt ha).1
    omega
  refine bind_ne_assertion (read_bits_as_int32_ne_assertion _ _ hb) (fun _ _ => ?_)
  refine bind_ne_assertion (read_bits_as_int32_ne_assertion _ _ hb) (fun _ _ => ?_)
  refine bind_ne_assertion (read_bits_as_int32_ne_assertion _ _ hb) (fun _ _ => ?_)
  refine bind_ne_assertion (read_bits_as_int32_ne_assertion _ _ hb) (fun _ _ => ?_)
  simp [pure, Except.pure]

/-! ## The signature checks of Header::read -/

theorem getElem?_of_lt (l : List Nat) (i : Nat) (h : i < l.length) : ∃ b, l[i]? = some b :=
  ⟨l[i], List.getElem?_eq_getElem h⟩

/-- The eight fixed bytes of a header are read before either assertion is
evaluated: with them in the buffer, `Header::read` is the two signature
checks followed by the rest of the header. -/
theorem Header_read_fixed_part (s : Stream) (b0 b1 b2 : Nat)
    (h8 : s.pos + 8 ≤ s.data.length)
    (h0 : s.data[s.pos]? = some b0) (h1 : s.data[s.pos + 1]? = some b1)
    (h2 : s.data[s.pos + 2]? = some b2) :
    ∃ (version size : Nat) (s4 : Stream), Header.read s =
      (if (b0 % 256 != 70) = true then .error .assertion else
       if ¬ (b1 % 256 = 87 ∧ b2 % 256 = 83) then .error .assertion else do
        let (frame_size, s) ← s4.read_rect
        let (frame_rate, s) ← s.read_fixed16
        let (frame_count, s) ← s.read_uint16
        return ({ compressed := (b0 % 256 != 70), version := version, size := size,
                  frame_size := frame_size, frame_rate := frame_rate,
                  frame_count := max frame_count 1 }, s)) := by
  obtain ⟨b3, h3⟩ := getElem?_of_lt s.data (s.pos + 3) (by omega)
  obtain ⟨b4, h4⟩ := getElem?_of_lt s.data (s.pos + 4) (by omega)
  obtain ⟨b5, h5⟩ := getElem?_of_lt s.data (s.pos + 5) (by omega)
  obtain ⟨b6, h6⟩ := getElem?_of_lt s.data (s.pos + 6) (by omega)
  obtain ⟨b7, h7⟩ := getElem?_of_lt s.data (s.pos + 7) (by omega)
  refine ⟨b3 % 256,
    b4 % 256 + 256 * (b5 % 256) + 65536 * (b6 % 256) + 16777216 * (b7 % 256),
    { s with pos := s.pos + 1 + 1 + 1 + 1 + 1 + 1 + 1 + 1, cur := 0, unused := 0 }, ?_⟩
  unfold Header.read Stream.read_uint32
  rw [read_uint8_of_getElem? h0, ok_bind]
  dsimp only
  rw [read_uint8_of_getElem? (s := { s with pos := s.pos + 1, cur := 0, unused := 0 }) h1, ok_bind]
  dsimp only
  rw [read_uint8_of_getElem? (s := { s with pos := s.pos + 1 + 1, cur := 0, unused := 0 }) h2,
    ok_bind]
  dsimp only
  rw [read_uint8_of_getElem? (s := { s with pos := s.pos + 1 + 1 + 1, cur := 0, unused := 0 }) h3,
    ok_bind]
  dsimp only
  rw [read_uint8_of_getElem?
    (s := { s with pos := s.pos + 1 + 1 + 1 + 1, cur := 0, unused := 0 }) h4, ok_bind]
  dsimp only
  rw [read_uint8_of_getElem?
    (s := { s with pos := s.pos + 1 + 1 + 1 + 1 + 1, cur := 0, unused := 0 }) h5, ok_bind]
  dsimp only
  rw [read_uint8_of_getElem?
    (s := { s with pos := s.pos + 1 + 1 + 1 + 1 + 1 + 1, cur := 0, unused := 0 }) h6, ok_bind]
  dsimp only
  rw [read_uint8_of_getElem?
    (s := { s with pos := s.pos + 1 + 1 + 1 + 1 + 1 + 1 + 1, cur := 0, unused := 0 }) h7, ok_bind]
  rfl

/-- C2. On a buffer that holds the 8 fixed header bytes, `Header::read`
fails on its assertion whenever byte 0 is not `F` (a compressed body) and
whenever bytes 1 and 2 are not `W`, `S`; when the three bytes are `F`, `W`,
`S` no assertion of `Header::read` fails. -/
theorem Header_read_signature (s : Stream) (b0 b1 b2 : Nat)
    (h8 : s.pos + 8 ≤ s.data.length)
    (h0 : s.data[s.pos]? = some b0) (h1 : s.data[s.pos + 1]? = some b1)
    (h2 : s.data[s.pos + 2]? = some b2) :
    (b0 % 256 ≠ 70 → Header.read s = .error .assertion) ∧
    (¬ (b1 % 256 = 87 ∧ b2 % 256 = 83) → Header.read s = .error .assertion) ∧
    (b0 % 256 = 70 → b1 % 256 = 87 → b2 % 256 = 83 →
      Header.read s ≠ .error .assertion) := by
  obtain ⟨version, size, s4, hr⟩ := Header_read_fixed_part s b0 b1 b2 h8 h0 h1 h2
  rw [hr]
  refine ⟨fun hF => ?_, fun hWS => ?_, fun hF hW hS => ?_⟩
  · have : (b0 % 256 != 70) = true := by simpa using hF
    rw [if_pos this]
  · by_cases hc : (b0 % 256 != 70) = true
    · rw [if_pos hc]
    · rw [if_neg hc, if_pos hWS]
  · have hc : ¬ (b0 % 256 != 70) = true := by simp [hF]
    rw [if_neg hc, if_neg (by simp [hW, hS])]
    refine bind_ne_assertion (read_rect_ne_assertion _) (fun _ _ => ?_)
    refine bind_ne_assertion (read_fixed16_ne_assertion _) (fun _ _ => ?_)
    refine bind_ne_assertion (read_uint16_ne_assertion _) (fun _ _ => ?_)
    simp [pure, Except.pure]

/-- Witness of C2: the signature `CWS` of a compressed file. -/
theorem Header_read_signature_witness :
    (67 % 256 ≠ 70 → Header.read (Stream.ofData headerCompressed) = .error .assertion) ∧
    (¬ (87 % 256 = 87 ∧ 83 % 256 = 83) →
      Header.read (Stream.ofData headerCompressed) = .error .assertion) ∧
    (67 % 256 = 70 → 87 % 256 = 87 → 83 % 256 = 83 →
      Header.read (Stream.ofData headerCompressed) ≠ .error .assertion) :=
  Header_read_signature (Stream.ofData headerCompressed) 67 87 83 (by decide) rfl rfl rfl

/-! ## TagHeader::read -/

theorem toSigned_emod (w v : Nat) (hv : v < 2 ^ w) :
    ((toSigned w v) % (2 ^ w : Nat)).toNat = v := by
  unfold toSigned
  have hp : (0 : Int) < ((2 ^ w : Nat) : Int) := by positivity
  split
  · have h1 : ((v : Int) - 2 ^ w) % ((2 ^ w : Nat) : Int) = (v : Int) := by
      have : ((v : Int) - 2 ^ w) = (v : Int) + (-1) * ((2 ^ w : Nat) : Int) := by
        push_cast; ring
      rw [this, Int.add_mul_emod_self]
      exact Int.emod_eq_of_lt (by omega) (by exact_mod_cast hv)
    rw [h1]
    simp
  · have h1 : (v : Int) % ((2 ^ w : Nat) : Int) = (v : Int) :=
      Int.emod_eq_of_lt (by omega) (by exact_mod_cast hv)
    rw [h1]
    simp

theorem read_uint32_lt {s s' : Stream} {v : Nat} (h : s.read_uint32 = .ok (v, s')) :
    v < 4294967296 := by
  obtain ⟨b0, b1, b2, b3, -, -, -, -, rfl, -⟩ := read_uint32_ok h
  omega

/-- C3. When `TagHeader::read` succeeds at position `p` with 16-bit header
value `hv`: the code is `hv >> 6`, below 1024; if `hv & 0x3f` is not `0x3f`
the size is `hv & 0x3f`, two bytes are consumed and `end_pos = p + 2 + size`;
otherwise the size is the following 32-bit little-endian value taken as
unsigned, six bytes are consumed and `end_pos = p + 6 + size`. -/
theorem TagHeader_read_fields (s s' : Stream) (tag : TagHeader)
    (h : TagHeader.read s = .ok (tag, s')) :
    ∃ (hv : Nat) (s1 : Stream), s.read_uint16 = .ok (hv, s1) ∧
      tag.code = hv >>> 6 ∧ tag.code < 1024 ∧
      (hv &&& 0x3f ≠ 0x3f →
        tag.size = hv &&& 0x3f ∧ s'.pos = s.pos + 2 ∧ tag.end_pos = s.pos + 2 + tag.size) ∧
      (hv &&& 0x3f = 0x3f →
        ∃ (v : Nat) (s2 : Stream), s1.read_uint32 = .ok (v, s2) ∧
          tag.size = v ∧ s'.pos = s.pos + 6 ∧ tag.end_pos = s.pos + 6 + tag.size) := by
  unfold TagHeader.read at h
  obtain ⟨⟨hv, s1⟩, h1, h⟩ := (bind_eq_ok _ _ _).1 h
  dsimp only at h
  have hlt := read_uint16_lt h1
  have hp1 : s1.pos = s.pos + 2 := by
    obtain ⟨b0, b1, -, -, -, hs1⟩ := read_uint16_ok h1
    rw [hs1]
  have hcode : hv >>> 6 < 1024 := by
    rw [Nat.shiftRight_eq_div_pow]
    omega
  refine ⟨hv, s1, h1, ?_⟩
  split at h
  · rename_i hlong
    obtain ⟨⟨v, s2⟩, h2, h⟩ := (bind_eq_ok _ _ _).1 h
    unfold Stream.read_int32 at h2
    obtain ⟨⟨u, s3⟩, h3, h2⟩ := (bind_eq_ok _ _ _).1 h2
    have hu := read_uint32_lt h3
    have hp3 : s3.pos = s1.pos + 4 := by
      obtain ⟨c0, c1, c2, c3, -, -, -, -, -, hs3⟩ := read_uint32_ok h3
      rw [hs3]
    have hsz : ((toSigned 32 u) % 4294967296).toNat = u := toSigned_emod 32 u hu
    cases h2
    cases h
    refine ⟨rfl, hcode, fun hne => absurd hlong hne, fun _ => ⟨u, _, h3, hsz, ?_, ?_⟩⟩
    · dsimp only
      omega
    · dsimp only [Stream.get_position]
      omega
  · rename_i hshort
    cases h
    refine ⟨rfl, hcode, fun _ => ⟨rfl, ?_, ?_⟩, fun hl => absurd hl hshort⟩
    · dsimp only
      omega
    · dsimp only [Stream.get_position]
      omega

/-- Witness of C3: a long header, code 2 and size field `0x3f`, followed
by the 32-bit size 1. -/
theorem TagHeader_read_fields_witness :
    ∃ (hv : Nat) (s1 : Stream),
      (Stream.ofData [0xbf, 0x00, 1, 0, 0, 0]).read_uint16 = .ok (hv, s1) ∧
      2 = hv >>> 6 ∧ 2 < 1024 ∧
      (hv &&& 0x3f ≠ 0x3f → 1 = hv &&& 0x3f ∧ 6 = 0 + 2 ∧ 7 = 0 + 2 + 1) ∧
      (hv &&& 0x3f = 0x3f →
        ∃ (v : Nat) (s2 : Stream), s1.read_uint32 = .ok (v, s2) ∧
          1 = v ∧ 6 = 0 + 6 ∧ 7 = 0 + 6 + 1) :=
  TagHeader_read_fields (Stream.ofData [0xbf, 0x00, 1, 0, 0, 0])
    { data := [0xbf, 0x00, 1, 0, 0, 0], pos := 6, cur := 0, unused := 0 }
    { code := 2, size := 1, end_pos := 7 } rfl

/-! ## Tag header round trip -/

theorem or_shift_six (c sz : Nat) (hsz : sz < 64) : (c <<< 6) ||| sz = c * 64 + sz := by
  have h := Nat.mul_add_lt_is_or (i := 6) (b := sz) (by simpa using hsz) c
  rw [Nat.shiftLeft_eq, Nat.mul_comm c (2 ^ 6), ← h]

theorem read_uint16_of_getElem? {s : Stream} {a b : Nat}
    (h0 : s.data[s.pos]? = some a) (h1 : s.data[s.pos + 1]? = some b) :
    s.read_uint16 = .ok (a % 256 + 256 * (b % 256),
      { s with pos := s.pos + 2, cur := 0, unused := 0 }) := by
  unfold Stream.read_uint16
  rw [read_uint8_of_getElem? h0, ok_bind]
  dsimp only
  rw [read_uint8_of_getElem? (s := { s with pos := s.pos + 1, cur := 0, unused := 0 }) h1,
    ok_bind]
  rfl

theorem read_uint32_of_getElem? {s : Stream} {a b c d : Nat}
    (h0 : s.data[s.pos]? = some a) (h1 : s.data[s.pos + 1]? = some b)
    (h2 : s.data[s.pos + 2]? = some c) (h3 : s.data[s.pos + 3]? = some d) :
    s.read_uint32 = .ok (a % 256 + 256 * (b % 256) + 65536 * (c % 256) + 16777216 * (d % 256),
      { s with pos := s.pos + 4, cur := 0, unused := 0 }) := by
  unfold Stream.read_uint32
  rw [read_uint8_of_getElem? h0, ok_bind]
  dsimp only
  rw [read_uint8_of_getElem? (s := { s with pos := s.pos + 1, cur := 0, unused := 0 }) h1,
    ok_bind]
  dsimp only
  rw [read_uint8_of_getElem? (s := { s with pos := s.pos + 1 + 1, cur := 0, unused := 0 }) h2,
    ok_bind]
  dsimp only
  rw [read_uint8_of_getElem? (s := { s with pos := s.pos + 1 + 1 + 1, cur := 0, unused := 0 }) h3,
    ok_bind]
  rfl

theorem getElem?_append_mid (pre mid rest : List Nat) (i : Nat) (b : Nat)
    (h : mid[i]? = some b) : (pre ++ (mid ++ rest))[pre.length + i]? = some b := by
  rw [List.getElem?_append_right (by omega)]
  have hi : i < mid.length := (List.getElem?_eq_some.1 h).1
  rw [Nat.add_sub_cancel_left, List.getElem?_append_left hi]
  exact h

/-- C4. Tag header round trip. For every code `c < 1024`, at any offset of
any buffer: the 2-byte short encoding of `(c << 6) | sz` with `sz <= 62`
reads back as code `c`, size `sz`, consuming exactly 2 bytes; the long
encoding, `(c << 6) | 0x3f` followed by a 32-bit size `sz` (63 included),
reads back as code `c`, size `sz`, consuming exactly 6 bytes. -/
theorem TagHeader_read_roundtrip (pre rest : List Nat) (c sz cur unused : Nat)
    (hc : c < 1024) :
    (sz ≤ 62 →
      TagHeader.read { data := pre ++ (encodeShortTag c sz ++ rest), pos := pre.length,
                       cur := cur, unused := unused } =
        .ok ({ code := c, size := sz, end_pos := pre.length + 2 + sz },
             { data := pre ++ (encodeShortTag c sz ++ rest), pos := pre.length + 2,
               cur := 0, unused := 0 })) ∧
    (sz < 4294967296 →
      TagHeader.read { data := pre ++ (encodeLongTag c sz ++ rest), pos := pre.length,
                       cur := cur, unused := unused } =
        .ok ({ code := c, size := sz, end_pos := pre.length + 6 + sz },
             { data := pre ++ (encodeLongTag c sz ++ rest), pos := pre.length + 6,
               cur := 0, unused := 0 })) := by
  constructor
  · intro hsz
    have hor : (c <<< 6) ||| sz = c * 64 + sz := or_shift_six c sz (by omega)
    have hval : (c * 64 + sz) % 256 % 256 + 256 * ((c * 64 + sz) / 256 % 256) = c * 64 + sz := by
      omega
    unfold TagHeader.read
    rw [read_uint16_of_getElem?
      (s := { data := pre ++ (encodeShortTag c sz ++ rest), pos := pre.length,
              cur := cur, unused := unused })
      (a := (c * 64 + sz) % 256) (b := (c * 64 + sz) / 256)
      (by simpa using getElem?_append_mid pre (encodeShortTag c sz) rest 0 _
            (by simp [encodeShortTag, hor]))
      (getElem?_append_mid pre (encodeShortTag c sz) rest 1 _
            (by simp [encodeShortTag, hor])),
      ok_bind, hval]
    have hcode : (c * 64 + sz) >>> 6 = c := by
      rw [Nat.shiftRight_eq_div_pow]; omega
    have hand : (c * 64 + sz) &&& 0x3f = sz := by
      have := Nat.and_pow_two_sub_one_eq_mod (c * 64 + sz) 6
      norm_num at this
      rw [this]; omega
    dsimp only
    rw [hcode, hand, if_neg (by omega)]
    rfl
  · intro hsz
    have hor : (c <<< 6) ||| 0x3f = c * 64 + 63 := or_shift_six c 0x3f (by omega)
    have hval : (c * 64 + 63) % 256 % 256 + 256 * ((c * 64 + 63) / 256 % 256) = c * 64 + 63 := by
      omega
    have hval2 : sz % 256 % 256 + 256 * (sz / 256 % 256 % 256)
        + 65536 * (sz / 65536 % 256 % 256) + 16777216 * (sz / 16777216 % 256 % 256) = sz := by
      omega
    unfold TagHeader.read
    rw [read_uint16_of_getElem?
      (s := { data := pre ++ (encodeLongTag c sz ++ rest), pos := pre.length,
              cur := cur, unused := unused })
      (a := (c * 64 + 63) % 256) (b := (c * 64 + 63) / 256)
      (by simpa using getElem?_append_mid pre (encodeLongTag c sz) rest 0 _
            (by simp [encodeLongTag, encodeShortTag, hor]))
      (getElem?_append_mid pre (encodeLongTag c sz) rest 1 _
            (by simp [encodeLongTag, encodeShortTag, hor])),
      ok_bind, hval]
    have hcode : (c * 64 + 63) >>> 6 = c := by
      rw [Nat.shiftRight_eq_div_pow]; omega
    have hand : (c * 64 + 63) &&& 0x3f = 0x3f := by
      have := Nat.and_pow_two_sub_one_eq_mod (c * 64 + 63) 6
      norm_num at this
      rw [this]; omega
    dsimp only
    rw [hcode, hand, if_pos rfl]
    unfold Stream.read_int32
    rw [read_uint32_of_getElem?
      (s := { data := pre ++ (encodeLongTag c sz ++ rest), pos := pre.length + 2,
              cur := 0, unused := 0 })
      (a := sz % 256) (b := sz / 256 % 256) (c := sz / 65536 % 256)
      (d := sz / 16777216 % 256)
      (getElem?_append_mid pre (encodeLongTag c sz) rest 2 _
            (by simp [encodeLongTag, encodeShortTag]))
      (getElem?_append_mid pre (encodeLongTag c sz) rest 3 _
            (by simp [encodeLongTag, encodeShortTag]))
      (getElem?_append_mid pre (encodeLongTag c sz) rest 4 _
            (by simp [encodeLongTag, encodeShortTag]))
      (getElem?_append_mid pre (encodeLongTag c sz) rest 5 _
            (by simp [encodeLongTag, encodeShortTag])),
      ok_bind, hval2]
    have hsz2 : ((toSigned 32 sz) % 4294967296).toNat = sz := toSigned_emod 32 sz hsz
    show Except.ok (_, _) = Except.ok _
    dsimp only [Stream.get_position]
    rw [hsz2]

/-- Witness of C4: code 26 with size 62 in the short form and with size 63
in the long form, after one byte of other data. -/
theorem TagHeader_read_roundtrip_witness :
    (62 ≤ 62 →
      TagHeader.read { data := [7] ++ (encodeShortTag 26 62 ++ [9]), pos := [7].length,
                       cur := 0, unused := 0 } =
        .ok ({ code := 26, size := 62, end_pos := [7].length + 2 + 62 },
             { data := [7] ++ (encodeShortTag 26 62 ++ [9]), pos := [7].length + 2,
               cur := 0, unused := 0 })) ∧
    (62 < 4294967296 →
      TagHeader.read { data := [7] ++ (encodeLongTag 26 62 ++ [9]), pos := [7].length,
                       cur := 0, unused := 0 } =
        .ok ({ code := 26, size := 62, end_pos := [7].length + 6 + 62 },
             { data := [7] ++ (encodeLongTag 26 62 ++ [9]), pos := [7].length + 6,
               cur := 0, unused := 0 })) :=
  TagHeader_read_roundtrip [7] [9] 26 62 0 0 (by decide)

/-! ## Locality of the composite readers and of the decoders -/

theorem Local.set_position {α : Type} {f : Stream → Res (α × Stream)} (hf : Local f)
    (p : Nat) : Local (fun s => f (s.set_position p)) := by
  intro s v s' h
  obtain ⟨h1, h2⟩ := hf (s.set_position p) v s' h
  exact ⟨h1, fun e => h2 e⟩

theorem local_read_rgb : Local Stream.read_rgb := by
  unfold Stream.read_rgb
  repeat (first | exact local_read_uint8 | exact Local.pure _ | apply Local.bind | intro _)

theorem local_read_rgba : Local Stream.read_rgba := by
  unfold Stream.read_rgba
  repeat (first | exact local_read_uint8 | exact Local.pure _ | apply Local.bind | intro _)

theorem local_read_int_pair : Local Stream.read_int_pair := by
  unfold Stream.read_int_pair
  repeat (first | exact local_read_bits_as_uint32 _ | exact local_read_bits_as_int32 _
                | exact Local.pure _ | apply Local.bind | intro _)

theorem local_read_matrix : Local Stream.read_matrix := by
  unfold Stream.read_matrix
  repeat (first | exact local_read_bits_as_uint32 _ | exact local_read_int_pair
                | exact Local.pure _ | apply Local.bind | apply Local.ite | intro _)

theorem local_read_channels (bits : Nat) (alpha : Bool) (da : Int) :
    Local (fun s => Stream.read_channels s bits alpha da) := by
  unfold Stream.read_channels
  repeat (first | exact local_read_bits_as_int32 _
                | exact Local.pure _ | apply Local.bind | apply Local.ite | intro _)

theorem local_read_cxform (alpha : Bool) : Local (fun s => Stream.read_cxform s alpha) := by
  unfold Stream.read_cxform
  repeat (first | exact local_read_bits_as_uint32 _ | exact local_read_channels _ _ _
                | exact Local.pure _ | apply Local.bind | apply Local.ite | intro _)

theorem local_read_cxform_rgb : Local Stream.read_cxform_rgb := local_read_cxform false

theorem local_read_cxform_rgba : Local Stream.read_cxform_rgba := local_read_cxform true

theorem takeString_append {l : List Nat} {r : List Nat × Nat} (e : List Nat)
    (h : takeString l = some r) : takeString (l ++ e) = some r ∧ r.2 ≤ l.length := by
  induction l generalizing r with
  | nil => cases h
  | cons b bs ih =>
    unfold takeString at h
    rw [List.cons_append]
    unfold takeString
    split at h
    · rename_i hz
      cases h
      rw [if_pos hz]
      exact ⟨rfl, by simp⟩
    · rename_i hz
      rw [if_neg hz]
      split at h
      · cases h
      · rename_i str n hbs
        cases h
        obtain ⟨h1, h2⟩ := ih hbs
        rw [h1]
        exact ⟨rfl, by simpa using h2⟩

theorem local_read_string : Local Stream.read_string := by
  intro s v s' h
  unfold Stream.read_string at h
  split at h
  · cases h
  · rename_i str n hs
    cases h
    refine ⟨rfl, fun e => ?_⟩
    have hlen : s.pos ≤ s.data.length := by
      by_contra hc
      rw [List.drop_eq_nil_of_le (by omega)] at hs
      cases hs
    have hd : (s.extend e).data.drop (s.extend e).pos = s.data.drop s.pos ++ e := by
      show (s.data ++ e).drop s.pos = _
      rw [List.drop_append_of_le_length hlen]
    unfold Stream.read_string
    rw [hd, (takeString_append e hs).1]
    rfl

/-! ### Loops -/

theorem iterate_mono {α ρ : Type} (step : α → Stream → Res ((α ⊕ ρ) × Stream))
    {n : Nat} {a : α} {s : Stream} {r : ρ × Stream}
    (h : iterate step n a s = .ok r) (m : Nat) (hm : n ≤ m) : iterate step m a s = .ok r := by
  induction n generalizing a s m with
  | zero => cases h
  | succ n ih =>
    obtain ⟨m, rfl⟩ : ∃ k, m = k + 1 := ⟨m - 1, by omega⟩
    unfold iterate at h ⊢
    obtain ⟨⟨x, s1⟩, h1, h⟩ := (bind_eq_ok _ _ _).1 h
    rw [h1, ok_bind]
    cases x with
    | inl a1 => exact ih h m (by omega)
    | inr out => exact h

theorem local_iterate {α ρ : Type} (step : α → Stream → Res ((α ⊕ ρ) × Stream))
    (hstep : ∀ a, Local (step a)) (n : Nat) (a : α) : Local (iterate step n a) := by
  induction n generalizing a with
  | zero => intro s v s' h; cases h
  | succ n ih =>
    intro s v s' h
    unfold iterate at h
    obtain ⟨⟨x, s1⟩, h1, h⟩ := (bind_eq_ok _ _ _).1 h
    obtain ⟨hd1, he1⟩ := hstep a s x s1 h1
    cases x with
    | inl a1 =>
      obtain ⟨hd2, he2⟩ := ih a1 s1 v s' h
      refine ⟨hd2.trans hd1, fun e => ?_⟩
      unfold iterate
      rw [he1 e, ok_bind]
      exact he2 e
    | inr out =>
      cases h
      refine ⟨hd1, fun e => ?_⟩
      unfold iterate
      rw [he1 e, ok_bind]
      rfl

/-- A loop run with a fuel that only grows when the buffer is extended is
local. -/
theorem Local.iterate_fuel {α ρ : Type} (step : α → Stream → Res ((α ⊕ ρ) × Stream))
    (hstep : ∀ a, Local (step a)) (F : Stream → Nat)
    (hF : ∀ s e, F s ≤ F (s.extend e)) (a : α) :
    Local (fun s => iterate step (F s) a s) := by
  intro s v s' h
  obtain ⟨hd, he⟩ := local_iterate step hstep (F s) a s v s' h
  exact ⟨hd, fun e => iterate_mono step (he e) _ (hF s e)⟩

theorem shapeFuel_extend (s : Stream) (e : List Nat) : shapeFuel s ≤ shapeFuel (s.extend e) := by
  unfold shapeFuel Stream.extend
  simp

/-! ### Decoders of openswf_parser.cpp -/

theorem local_read_style_count : Local read_style_count := by
  unfold read_style_count
  repeat (first | exact local_read_uint8 | exact local_read_uint16
                | exact Local.pure _ | apply Local.bind | apply Local.ite | intro _)

namespace parser_cpp

theorem local_read_line_styles_loop (type n : Nat) (array : List LineStyle) :
    Local (fun s => read_line_styles_loop type n s array) := by
  induction n generalizing array with
  | zero => exact Local.ok _
  | succ n ih =>
    unfold read_line_styles_loop
    repeat (first | exact local_read_uint8 | exact local_read_rgb | exact local_read_rgba
                  | exact ih _ | exact Local.pure _
                  | apply Local.bind | apply Local.ite | intro _)

theorem local_read_line_styles (array : List LineStyle) (type : Nat) :
    Local (fun s => DefineShape.read_line_styles s array type) := by
  unfold DefineShape.read_line_styles
  repeat (first | exact local_read_style_count | exact local_read_line_styles_loop _ _ _
                | apply Local.bind | intro _)

theorem local_read_fill_styles_loop (type n : Nat) (array : List FillStyle) :
    Local (fun s => read_fill_styles_loop type n s array) := by
  induction n generalizing array with
  | zero => exact Local.ok _
  | succ n ih =>
    unfold read_fill_styles_loop
    repeat (first | exact local_read_uint8 | exact local_read_rgb | exact local_read_rgba
                  | exact ih _ | exact Local.pure _ | exact Local.error _
                  | apply Local.bind | apply Local.ite | intro _)

theorem local_read_fill_styles (array : List FillStyle) (type : Nat) :
    Local (fun s => DefineShape.read_fill_styles s array type) := by
  unfold DefineShape.read_fill_styles
  repeat (first | exact local_read_style_count | exact local_read_fill_styles_loop _ _ _
                | apply Local.bind | intro _)

theorem local_read_style_change (type fb lb mask : Nat) (shape : ShapeRecord) :
    Local (fun s => read_style_change type fb lb mask s shape) := by
  unfold read_style_change
  with_reducible
  repeat (first | exact local_read_bits_as_uint32 _ | exact local_read_bits_as_int32 _
                | exact local_read_fill_styles _ _ | exact local_read_line_styles _ _
                | exact Local.pure _ | exact Local.error _
                | apply Local.bind | apply Local.ite | intro _)

theorem local_read_shape_record (type fb lb : Nat) (records : List ShapeRecord) :
    Local (read_shape_record type fb lb records) := by
  unfold read_shape_record
  with_reducible
  repeat (first | exact local_read_bits_as_uint32 _ | exact local_read_bits_as_int32 _
                | exact local_read_style_change _ _ _ _ _
                | exact Local.pure _ | exact Local.error _
                | apply Local.bind | apply Local.ite | intro _)

theorem local_DefineShape_read (type : Nat) : Local (fun s => DefineShape.read s type) := by
  unfold DefineShape.read
  with_reducible
  repeat (first | exact local_read_uint16 | exact local_read_rect
                | exact local_read_bits_as_uint32 _
                | exact local_read_fill_styles _ _ | exact local_read_line_styles _ _
                | exact Local.iterate_fuel _ (local_read_shape_record _ _ _) shapeFuel
                    shapeFuel_extend _
                | exact Local.pure _
                | apply Local.bind | intro _)

theorem local_PlaceObject_read_from (start_pos : Nat) (size : Int) :
    Local (PlaceObject.read_from start_pos size) := by
  unfold PlaceObject.read_from
  with_reducible
  repeat (first | exact local_read_uint16 | exact local_read_matrix
                | exact local_read_cxform_rgb
                | exact Local.pure _
                | apply Local.bind
                | apply Local.ite_pos (fun p => (p : Int) < (start_pos : Int) + size)
                | intro _)

theorem local_PlaceObject_read (size : Int) : Local (fun s => PlaceObject.read s size) := by
  intro s v s' h
  obtain ⟨h1, h2⟩ := local_PlaceObject_read_from s.get_position size s v s' h
  exact ⟨h1, fun e => h2 e⟩

theorem local_RemoveObject_read : Local RemoveObject.read := by
  unfold RemoveObject.read
  repeat (first | exact local_read_uint16 | exact Local.pure _ | apply Local.bind | intro _)

theorem local_PlaceObject2_read : Local PlaceObject2.read := by
  unfold PlaceObject2.read
  with_reducible
  repeat (first | exact local_read_uint8 | exact local_read_uint16 | exact local_read_matrix
                | exact local_read_cxform_rgba | exact local_read_string
                | exact Local.pure _
                | apply Local.bind | apply Local.ite | intro _)

end parser_cpp

theorem local_dispatch (tag : TagHeader) (player : Player) : Local (dispatch tag player) := by
  unfold dispatch
  with_reducible
  repeat (first | exact parser_cpp.local_DefineShape_read _
                | exact parser_cpp.local_PlaceObject_read _
                | exact parser_cpp.local_PlaceObject2_read
                | exact parser_cpp.local_RemoveObject_read
                | exact Local.pure _
                | apply Local.bind | apply Local.ite | intro _)

theorem local_next_tag (player : Player) (p : Nat) :
    Local (fun s => do
      let (tag, s) ← TagHeader.read (s.set_position p)
      return ((Sum.inl (tag, player) : (TagHeader × Player) ⊕ Player), s)) := by
  have h : Local (fun s => do
      let (tag, s) ← TagHeader.read s
      return ((Sum.inl (tag, player) : (TagHeader × Player) ⊕ Player), s)) := by
    apply Local.bind local_TagHeader_read
    intro a
    exact Local.pure _
  exact Local.set_position h p

theorem local_parse_step (st : TagHeader × Player) : Local (parse_step st) := by
  unfold parse_step
  apply Local.ite
  · exact Local.pure _
  · apply Local.bind (local_dispatch _ _)
    intro a
    dsimp only
    exact local_next_tag _ _

/-! ## The decode loop -/

theorem local_parse : Local parse := by
  have h : Local (fun s => do
      let (header, s) ← Header.read s
      let (tag, s) ← TagHeader.read s
      iterate parse_step (s.data.length + 1)
        (tag, Player.new header.frame_size header.frame_rate header.frame_count) s) := by
    apply Local.bind local_Header_read
    intro hd
    apply Local.bind local_TagHeader_read
    intro tag
    exact Local.iterate_fuel parse_step local_parse_step (fun s => s.data.length + 1)
      (fun s e => by simp [Stream.extend]) _
  exact Local.set_position h 0

theorem set_position_of_data_eq {s s' : Stream} (h : s'.data = s.data) (p : Nat) :
    s'.set_position p = s.set_position p := by
  unfold Stream.set_position
  rw [h]

/-- One iteration of the decode loop on a tag that is not the end tag and
whose decoder succeeds: the next header is read at the tag's end offset. -/
theorem parse_step_of_dispatch {tag : TagHeader} {player player' : Player} {s s' : Stream}
    (hne : tag.code ≠ TagCode.END) (hd : dispatch tag player s = .ok (player', s')) :
    parse_step (tag, player) s = (do
      let (next, s2) ← TagHeader.read (s.set_position tag.end_pos)
      return (Sum.inl (next, player'), s2)) := by
  have hdata : s'.data = s.data := (local_dispatch tag player s player' s' hd).1
  unfold parse_step
  dsimp only
  rw [if_neg hne, hd, ok_bind]
  dsimp only
  rw [set_position_of_data_eq hdata]

theorem dispatch_unrecognised (tag : TagHeader) (player : Player) (s : Stream)
    (hu : tag.code ∉ dispatchedCodes) : dispatch tag player s = .ok (player, s) := by
  simp only [dispatchedCodes, List.mem_cons, List.mem_singleton, not_or, List.not_mem_nil,
    not_false_eq_true, and_true] at hu
  obtain ⟨h1, h2, h3, h4, h5, h6, h7⟩ := hu
  unfold dispatch
  rw [if_neg h1, if_neg h2, if_neg h3, if_neg h4, if_neg h5, if_neg h6, if_neg h7]
  rfl

/-- C5. In the loop of `parse`, after a tag other than the end tag has been
dispatched, the next tag header is read at exactly that tag's `end_pos`,
wherever the tag's decoder left the stream; and a tag whose code has no
case in the `switch` is dispatched without error, with the player (its
dictionary and timeline included) unchanged, so the iteration only moves
to `end_pos`. -/
theorem parse_step_seeks_end_pos :
    (∀ (tag : TagHeader) (player player' : Player) (s s' : Stream),
      tag.code ≠ TagCode.END → dispatch tag player s = .ok (player', s') →
      parse_step (tag, player) s = (do
        let (next, s2) ← TagHeader.read (s.set_position tag.end_pos)
        return (Sum.inl (next, player'), s2))) ∧
    (∀ (tag : TagHeader) (player : Player) (s : Stream),
      tag.code ≠ TagCode.END → tag.code ∉ dispatchedCodes →
      dispatch tag player s = .ok (player, s) ∧
      parse_step (tag, player) s = (do
        let (next, s2) ← TagHeader.read (s.set_position tag.end_pos)
        return (Sum.inl (next, player), s2))) :=
  ⟨fun _ _ _ _ _ hne hd => parse_step_of_dispatch hne hd,
   fun tag player s hne hu =>
     ⟨dispatch_unrecognised tag player s hu,
      parse_step_of_dispatch hne (dispatch_unrecognised tag player s hu)⟩⟩

/-- Witness of C5: a PLACE_OBJECT tag of declared size 0 whose body starts
at offset 15; its decoder reads up to offset 21, and the next tag header is
read at the tag's end offset 15. -/
theorem parse_step_seeks_end_pos_witness :
    parse_step
        ({ code := TagCode.PLACE_OBJECT, size := 0, end_pos := 15 },
         Player.new { xmin := 0, xmax := 0, ymin := 0, ymax := 0 } { raw := 3072 } 1)
        { data := overreadFile 2, pos := 15, cur := 0, unused := 0 } = (do
      let (next, s2) ← TagHeader.read
        (Stream.set_position { data := overreadFile 2, pos := 15, cur := 0, unused := 0 } 15)
      return (Sum.inl (next,
        (Player.new { xmin := 0, xmax := 0, ymin := 0, ymax := 0 } { raw := 3072 } 1).push_command
          (Command.place 64 0 Matrix.identity ColorTransform.identity)), s2)) :=
  parse_step_seeks_end_pos.1
    { code := TagCode.PLACE_OBJECT, size := 0, end_pos := 15 }
    (Player.new { xmin := 0, xmax := 0, ymin := 0, ymax := 0 } { raw := 3072 } 1)
    ((Player.new { xmin := 0, xmax := 0, ymin := 0, ymax := 0 } { raw := 3072 } 1).push_command
      (Command.place 64 0 Matrix.identity ColorTransform.identity))
    { data := overreadFile 2, pos := 15, cur := 0, unused := 0 }
    { data := overreadFile 2, pos := 21, cur := 0, unused := 7 }
    (by decide) rfl

/-! ## The end tag -/

/-- Counterexample to C6: two buffers that agree on the 19 bytes up to and
including the end tag's header, on both of which `parse` succeeds and
stops after that header (offset 19), with different timelines: the
decoder of the PLACE_OBJECT tag, whose declared size is 0, reads its
matrix from the bytes that follow the end tag. -/
theorem parse_depends_on_bytes_after_end_tag :
    ∃ (p1 p2 : Player) (s1 s2 : Stream),
      parse (Stream.ofData (overreadFile 2)) = .ok (p1, s1) ∧
      parse (Stream.ofData (overreadFile 3)) = .ok (p2, s2) ∧
      s1.pos = 19 ∧ s2.pos = 19 ∧
      (overreadFile 2).take 19 = (overreadFile 3).take 19 ∧
      p1.m_frames = [[Command.place 64 0 Matrix.identity ColorTransform.identity]] ∧
      p2.m_frames = [[Command.place 64 0 { Matrix.identity with translate_x := -1 }
                        ColorTransform.identity]] ∧
      p1.m_frames ≠ p2.m_frames := by
  refine ⟨_, _, _, _, rfl, rfl, rfl, rfl, rfl, rfl, rfl, ?_⟩
  decide

/-- C6, amended. `parse` returns as soon as it has read the end tag's
header. When it succeeds on a buffer cut at an offset `n` (so that no tag
decoder reads at or beyond `n`; in particular with `n` the end of the end
tag's header), it returns the same player, with the same dictionary and
timeline, and stops at the same offset on every buffer that has the same
first `n` bytes. -/
theorem parse_same_on_common_part (d1 d2 : List Nat) (n : Nat) (player : Player)
    (s : Stream) (hagree : d1.take n = d2.take n)
    (hcut : parse (Stream.ofData (d1.take n)) = .ok (player, s)) :
    parse (Stream.ofData d1) = .ok (player, s.extend (d1.drop n)) ∧
    parse (Stream.ofData d2) = .ok (player, s.extend (d2.drop n)) := by
  have key : ∀ d : List Nat, d.take n = d1.take n →
      parse (Stream.ofData d) = .ok (player, s.extend (d.drop n)) := by
    intro d hd
    have h := (local_parse _ _ _ hcut).2 (d.drop n)
    have he : (Stream.ofData (d1.take n)).extend (d.drop n) = Stream.ofData d := by
      unfold Stream.extend Stream.ofData
      dsimp only
      rw [← hd, List.take_append_drop]
    rw [he] at h
    exact h
  exact ⟨key d1 rfl, key d2 hagree.symm⟩

/-- Witness of the amended C6: a file of a header, SHOW_FRAME and the end
tag, cut after the end tag's header, against the same file followed by
other bytes. -/
theorem parse_same_on_common_part_witness :
    parse (Stream.ofData [70, 87, 83, 5, 0, 0, 0, 0, 0, 0, 12, 1, 0, 0x40, 0, 0, 0, 1, 2]) =
      .ok ((Player.new { xmin := 0, xmax := 0, ymin := 0, ymax := 0 }
              { raw := 3072 } 1).record_frame,
           (Stream.mk [70, 87, 83, 5, 0, 0, 0, 0, 0, 0, 12, 1, 0, 0x40, 0, 0, 0] 17 0 0).extend
             (List.drop 17 [70, 87, 83, 5, 0, 0, 0, 0, 0, 0, 12, 1, 0, 0x40, 0, 0, 0, 1, 2])) ∧
    parse (Stream.ofData [70, 87, 83, 5, 0, 0, 0, 0, 0, 0, 12, 1, 0, 0x40, 0, 0, 0, 7]) =
      .ok ((Player.new { xmin := 0, xmax := 0, ymin := 0, ymax := 0 }
              { raw := 3072 } 1).record_frame,
           (Stream.mk [70, 87, 83, 5, 0, 0, 0, 0, 0, 0, 12, 1, 0, 0x40, 0, 0, 0] 17 0 0).extend
             (List.drop 17 [70, 87, 83, 5, 0, 0, 0, 0, 0, 0, 12, 1, 0, 0x40, 0, 0, 0, 7])) :=
  parse_same_on_common_part
    [70, 87, 83, 5, 0, 0, 0, 0, 0, 0, 12, 1, 0, 0x40, 0, 0, 0, 1, 2]
    [70, 87, 83, 5, 0, 0, 0, 0, 0, 0, 12, 1, 0, 0x40, 0, 0, 0, 7]
    17 _ _ rfl rfl

/-! ## The timeline built by parse -/

/-- With the timer at 0, a call of `Player::update` with `dt` equal to the
frame period does not enter its loop, whose condition `m_timer >
frame_delta` is strict: the frame index is not advanced and no command is
executed, so the display list is unchanged. -/
theorem update_by_one_period (pl : Player) (h : pl.m_timer = 0) :
    (pl.update pl.frame_delta).m_current_frame = pl.m_current_frame ∧
    (pl.update pl.frame_delta).m_displays = pl.m_displays := by
  unfold Player.update
  split
  · exact ⟨rfl, rfl⟩
  · dsimp only
    cases hf : pl.m_frames.length - pl.m_current_frame with
    | zero => exact ⟨rfl, rfl⟩
    | succ n =>
      unfold Player.update_loop
      dsimp only
      rw [h, zero_add, if_neg (lt_irrefl _)]
      exact ⟨rfl, rfl⟩

/-- Counterexample to C8: on the file of scenario A, from the initial
state (current frame 0, timer 0, empty display list), after one call of
`Player::update` with `dt` equal to the frame period the display list has
no entry at depth 1. -/
theorem scenarioA_display_list_empty :
    ∃ (pl : Player) (s' : Stream), parse (Stream.ofData scenarioA) = .ok (pl, s') ∧
      pl.m_current_frame = 0 ∧ pl.m_timer = 0 ∧ pl.m_displays = [] ∧
      ¬ ∃ e, (1, e) ∈ (pl.update pl.frame_delta).m_displays := by
  refine ⟨_, _, rfl, rfl, rfl, rfl, ?_⟩
  rw [(update_by_one_period _ rfl).2]
  rintro ⟨e, he⟩
  cases he

/-- C8, amended. For the file of scenario A the dictionary holds the shape
with id 1 and nothing else, and the timeline has exactly one frame with
one Place command (character 1, depth 1, identity matrix). `Player::update`
only increments the frame index, and executes commands, while the timer
strictly exceeds the frame period (here 1/12): one call with `dt` equal to
the frame period, from the initial state (current frame 0, timer 0, empty
display list), leaves the frame index at 0 and executes no command, so the
display list is still empty. -/
theorem scenarioA_timeline_and_update :
    ∃ (pl : Player) (s' : Stream), parse (Stream.ofData scenarioA) = .ok (pl, s') ∧
      pl.m_dictionary.map (fun e => e.1) = [1] ∧
      pl.m_frames = [[Command.place 1 1 Matrix.identity ColorTransform.identity]] ∧
      pl.m_current_frame = 0 ∧ pl.m_timer = 0 ∧ pl.m_displays = [] ∧
      pl.frame_delta = 1 / 12 ∧
      (pl.update pl.frame_delta).m_current_frame = 0 ∧
      (pl.update pl.frame_delta).m_displays = [] := by
  have hp : ∃ (pl : Player) (s' : Stream), parse (Stream.ofData scenarioA) = .ok (pl, s') ∧
      pl.m_dictionary.map (fun e => e.1) = [1] ∧
      pl.m_frames = [[Command.place 1 1 Matrix.identity ColorTransform.identity]] ∧
      pl.m_current_frame = 0 ∧ pl.m_timer = 0 ∧ pl.m_displays = [] ∧
      pl.m_frame_rate = { raw := 3072 } := ⟨_, _, rfl, rfl, rfl, rfl, rfl, rfl, rfl⟩
  obtain ⟨pl, s', hparse, hdict, hframes, hcur, htimer, hdisp, hrate⟩ := hp
  refine ⟨pl, s', hparse, hdict, hframes, hcur, htimer, hdisp, ?_, ?_, ?_⟩
  · unfold Player.frame_delta Fixed.toRat
    rw [hrate]
    norm_num
  · rw [(update_by_one_period _ htimer).1, hcur]
  · rw [(update_by_one_period _ htimer).2, hdisp]

/-! ## The shape-record loop of record.cpp -/

/-- An invariant of the loop state that every iteration keeps holds of the
state with which the loop is left. -/
theorem iterate_invariant {α : Type} (step : α → Stream → Res ((α ⊕ α) × Stream))
    (P : α → Prop)
    (hstep : ∀ a s r s', P a → step a s = .ok (r, s') → P (Sum.elim id id r))
    (fuel : Nat) (a : α) (s : Stream) (out : α) (s' : Stream) (ha : P a)
    (h : iterate step fuel a s = .ok (out, s')) : P out := by
  induction fuel generalizing a s with
  | zero => cases h
  | succ fuel ih =>
    unfold iterate at h
    obtain ⟨⟨r, s1⟩, h1, h⟩ := (bind_eq_ok _ _ _).1 h
    have hr := hstep a s r s1 ha h1
    cases r with
    | inl a1 => exact ih a1 s1 hr h
    | inr o =>
      cases h
      exact hr

namespace record_cpp

theorem read_fill_styles_loop_append (tag : TagCode) (n : Nat) (s s' : Stream)
    (array r : List FillStyle) (h : read_fill_styles_loop tag n s array = .ok (r, s')) :
    ∃ added, r = array ++ added ∧ added.length = n := by
  induction n generalizing s array with
  | zero =>
    cases h
    exact ⟨[], by simp, rfl⟩
  | succ n ih =>
    unfold read_fill_styles_loop at h
    obtain ⟨⟨style, s1⟩, -, h⟩ := (bind_eq_ok _ _ _).1 h
    obtain ⟨added, rfl, hlen⟩ := ih _ _ h
    exact ⟨style :: added, by simp, by simp [hlen]⟩

theorem read_fill_styles_append (tag : TagCode) (s s' : Stream)
    (array r : List FillStyle) (h : read_fill_styles s array tag = .ok (r, s')) :
    ∃ added, r = array ++ added := by
  unfold read_fill_styles at h
  obtain ⟨⟨count, s1⟩, -, h⟩ := (bind_eq_ok _ _ _).1 h
  obtain ⟨added, hr, -⟩ := read_fill_styles_loop_append _ _ _ _ _ _ h
  exact ⟨added, hr⟩

theorem indicesWithin_mono {n m : Nat} {p : ShapePath} (hnm : n ≤ m)
    (h : p.indicesWithin n) : p.indicesWithin m := by
  unfold ShapePath.indicesWithin at h ⊢
  omega

theorem push_path_inv (st : ShapeState) (reset : Bool) (h : ShapeInv st) :
    ShapeInv (push_path st reset) := by
  obtain ⟨h1, h2, h3, h4, h5, h6⟩ := h
  have hz : ({ left_fill := 0, right_fill := 0, line := 0, start := st.cursor,
               edges := [] } : ShapePath).indicesWithin st.fill_styles.length :=
    ⟨Nat.zero_le _, Nat.zero_le _, Nat.zero_le _⟩
  unfold push_path
  dsimp only
  by_cases he : st.current_path.edges ≠ []
  · have hp1 : ∀ p ∈ st.paths ++ [st.current_path], p.edges ≠ [] := by
      intro p hp
      rcases List.mem_append.1 hp with hp | hp
      · exact h1 p hp
      · rw [List.mem_singleton.1 hp]
        exact he
    have hp6 : ∀ p ∈ st.paths ++ [st.current_path],
        p.indicesWithin st.fill_styles.length := by
      intro p hp
      rcases List.mem_append.1 hp with hp | hp
      · exact h6 p hp
      · rw [List.mem_singleton.1 hp]
        exact h5
    rw [if_pos he]
    cases reset
    · rw [if_neg (by decide)]
      exact ⟨hp1, h2, h3, h4, h5, hp6⟩
    · rw [if_pos rfl]
      exact ⟨hp1, h2, h3, h4, hz, hp6⟩
  · rw [if_neg he]
    cases reset
    · rw [if_neg (by decide)]
      exact ⟨h1, h2, h3, h4, h5, h6⟩
    · rw [if_pos rfl]
      exact ⟨h1, h2, h3, h4, hz, h6⟩

theorem push_path_fields (st : ShapeState) (reset : Bool) :
    (push_path st reset).fill_styles = st.fill_styles ∧
    (push_path st reset).line_styles = st.line_styles ∧
    (push_path st reset).fill_index_bits = st.fill_index_bits ∧
    (push_path st reset).line_index_bits = st.line_index_bits ∧
    (push_path st reset).fill_index_base = st.fill_index_base ∧
    (push_path st reset).line_index_base = st.line_index_base ∧
    (push_path st reset).cursor = st.cursor := by
  unfold push_path
  dsimp only
  by_cases he : st.current_path.edges ≠ []
  · rw [if_pos he]
    cases reset
    · rw [if_neg (by decide)]
      exact ⟨rfl, rfl, rfl, rfl, rfl, rfl, rfl⟩
    · rw [if_pos rfl]
      exact ⟨rfl, rfl, rfl, rfl, rfl, rfl, rfl⟩
  · rw [if_neg he]
    cases reset
    · rw [if_neg (by decide)]
      exact ⟨rfl, rfl, rfl, rfl, rfl, rfl, rfl⟩
    · rw [if_pos rfl]
      exact ⟨rfl, rfl, rfl, rfl, rfl, rfl, rfl⟩

theorem inv_set_current {st : ShapeState} (h : ShapeInv st) (p : ShapePath)
    (hp : p.indicesWithin st.fill_styles.length) :
    ShapeInv { st with current_path := p } :=
  ⟨h.paths_edges, h.fill_bits, h.line_bits, h.base, hp, h.paths_within⟩

theorem inv_set_cursor {st : ShapeState} (h : ShapeInv st) (c : Point) :
    ShapeInv { st with cursor := c } :=
  ⟨h.paths_edges, h.fill_bits, h.line_bits, h.base, h.current, h.paths_within⟩

theorem read_index_le {s s' : Stream} {bits v : Nat} (hb : bits ≤ 15)
    (h : s.read_bits_as_uint32 bits = .ok (v, s')) : v ≤ 32767 := by
  have h1 := (read_bits_as_uint32_lt h).1
  have h2 : 2 ^ bits ≤ 2 ^ 15 := Nat.pow_le_pow_right (by decide) hb
  omega

theorem style_move_to_inv (mask : Nat) (st st' : ShapeState) (s s' : Stream)
    (hi : ShapeInv st) (h : style_move_to mask st s = .ok (st', s')) : ShapeInv st' := by
  unfold style_move_to at h
  split at h
  · obtain ⟨⟨bits, s1⟩, -, h⟩ := (bind_eq_ok _ _ _).1 h
    obtain ⟨⟨x, s2⟩, -, h⟩ := (bind_eq_ok _ _ _).1 h
    obtain ⟨⟨y, s3⟩, -, h⟩ := (bind_eq_ok _ _ _).1 h
    cases h
    exact push_path_inv _ _ (inv_set_cursor hi _)
  · cases h
    exact hi

theorem style_fill_0_inv (mask : Nat) (st st' : ShapeState) (s s' : Stream)
    (hi : ShapeInv st) (h : style_fill_0 mask st s = .ok (st', s')) : ShapeInv st' := by
  unfold style_fill_0 at h
  split at h
  · obtain ⟨⟨v, s1⟩, hv, h⟩ := (bind_eq_ok _ _ _).1 h
    cases h
    have hp := push_path_inv st false hi
    have hv' := read_index_le hp.fill_bits hv
    have hb := hp.base
    have hc := hp.current
    refine inv_set_current hp _ ?_
    unfold ShapePath.indicesWithin at hc ⊢
    dsimp only
    refine ⟨?_, hc.2.1, hc.2.2⟩
    split <;> omega
  · cases h
    exact hi

theorem style_fill_1_inv (mask : Nat) (st st' : ShapeState) (s s' : Stream)
    (hi : ShapeInv st) (h : style_fill_1 mask st s = .ok (st', s')) : ShapeInv st' := by
  unfold style_fill_1 at h
  split at h
  · obtain ⟨⟨v, s1⟩, hv, h⟩ := (bind_eq_ok _ _ _).1 h
    cases h
    have hp := push_path_inv st false hi
    have hv' := read_index_le hp.fill_bits hv
    have hb := hp.base
    have hc := hp.current
    refine inv_set_current hp _ ?_
    unfold ShapePath.indicesWithin at hc ⊢
    dsimp only
    refine ⟨hc.1, ?_, hc.2.2⟩
    split <;> omega
  · cases h
    exact hi

theorem style_line_inv (mask : Nat) (st st' : ShapeState) (s s' : Stream)
    (hi : ShapeInv st) (h : style_line mask st s = .ok (st', s')) : ShapeInv st' := by
  unfold style_line at h
  split at h
  · obtain ⟨⟨v, s1⟩, hv, h⟩ := (bind_eq_ok _ _ _).1 h
    cases h
    have hp := push_path_inv st false hi
    have hv' := read_index_le hp.line_bits hv
    have hc := hp.current
    refine inv_set_current hp _ ?_
    unfold ShapePath.indicesWithin at hc ⊢
    exact ⟨hc.1, hc.2.1, hv'⟩
  · cases h
    exact hi

theorem style_new_inv (type : TagCode) (mask : Nat) (st st' : ShapeState) (s s' : Stream)
    (hi : ShapeInv st) (h : style_new type mask st s = .ok (st', s')) : ShapeInv st' := by
  unfold style_new at h
  split at h
  · split at h
    · cases h
    · obtain ⟨⟨fills, s1⟩, hf, h⟩ := (bind_eq_ok _ _ _).1 h
      obtain ⟨⟨lines, s2⟩, -, h⟩ := (bind_eq_ok _ _ _).1 h
      obtain ⟨⟨fb, s3⟩, hfb, h⟩ := (bind_eq_ok _ _ _).1 h
      obtain ⟨⟨lb, s4⟩, hlb, h⟩ := (bind_eq_ok _ _ _).1 h
      cases h
      have hp := push_path_inv st false hi
      obtain ⟨added, hadd⟩ := read_fill_styles_append _ _ _ _ _ hf
      dsimp only at hadd
      have hlen : (push_path st false).fill_styles.length ≤ fills.length := by
        rw [hadd]
        simp
      have h1 := (read_bits_as_uint32_lt hfb).1
      have h2 := (read_bits_as_uint32_lt hlb).1
      exact ⟨hp.paths_edges, (by dsimp only; omega), (by dsimp only; omega), hlen,
        indicesWithin_mono hlen hp.current,
        fun p hpp => indicesWithin_mono hlen (hp.paths_within p hpp)⟩
  · cases h
    exact hi

theorem style_change_inv (type : TagCode) (mask : Nat) (st st' : ShapeState) (s s' : Stream)
    (hi : ShapeInv st) (h : style_change type mask st s = .ok (st', s')) : ShapeInv st' := by
  unfold style_change at h
  obtain ⟨⟨st1, s1⟩, h1, h⟩ := (bind_eq_ok _ _ _).1 h
  obtain ⟨⟨st2, s2⟩, h2, h⟩ := (bind_eq_ok _ _ _).1 h
  obtain ⟨⟨st3, s3⟩, h3, h⟩ := (bind_eq_ok _ _ _).1 h
  obtain ⟨⟨st4, s4⟩, h4, h⟩ := (bind_eq_ok _ _ _).1 h
  exact style_new_inv _ _ _ _ _ _
    (style_line_inv _ _ _ _ _
      (style_fill_1_inv _ _ _ _ _
        (style_fill_0_inv _ _ _ _ _ (style_move_to_inv _ _ _ _ _ hi h1) h2) h3) h4) h

theorem inv_add_edge {st : ShapeState} (h : ShapeInv st) (c : Point) (e : ShapeEdge) :
    ShapeInv { st with cursor := c,
                       current_path := { st.current_path with
                         edges := st.current_path.edges ++ [e] } } :=
  ⟨h.paths_edges, h.fill_bits, h.line_bits, h.base, h.current, h.paths_within⟩

theorem straight_edge_inv (st st' : ShapeState) (s s' : Stream)
    (hi : ShapeInv st) (h : straight_edge st s = .ok (st', s')) : ShapeInv st' := by
  unfold straight_edge at h
  obtain ⟨⟨b, s1⟩, -, h⟩ := (bind_eq_ok _ _ _).1 h
  obtain ⟨⟨g, s2⟩, -, h⟩ := (bind_eq_ok _ _ _).1 h
  obtain ⟨⟨⟨dx, dy⟩, s3⟩, -, h⟩ := (bind_eq_ok _ _ _).1 h
  cases h
  exact inv_add_edge hi _ _

theorem curved_edge_inv (st st' : ShapeState) (s s' : Stream)
    (hi : ShapeInv st) (h : curved_edge st s = .ok (st', s')) : ShapeInv st' := by
  unfold curved_edge at h
  obtain ⟨⟨b, s1⟩, -, h⟩ := (bind_eq_ok _ _ _).1 h
  obtain ⟨⟨cx, s2⟩, -, h⟩ := (bind_eq_ok _ _ _).1 h
  obtain ⟨⟨cy, s3⟩, -, h⟩ := (bind_eq_ok _ _ _).1 h
  obtain ⟨⟨ax, s4⟩, -, h⟩ := (bind_eq_ok _ _ _).1 h
  obtain ⟨⟨ay, s5⟩, -, h⟩ := (bind_eq_ok _ _ _).1 h
  cases h
  exact inv_add_edge hi _ _

theorem shape_record_inv (type : TagCode) (st : ShapeState) (s : Stream)
    (r : ShapeState ⊕ ShapeState) (s' : Stream)
    (hi : ShapeInv st) (h : shape_record type st s = .ok (r, s')) :
    ShapeInv (Sum.elim id id r) := by
  unfold shape_record at h
  obtain ⟨⟨is_edge, s1⟩, -, h⟩ := (bind_eq_ok _ _ _).1 h
  dsimp only at h
  split at h
  · obtain ⟨⟨mask, s2⟩, -, h⟩ := (bind_eq_ok _ _ _).1 h
    dsimp only at h
    split at h
    · cases h
      exact push_path_inv st false hi
    · obtain ⟨⟨st1, s3⟩, h1, h⟩ := (bind_eq_ok _ _ _).1 h
      cases h
      exact style_change_inv _ _ _ _ _ _ hi h1
  · obtain ⟨⟨is_straight, s2⟩, -, h⟩ := (bind_eq_ok _ _ _).1 h
    dsimp only at h
    split at h
    · obtain ⟨⟨st1, s3⟩, h1, h⟩ := (bind_eq_ok _ _ _).1 h
      cases h
      exact straight_edge_inv _ _ _ _ hi h1
    · obtain ⟨⟨st1, s3⟩, h1, h⟩ := (bind_eq_ok _ _ _).1 h
      cases h
      exact curved_edge_inv _ _ _ _ hi h1

/-- The invariant of the shape-record loop holds of the state with which
`DefineShape::read` leaves the loop. -/
theorem DefineShape_read_state_inv (s s' : Stream) (type : TagCode) (id : Nat)
    (bounds edge_bounds : Rect) (st : ShapeState)
    (h : DefineShape.read_state s type = .ok ((id, bounds, edge_bounds, st), s')) :
    ShapeInv st := by
  unfold DefineShape.read_state at h
  split at h
  · cases h
  obtain ⟨⟨cid, s1⟩, -, h⟩ := (bind_eq_ok _ _ _).1 h
  obtain ⟨⟨b, s2⟩, -, h⟩ := (bind_eq_ok _ _ _).1 h
  obtain ⟨⟨eb, s3⟩, -, h⟩ := (bind_eq_ok _ _ _).1 h
  obtain ⟨⟨fills, s4⟩, -, h⟩ := (bind_eq_ok _ _ _).1 h
  obtain ⟨⟨lines, s5⟩, -, h⟩ := (bind_eq_ok _ _ _).1 h
  obtain ⟨⟨fb, s6⟩, hfb, h⟩ := (bind_eq_ok _ _ _).1 h
  obtain ⟨⟨lb, s7⟩, hlb, h⟩ := (bind_eq_ok _ _ _).1 h
  obtain ⟨⟨st1, s8⟩, hloop, h⟩ := (bind_eq_ok _ _ _).1 h
  cases h
  have h1 := (read_bits_as_uint32_lt hfb).1
  have h2 := (read_bits_as_uint32_lt hlb).1
  refine iterate_invariant (shape_record type) ShapeInv (shape_record_inv type) _ _ _ _ _ ?_ hloop
  exact ⟨fun p hp => (by cases hp), (by dsimp only; omega), (by dsimp only; omega),
    Nat.zero_le _, ⟨Nat.zero_le _, Nat.zero_le _, Nat.zero_le _⟩, fun p hp => (by cases hp)⟩

end record_cpp

/-! ## Paths emitted by DefineShape::read of record.cpp -/

namespace record_cpp

theorem DefineShape_read_ok {s s' : Stream} {type : TagCode} {record : DefineShape}
    (h : DefineShape.read s type = .ok (record, s')) :
    ∃ st, DefineShape.read_state s type =
        .ok ((record.character_id, record.bounds, record.edge_bounds, st), s') ∧
      record.fill_styles = st.fill_styles ∧ record.paths = st.paths := by
  unfold DefineShape.read at h
  obtain ⟨⟨⟨id, b, eb, st⟩, s1⟩, h1, h⟩ := (bind_eq_ok _ _ _).1 h
  cases h
  exact ⟨st, h1, rfl, rfl⟩

theorem push_path_no_edges (st : ShapeState) (reset : Bool)
    (he : st.current_path.edges = []) : (push_path st reset).paths = st.paths := by
  have hne : ¬ (st.current_path.edges ≠ []) := fun h => h he
  unfold push_path
  dsimp only
  rw [if_neg hne]
  cases reset
  · rw [if_neg (by decide)]
  · rw [if_pos rfl]

/-- C9. Whenever `DefineShape::read` of record.cpp succeeds, every path of
the returned `record.paths` has at least one edge; and `push_path` on a
current path with zero edges appends nothing to the paths. -/
theorem DefineShape_read_paths_have_edges (s s' : Stream) (type : TagCode)
    (record : DefineShape) (h : DefineShape.read s type = .ok (record, s')) :
    (∀ p ∈ record.paths, 1 ≤ p.edges.length) ∧
    (∀ (st : ShapeState) (reset : Bool), st.current_path.edges = [] →
      (push_path st reset).paths = st.paths) := by
  obtain ⟨st, hst, -, hpaths⟩ := DefineShape_read_ok h
  have hinv := DefineShape_read_state_inv _ _ _ _ _ _ _ hst
  constructor
  · intro p hp
    rw [hpaths] at hp
    have := hinv.paths_edges p hp
    exact List.length_pos.2 this
  · exact push_path_no_edges

/-- Witness of C9: the square of scenario A decodes to one path of four
edges. -/
theorem DefineShape_read_paths_have_edges_witness :
    ∃ (record : DefineShape) (s' : Stream),
      DefineShape.read (Stream.ofData squareShape) TagCode.DEFINE_SHAPE = .ok (record, s') ∧
      record.paths.map (fun p => p.edges.length) = [4] ∧
      (∀ p ∈ record.paths, 1 ≤ p.edges.length) ∧
      (∀ (st : ShapeState) (reset : Bool), st.current_path.edges = [] →
        (push_path st reset).paths = st.paths) :=
  ⟨_, _, rfl, rfl,
    DefineShape_read_paths_have_edges (Stream.ofData squareShape) _ TagCode.DEFINE_SHAPE _ rfl⟩

/-- Counterexample to C10: a shape with no fill style and no line style on
which `DefineShape::read` succeeds and emits a path with left fill index 5
and line index 7. -/
theorem DefineShape_read_index_beyond_styles :
    ∃ (id : Nat) (b eb : Rect) (st : ShapeState) (s' : Stream),
      DefineShape.read_state (Stream.ofData unboundedIndexShape) TagCode.DEFINE_SHAPE =
        .ok ((id, b, eb, st), s') ∧
      DefineShape.read (Stream.ofData unboundedIndexShape) TagCode.DEFINE_SHAPE =
        .ok ({ character_id := id, bounds := b, edge_bounds := eb,
               fill_styles := st.fill_styles, paths := st.paths }, s') ∧
      st.fill_styles.length = 0 ∧ st.line_styles.length = 0 ∧
      ∃ p ∈ st.paths, ¬ (p.left_fill = 0 ∨ p.left_fill ≤ st.fill_styles.length) ∧
        ¬ (p.line = 0 ∨ p.line ≤ st.line_styles.length) := by
  refine ⟨_, _, _, _, _, rfl, rfl, rfl, rfl,
    { left_fill := 5, line := 7, edges := [.straight { x := 1, y := 0 }] }, ?_, ?_, ?_⟩
  · decide
  · decide
  · decide

/-- C10, amended. Whenever `DefineShape::read` of record.cpp succeeds, for
every emitted path each of `left_fill` and `right_fill` is at most the
number of fill styles decoded for the shape plus 32767 (an index of at most
15 bits, to which a fill index base no larger than the number of fill
styles is added when the index is not 0), and `line` is at most 32767 (an
index of at most 15 bits). The decoder does not compare an index with the
length of its style array. -/
theorem DefineShape_read_indices_within_widths (s s' : Stream) (type : TagCode)
    (record : DefineShape) (h : DefineShape.read s type = .ok (record, s')) :
    ∀ p ∈ record.paths,
      p.left_fill ≤ record.fill_styles.length + 32767 ∧
      p.right_fill ≤ record.fill_styles.length + 32767 ∧
      p.line ≤ 32767 := by
  obtain ⟨st, hst, hfills, hpaths⟩ := DefineShape_read_ok h
  have hinv := DefineShape_read_state_inv _ _ _ _ _ _ _ hst
  intro p hp
  rw [hpaths] at hp
  rw [hfills]
  exact hinv.paths_within p hp

/-- Witness of the amended C10: the shape of the counterexample. -/
theorem DefineShape_read_indices_within_widths_witness :
    ∃ (record : DefineShape) (s' : Stream),
      DefineShape.read (Stream.ofData unboundedIndexShape) TagCode.DEFINE_SHAPE =
        .ok (record, s') ∧
      ∀ p ∈ record.paths,
        p.left_fill ≤ record.fill_styles.length + 32767 ∧
        p.right_fill ≤ record.fill_styles.length + 32767 ∧
        p.line ≤ 32767 :=
  ⟨_, _, rfl,
    DefineShape_read_indices_within_widths (Stream.ofData unboundedIndexShape) _
      TagCode.DEFINE_SHAPE _ rfl⟩

end record_cpp

/-! ## The extended placement decoder -/

theorem gatedRead_of_ite {α : Type} {c : Prop} [Decidable c] {f : Stream → Res (α × Stream)}
    {d : α} {s : Stream} {v : α} {t : Stream}
    (h : (if c then f s else pure (d, s)) = .ok (v, t)) : gatedRead c f d s v t := by
  by_cases hc : c
  · rw [if_pos hc] at h
    exact ⟨fun _ => h, fun hn => absurd hc hn⟩
  · rw [if_neg hc] at h
    cases h
    exact ⟨fun hp => absurd hp hc, fun _ => ⟨rfl, rfl⟩⟩

theorem parse_tag_26_reads (this : record_cpp.PlaceObject) (s t : Stream)
    (r : record_cpp.PlaceObject) (h : this.parse_tag_26 s = .ok (r, t)) :
    ∃ mask, Place2Reads s t this.matrix this.cxform this.name this.clip_depth mask
      r.character_id r.depth r.matrix r.cxform r.ratio r.name r.clip_depth := by
  unfold record_cpp.PlaceObject.parse_tag_26 at h
  obtain ⟨⟨mask, s0⟩, h0, h⟩ := (bind_eq_ok _ _ _).1 h
  obtain ⟨⟨depth, s1⟩, h1, h⟩ := (bind_eq_ok _ _ _).1 h
  obtain ⟨⟨cid, s2⟩, h2, h⟩ := (bind_eq_ok _ _ _).1 h
  obtain ⟨⟨m, s3⟩, h3, h⟩ := (bind_eq_ok _ _ _).1 h
  obtain ⟨⟨cx, s4⟩, h4, h⟩ := (bind_eq_ok _ _ _).1 h
  obtain ⟨⟨ratio, s5⟩, h5, h⟩ := (bind_eq_ok _ _ _).1 h
  obtain ⟨⟨name, s6⟩, h6, h⟩ := (bind_eq_ok _ _ _).1 h
  obtain ⟨⟨cd, s7⟩, h7, h⟩ := (bind_eq_ok _ _ _).1 h
  cases h
  exact ⟨mask, s0, s1, s2, s3, s4, s5, s6, h0, h1, gatedRead_of_ite h2, gatedRead_of_ite h3,
    gatedRead_of_ite h4, gatedRead_of_ite h5, gatedRead_of_ite h6, gatedRead_of_ite h7⟩

theorem PlaceObject2_read_reads (s t : Stream) (r : parser_cpp.PlaceObject2)
    (h : parser_cpp.PlaceObject2.read s = .ok (r, t)) :
    ∃ mask, Place2Reads s t Matrix.identity ColorTransform.identity [] 0 mask
      r.character_id r.depth r.matrix r.cxform r.ratio r.name r.clip_depth := by
  unfold parser_cpp.PlaceObject2.read at h
  obtain ⟨⟨mask, s0⟩, h0, h⟩ := (bind_eq_ok _ _ _).1 h
  obtain ⟨⟨depth, s1⟩, h1, h⟩ := (bind_eq_ok _ _ _).1 h
  obtain ⟨⟨cid, s2⟩, h2, h⟩ := (bind_eq_ok _ _ _).1 h
  obtain ⟨⟨m, s3⟩, h3, h⟩ := (bind_eq_ok _ _ _).1 h
  obtain ⟨⟨cx, s4⟩, h4, h⟩ := (bind_eq_ok _ _ _).1 h
  obtain ⟨⟨ratio, s5⟩, h5, h⟩ := (bind_eq_ok _ _ _).1 h
  obtain ⟨⟨name, s6⟩, h6, h⟩ := (bind_eq_ok _ _ _).1 h
  obtain ⟨⟨cd, s7⟩, h7, h⟩ := (bind_eq_ok _ _ _).1 h
  cases h
  exact ⟨mask, s0, s1, s2, s3, s4, s5, s6, h0, h1, gatedRead_of_ite h2, gatedRead_of_ite h3,
    gatedRead_of_ite h4, gatedRead_of_ite h5, gatedRead_of_ite h6, gatedRead_of_ite h7⟩

theorem Place2Reads_matrix_default {s t : Stream} {dm : Matrix} {dc : ColorTransform}
    {dn : List Nat} {dk mask cid depth : Nat} {m : Matrix} {cx : ColorTransform}
    {ratio : Nat} {name : List Nat} {cd : Nat}
    (h : Place2Reads s t dm dc dn dk mask cid depth m cx ratio name cd)
    (hm : mask &&& 0x04 = 0) : m = dm := by
  obtain ⟨s0, s1, s2, s3, s4, s5, s6, -, -, -, h3, -⟩ := h
  exact (h3.2 (by simp [hm])).1

/-- C11. Whenever the extended placement decoder succeeds (`parse_tag_26`
entered through `PlaceObject::read` of record.cpp, and `PlaceObject2::read`
of openswf_parser.cpp): the mask and the depth are read, then, in this
order, the character id (`0x02`), the matrix (`0x04`), the colour transform
(`0x08`), the ratio (`0x10`), the name (`0x20`) and the clip depth (`0x40`)
are each read exactly when their bit of the mask is set; a field whose bit
is clear consumes nothing and keeps its default (character id 0, ratio 0,
identity matrix). In particular, with the matrix bit clear the record's
matrix, and the transform of the Place command made from the record, is
the identity whatever bytes follow. -/
theorem place2_fields_gated_by_mask (s t : Stream) :
    (∀ (header : TagHeader) (r : record_cpp.PlaceObject),
      header.code = TagCode.PLACE_OBJECT2 →
      record_cpp.PlaceObject.read s header = .ok (r, t) →
      ∃ mask, Place2Reads s t Matrix.identity ColorTransform.identity [] 0 mask
          r.character_id r.depth r.matrix r.cxform r.ratio r.name r.clip_depth ∧
        (mask &&& 0x04 = 0 → r.matrix = Matrix.identity)) ∧
    (∀ r : parser_cpp.PlaceObject2, parser_cpp.PlaceObject2.read s = .ok (r, t) →
      ∃ mask, Place2Reads s t Matrix.identity ColorTransform.identity [] 0 mask
          r.character_id r.depth r.matrix r.cxform r.ratio r.name r.clip_depth ∧
        (mask &&& 0x04 = 0 →
          PlaceCommand.ofPlaceObject2 r =
            Command.place r.character_id r.depth Matrix.identity r.cxform)) := by
  constructor
  · intro header r hc h
    unfold record_cpp.PlaceObject.read at h
    rw [if_neg (by simp [hc]), if_neg (by rw [hc]; decide)] at h
    obtain ⟨mask, hr⟩ := parse_tag_26_reads _ _ _ _ h
    exact ⟨mask, hr, fun hm => Place2Reads_matrix_default hr hm⟩
  · intro r h
    obtain ⟨mask, hr⟩ := PlaceObject2_read_reads _ _ _ h
    refine ⟨mask, hr, fun hm => ?_⟩
    unfold PlaceCommand.ofPlaceObject2
    rw [Place2Reads_matrix_default hr hm]

/-- Witness of C11: a mask with the character bit only; the three bytes
`0xff` that follow the character id are not read and the transform is the
identity. -/
theorem place2_fields_gated_by_mask_witness :
    ∃ mask, Place2Reads (Stream.ofData place2NoMatrix)
        { data := place2NoMatrix, pos := 5, cur := 0, unused := 0 }
        Matrix.identity ColorTransform.identity [] 0 mask
        5 1 Matrix.identity ColorTransform.identity 0 [] 0 ∧
      (mask &&& 0x04 = 0 →
        PlaceCommand.ofPlaceObject2 { character_id := 5, depth := 1 } =
          Command.place 5 1 Matrix.identity ColorTransform.identity) :=
  (place2_fields_gated_by_mask (Stream.ofData place2NoMatrix)
    { data := place2NoMatrix, pos := 5, cur := 0, unused := 0 }).2
    { character_id := 5, depth := 1 } rfl

/-! ## The original placement decoder -/

namespace record_cpp

/-- C13. `RemoveObject::read(stream, type)`: for REMOVE_OBJECT it reads a
16-bit character id and then a 16-bit depth, consuming 4 bytes; for
REMOVE_OBJECT2 it reads only the 16-bit depth, consuming 2 bytes, and the
character id is 0; for any other tag code it fails on its assertion. -/
theorem RemoveObject_read_variants (s : Stream) :
    (RemoveObject.read s TagCode.REMOVE_OBJECT = (do
        let (character_id, s) ← s.read_uint16
        let (depth, s) ← s.read_uint16
        return ({ character_id := character_id, depth := depth }, s))) ∧
    (∀ (r : RemoveObject) (t : Stream), RemoveObject.read s TagCode.REMOVE_OBJECT = .ok (r, t) →
      ∃ b0 b1 b2 b3, s.data[s.pos]? = some b0 ∧ s.data[s.pos + 1]? = some b1 ∧
        s.data[s.pos + 2]? = some b2 ∧ s.data[s.pos + 3]? = some b3 ∧
        r.character_id = b0 % 256 + 256 * (b1 % 256) ∧
        r.depth = b2 % 256 + 256 * (b3 % 256) ∧ t.pos = s.pos + 4) ∧
    (RemoveObject.read s TagCode.REMOVE_OBJECT2 = (do
        let (depth, s) ← s.read_uint16
        return ({ character_id := 0, depth := depth }, s))) ∧
    (∀ (r : RemoveObject) (t : Stream), RemoveObject.read s TagCode.REMOVE_OBJECT2 = .ok (r, t) →
      ∃ b0 b1, s.data[s.pos]? = some b0 ∧ s.data[s.pos + 1]? = some b1 ∧
        r.character_id = 0 ∧ r.depth = b0 % 256 + 256 * (b1 % 256) ∧ t.pos = s.pos + 2) ∧
    (∀ type : TagCode, type ≠ TagCode.REMOVE_OBJECT → type ≠ TagCode.REMOVE_OBJECT2 →
      RemoveObject.read s type = .error .assertion) := by
  have e1 : RemoveObject.read s TagCode.REMOVE_OBJECT = (do
        let (character_id, s) ← s.read_uint16
        let (depth, s) ← s.read_uint16
        return ({ character_id := character_id, depth := depth }, s)) := rfl
  have e2 : RemoveObject.read s TagCode.REMOVE_OBJECT2 = (do
        let (depth, s) ← s.read_uint16
        return ({ character_id := 0, depth := depth }, s)) := rfl
  refine ⟨e1, fun r t h => ?_, e2, fun r t h => ?_, fun type h1 h2 => ?_⟩
  · rw [e1] at h
    obtain ⟨⟨cid, s1⟩, h1, h⟩ := (bind_eq_ok _ _ _).1 h
    obtain ⟨⟨depth, s2⟩, h2, h⟩ := (bind_eq_ok _ _ _).1 h
    obtain ⟨b0, b1, hb0, hb1, hv1, hs1⟩ := read_uint16_ok h1
    obtain ⟨b2, b3, hb2, hb3, hv2, hs2⟩ := read_uint16_ok h2
    cases h
    subst hs1
    subst hs2
    exact ⟨b0, b1, b2, b3, hb0, hb1, hb2, hb3, hv1, hv2, rfl⟩
  · rw [e2] at h
    obtain ⟨⟨depth, s1⟩, h1, h⟩ := (bind_eq_ok _ _ _).1 h
    obtain ⟨b0, b1, hb0, hb1, hv1, hs1⟩ := read_uint16_ok h1
    cases h
    subst hs1
    exact ⟨b0, b1, hb0, hb1, rfl, hv1, rfl⟩
  · unfold RemoveObject.read
    rw [if_pos (by simp [h1, h2])]

end record_cpp

/-! ## Removal tags in parse -/

/-- C14, the code at the failing input. A file whose only frame holds a
REMOVE_OBJECT2 tag for depth 1: `parse` succeeds, the tag chain is that tag
followed by SHOW_FRAME, `RemoveObject::read` of record.cpp decodes the
tag's body to depth 1, and yet the frame that `parse` records is empty,
the `switch` having no case for REMOVE_OBJECT2; with a REMOVE_OBJECT tag in
its place the frame holds the Remove command. -/
theorem parse_skips_remove_object2 :
    (∃ (pl : Player) (s' : Stream) (chain : List (TagHeader × Stream)),
      parse (Stream.ofData removeObject2File) = .ok (pl, s') ∧
      fileTagChain (Stream.ofData removeObject2File) = .ok chain ∧
      chain.map (fun e => e.1.code) = [TagCode.REMOVE_OBJECT2, TagCode.SHOW_FRAME] ∧
      chain.map (fun e => (record_cpp.RemoveObject.read e.2 e.1.code).toOption.map
          (fun r => r.1)) = [some { character_id := 0, depth := 1 }, none] ∧
      pl.m_frames = [[]] ∧ pl.m_records = []) ∧
    (∃ (pl : Player) (s' : Stream),
      parse (Stream.ofData removeObjectFile) = .ok (pl, s') ∧
      pl.m_frames = [[Command.remove 9 1]]) :=
  ⟨⟨_, _, _, rfl, rfl, rfl, rfl, rfl, rfl⟩, ⟨_, _, rfl, rfl⟩⟩

/-! ## Unsupported fill styles -/

namespace record_cpp

theorem read_fill_style_unsupported (s : Stream) (tag : TagCode) (b : Nat)
    (hb : s.data[s.pos]? = some b) (hu : b % 256 ∉ supportedFillCodes) :
    read_fill_style s tag = .error .assertion := by
  simp only [supportedFillCodes, List.mem_cons, List.mem_singleton, not_or, List.not_mem_nil,
    not_false_eq_true, and_true] at hu
  obtain ⟨h0, h1, h2, h3⟩ := hu
  unfold read_fill_style
  rw [read_uint8_of_getElem? hb, ok_bind]
  dsimp only
  rw [if_neg h0, if_neg h1, if_neg h2, if_neg h3]

theorem read_fill_style_supported (s t : Stream) (tag : TagCode) (f : FillStyle)
    (h : read_fill_style s tag = .ok (f, t)) :
    ∃ b, s.data[s.pos]? = some b ∧
      ((b % 256 = 0x00 ∧ ∃ c, f = .solid c) ∨ (b % 256 = 0x10 ∧ ∃ g, f = .linear g) ∨
       (b % 256 = 0x12 ∧ ∃ g, f = .radial g) ∨ (b % 256 = 0x13 ∧ ∃ g x, f = .focal g x)) := by
  unfold read_fill_style at h
  obtain ⟨⟨ty, s1⟩, h1, h⟩ := (bind_eq_ok _ _ _).1 h
  obtain ⟨b, hb, rfl, -⟩ := read_uint8_ok h1
  refine ⟨b, hb, ?_⟩
  dsimp only at h
  split at h
  · rename_i h0
    obtain ⟨⟨c, s2⟩, -, h⟩ := (bind_eq_ok _ _ _).1 h
    cases h
    exact Or.inl ⟨h0, c, rfl⟩
  · split at h
    · rename_i h0
      obtain ⟨⟨g, s2⟩, -, h⟩ := (bind_eq_ok _ _ _).1 h
      cases h
      exact Or.inr (Or.inl ⟨h0, g, rfl⟩)
    · split at h
      · rename_i h0
        obtain ⟨⟨g, s2⟩, -, h⟩ := (bind_eq_ok _ _ _).1 h
        cases h
        exact Or.inr (Or.inr (Or.inl ⟨h0, g, rfl⟩))
      · split at h
        · rename_i h0
          obtain ⟨⟨g, s2⟩, -, h⟩ := (bind_eq_ok _ _ _).1 h
          obtain ⟨⟨x, s3⟩, -, h⟩ := (bind_eq_ok _ _ _).1 h
          cases h
          exact Or.inr (Or.inr (Or.inr ⟨h0, g, x, rfl⟩))
        · cases h

theorem read_fill_styles_loop_add (tag : TagCode) (k j : Nat) (s : Stream)
    (array : List FillStyle) :
    read_fill_styles_loop tag (k + j) s array =
      (read_fill_styles_loop tag k s array >>= fun x => read_fill_styles_loop tag j x.2 x.1) := by
  induction k generalizing s array with
  | zero =>
    rw [Nat.zero_add]
    rfl
  | succ k ih =>
    have step : ∀ (n : Nat) (s : Stream) (array : List FillStyle),
        read_fill_styles_loop tag (n + 1) s array =
          (read_fill_style s tag >>= fun x =>
            read_fill_styles_loop tag n x.2 (array ++ [x.1])) := fun _ _ _ => rfl
    rw [Nat.succ_add, step (k + j), step k]
    cases h : read_fill_style s tag with
    | error e => rfl
    | ok x =>
      obtain ⟨style, s1⟩ := x
      simp only [ok_bind]
      exact ih s1 _

theorem read_fill_styles_loop_unsupported (tag : TagCode) (k m : Nat) (s s1 : Stream)
    (array r : List FillStyle) (b : Nat)
    (hk : read_fill_styles_loop tag k s array = .ok (r, s1))
    (hb : s1.data[s1.pos]? = some b) (hu : b % 256 ∉ supportedFillCodes) :
    read_fill_styles_loop tag (k + (m + 1)) s array = .error .assertion := by
  rw [read_fill_styles_loop_add, hk, ok_bind]
  dsimp only
  unfold read_fill_styles_loop
  rw [read_fill_style_unsupported s1 tag b hb hu]
  rfl

/-- C15. `read_fill_style` of record.cpp fails on its assertion for every
fill-style type byte outside solid (`0x00`), linear gradient (`0x10`),
radial gradient (`0x12`) and focal radial gradient (`0x13`), the bitmap
codes `0x40` to `0x43` among them, and when it returns a fill style the
type byte is one of the four and the style is of that kind. Hence the
style array fails to decode as soon as one of its entries has another type
byte, and with it `DefineShape::read`; the decoder of openswf_parser.cpp
accepts the solid fill only. -/
theorem read_fill_style_rejects_unsupported (s : Stream) (tag : TagCode) :
    (∀ b, s.data[s.pos]? = some b → b % 256 ∉ supportedFillCodes →
      read_fill_style s tag = .error .assertion) ∧
    (∀ b, s.data[s.pos]? = some b → 0x40 ≤ b % 256 → b % 256 ≤ 0x43 →
      read_fill_style s tag = .error .assertion) ∧
    (∀ (f : FillStyle) (t : Stream), read_fill_style s tag = .ok (f, t) →
      ∃ b, s.data[s.pos]? = some b ∧
        ((b % 256 = 0x00 ∧ ∃ c, f = .solid c) ∨ (b % 256 = 0x10 ∧ ∃ g, f = .linear g) ∨
         (b % 256 = 0x12 ∧ ∃ g, f = .radial g) ∨
         (b % 256 = 0x13 ∧ ∃ g x, f = .focal g x))) ∧
    (∀ (k m : Nat) (array r : List FillStyle) (s1 : Stream) (b : Nat),
      read_fill_styles_loop tag k s array = .ok (r, s1) →
      s1.data[s1.pos]? = some b → b % 256 ∉ supportedFillCodes →
      read_fill_styles_loop tag (k + (m + 1)) s array = .error .assertion) ∧
    (∀ (id count k m : Nat) (bounds : Rect) (s1 s2 s3 s4 : Stream) (r : List FillStyle)
      (b : Nat),
      tag = TagCode.DEFINE_SHAPE ∨ tag = TagCode.DEFINE_SHAPE2 ∨ tag = TagCode.DEFINE_SHAPE3 →
      s.read_uint16 = .ok (id, s1) → s1.read_rect = .ok (bounds, s2) →
      read_style_count s2 = .ok (count, s3) → count = k + (m + 1) →
      read_fill_styles_loop tag k s3 [] = .ok (r, s4) →
      s4.data[s4.pos]? = some b → b % 256 ∉ supportedFillCodes →
      DefineShape.read s tag = .error .assertion) ∧
    (∀ (type n : Nat) (array : List parser_cpp.FillStyle) (b : Nat),
      s.data[s.pos]? = some b → b % 256 ≠ 0x00 →
      parser_cpp.read_fill_styles_loop type (n + 1) s array = .error .assertion) := by
  refine ⟨fun b hb hu => read_fill_style_unsupported s tag b hb hu,
    fun b hb h1 h2 => read_fill_style_unsupported s tag b hb ?_,
    fun f t h => read_fill_style_supported s t tag f h,
    fun k m array r s1 b hk hb hu =>
      read_fill_styles_loop_unsupported tag k m s s1 array r b hk hb hu, ?_, ?_⟩
  · simp only [supportedFillCodes, List.mem_cons, List.mem_singleton, not_or, List.not_mem_nil,
      not_false_eq_true, and_true]
    omega
  · intro id count k m bounds s1 s2 s3 s4 r b ht h1 h2 h3 hc hk hb hu
    have hne : tag ≠ TagCode.DEFINE_SHAPE4 := by
      rcases ht with h | h | h <;> rw [h] <;> decide
    have hfs : read_fill_styles s2 [] tag = .error .assertion := by
      unfold read_fill_styles
      rw [h3, ok_bind]
      dsimp only
      rw [hc]
      exact read_fill_styles_loop_unsupported tag k m s3 s4 [] r b hk hb hu
    unfold DefineShape.read DefineShape.read_state
    rw [if_neg (by
      rcases ht with h | h | h
      · exact fun hn => hn (Or.inl h)
      · exact fun hn => hn (Or.inr (Or.inl h))
      · exact fun hn => hn (Or.inr (Or.inr (Or.inl h))))]
    rw [h1]
    simp only [ok_bind]
    rw [h2]
    simp only [ok_bind]
    rw [if_neg hne]
    simp only [pure, Except.pure, ok_bind]
    rw [hfs]
    rfl
  · intro type n array b hb hne
    unfold parser_cpp.read_fill_styles_loop
    rw [read_uint8_of_getElem? hb, ok_bind]
    dsimp only
    rw [if_neg hne]

/-- Witness of C15: a shape whose only fill style has the type byte `0x40`
of a repeating bitmap. -/
theorem read_fill_style_rejects_unsupported_witness :
    read_fill_style { data := bitmapFillShape, pos := 4, cur := 0, unused := 0 }
        TagCode.DEFINE_SHAPE = .error .assertion ∧
    DefineShape.read (Stream.ofData bitmapFillShape) TagCode.DEFINE_SHAPE =
      .error .assertion :=
  ⟨(read_fill_style_rejects_unsupported
      { data := bitmapFillShape, pos := 4, cur := 0, unused := 0 } TagCode.DEFINE_SHAPE).2.1
      0x40 rfl (by decide) (by decide),
   (read_fill_style_rejects_unsupported (Stream.ofData bitmapFillShape)
      TagCode.DEFINE_SHAPE).2.2.2.2.1 1 1 0 0 { xmin := 0, xmax := 0, ymin := 0, ymax := 0 }
      { data := bitmapFillShape, pos := 2, cur := 0, unused := 0 }
      { data := bitmapFillShape, pos := 3, cur := 0, unused := 3 }
      { data := bitmapFillShape, pos := 4, cur := 0, unused := 0 }
      { data := bitmapFillShape, pos := 4, cur := 0, unused := 0 }
      [] 0x40 (Or.inl rfl) rfl rfl rfl rfl rfl rfl (by decide)⟩

end record_cpp

/-! ## The clip-actions bit of the extended placement decoder -/

theorem pure_ne_assertion {α : Type} (a : α) :
    (pure a : Res α) ≠ .error .assertion := by
  intro h
  cases h

theorem ite_ne_assertion {α : Type} {c : Prop} [Decidable c] {x y : Res α}
    (hx : x ≠ .error .assertion) (hy : y ≠ .error .assertion) :
    (if c then x else y) ≠ .error .assertion := by
  split
  · exact hx
  · exact hy

theorem read_int_pair_ne_assertion (s : Stream) : s.read_int_pair ≠ .error .assertion := by
  unfold Stream.read_int_pair
  refine bind_ne_assertion (read_bits_as_uint32_ne_assertion _ _ (by omega)) (fun a ha => ?_)
  obtain ⟨bits, s1⟩ := a
  have hb : bits ≤ 32 := by
    have := (read_bits_as_uint32_lt ha).1
    omega
  refine bind_ne_assertion (read_bits_as_int32_ne_assertion _ _ hb) (fun _ _ => ?_)
  refine bind_ne_assertion (read_bits_as_int32_ne_assertion _ _ hb) (fun _ _ => ?_)
  exact pure_ne_assertion _

theorem read_matrix_ne_assertion (s : Stream) : s.read_matrix ≠ .error .assertion := by
  unfold Stream.read_matrix
  refine bind_ne_assertion (read_bits_as_uint32_ne_assertion _ _ (by omega)) (fun _ _ => ?_)
  refine bind_ne_assertion
    (ite_ne_assertion (read_int_pair_ne_assertion _) (pure_ne_assertion _)) (fun _ _ => ?_)
  refine bind_ne_assertion (read_bits_as_uint32_ne_assertion _ _ (by omega)) (fun _ _ => ?_)
  refine bind_ne_assertion
    (ite_ne_assertion (read_int_pair_ne_assertion _) (pure_ne_assertion _)) (fun _ _ => ?_)
  refine bind_ne_assertion (read_int_pair_ne_assertion _) (fun _ _ => ?_)
  exact pure_ne_assertion _

theorem read_channels_ne_assertion (s : Stream) (bits : Nat) (alpha : Bool) (da : Int)
    (hb : bits ≤ 32) : s.read_channels bits alpha da ≠ .error .assertion := by
  unfold Stream.read_channels
  refine bind_ne_assertion (read_bits_as_int32_ne_assertion _ _ hb) (fun _ _ => ?_)
  refine bind_ne_assertion (read_bits_as_int32_ne_assertion _ _ hb) (fun _ _ => ?_)
  refine bind_ne_assertion (read_bits_as_int32_ne_assertion _ _ hb) (fun _ _ => ?_)
  refine ite_ne_assertion ?_ (pure_ne_assertion _)
  refine bind_ne_assertion (read_bits_as_int32_ne_assertion _ _ hb) (fun _ _ => ?_)
  exact pure_ne_assertion _

theorem read_cxform_ne_assertion (s : Stream) (alpha : Bool) :
    s.read_cxform alpha ≠ .error .assertion := by
  unfold Stream.read_cxform
  refine bind_ne_assertion (read_bits_as_uint32_ne_assertion _ _ (by omega)) (fun _ _ => ?_)
  refine bind_ne_assertion (read_bits_as_uint32_ne_assertion _ _ (by omega)) (fun _ _ => ?_)
  refine bind_ne_assertion (read_bits_as_uint32_ne_assertion _ _ (by omega)) (fun a ha => ?_)
  obtain ⟨bits, s1⟩ := a
  have hb : bits ≤ 32 := by
    have := (read_bits_as_uint32_lt ha).1
    omega
  refine bind_ne_assertion
    (ite_ne_assertion (read_channels_ne_assertion _ _ _ _ hb) (pure_ne_assertion _))
    (fun _ _ => ?_)
  refine bind_ne_assertion
    (ite_ne_assertion (read_channels_ne_assertion _ _ _ _ hb) (pure_ne_assertion _))
    (fun _ _ => ?_)
  exact pure_ne_assertion _

theorem read_string_ne_assertion (s : Stream) : s.read_string ≠ .error .assertion := by
  unfold Stream.read_string
  split
  · intro h
    cases h
  · intro h
    cases h

theorem place2Body_ne_assertion (this : record_cpp.PlaceObject) (mask : Nat) (s : Stream) :
    place2Body this mask s ≠ .error .assertion := by
  unfold place2Body
  refine bind_ne_assertion (read_uint16_ne_assertion _) (fun _ _ => ?_)
  refine bind_ne_assertion
    (ite_ne_assertion (read_uint16_ne_assertion _) (pure_ne_assertion _)) (fun _ _ => ?_)
  refine bind_ne_assertion
    (ite_ne_assertion (read_matrix_ne_assertion _) (pure_ne_assertion _)) (fun _ _ => ?_)
  refine bind_ne_assertion
    (ite_ne_assertion (read_cxform_ne_assertion _ _) (pure_ne_assertion _)) (fun _ _ => ?_)
  refine bind_ne_assertion
    (ite_ne_assertion (read_uint16_ne_assertion _) (pure_ne_assertion _)) (fun _ _ => ?_)
  refine bind_ne_assertion
    (ite_ne_assertion (read_string_ne_assertion _) (pure_ne_assertion _)) (fun _ _ => ?_)
  refine bind_ne_assertion
    (ite_ne_assertion (read_uint16_ne_assertion _) (pure_ne_assertion _)) (fun _ _ => ?_)
  exact pure_ne_assertion _

theorem parse_tag_26_eq_body (this : record_cpp.PlaceObject) (s : Stream) :
    this.parse_tag_26 s = (s.read_uint8 >>= fun x => place2Body this x.1 x.2) := rfl

theorem or_clip_bit_and (mask k : Nat) (hk : 0x80 &&& k = 0) :
    (mask ||| 0x80) &&& k = mask &&& k := by
  rw [Nat.and_distrib_right, hk, Nat.or_zero]

theorem place2Body_clip_bit (this : record_cpp.PlaceObject) (mask : Nat) (s : Stream) :
    place2Body this (mask ||| 0x80) s = place2Body this mask s := by
  unfold place2Body
  rw [or_clip_bit_and mask 0x02 (by decide), or_clip_bit_and mask 0x04 (by decide),
    or_clip_bit_and mask 0x08 (by decide), or_clip_bit_and mask 0x10 (by decide),
    or_clip_bit_and mask 0x20 (by decide), or_clip_bit_and mask 0x40 (by decide)]

/-- The extended placement decoder of openswf_parser.cpp is the one of
record.cpp run on a fresh record. -/
theorem PlaceObject2_read_eq_parse_tag_26 (s : Stream) :
    parser_cpp.PlaceObject2.read s =
      ((({} : record_cpp.PlaceObject).parse_tag_26 s) >>=
        fun x => pure (x.1.toParser2, x.2)) := by
  unfold parser_cpp.PlaceObject2.read record_cpp.PlaceObject.parse_tag_26
  cases s.read_uint8 with
  | error e => rfl
  | ok x0 =>
    obtain ⟨mask, s0⟩ := x0
    simp only [ok_bind]
    cases s0.read_uint16 with
    | error e => rfl
    | ok x1 =>
      obtain ⟨depth, s1⟩ := x1
      simp only [ok_bind]
      cases (if mask &&& 0x02 ≠ 0 then s1.read_uint16 else pure (0, s1)) with
      | error e => rfl
      | ok x2 =>
        obtain ⟨cid, s2⟩ := x2
        simp only [ok_bind]
        cases (if mask &&& 0x04 ≠ 0 then s2.read_matrix
               else pure (Matrix.identity, s2)) with
        | error e => rfl
        | ok x3 =>
          obtain ⟨m, s3⟩ := x3
          simp only [ok_bind]
          cases (if mask &&& 0x08 ≠ 0 then s3.read_cxform_rgba
                 else pure (ColorTransform.identity, s3)) with
          | error e => rfl
          | ok x4 =>
            obtain ⟨cx, s4⟩ := x4
            simp only [ok_bind]
            cases (if mask &&& 0x10 ≠ 0 then s4.read_uint16 else pure (0, s4)) with
            | error e => rfl
            | ok x5 =>
              obtain ⟨ratio, s5⟩ := x5
              simp only [ok_bind]
              cases (if mask &&& 0x20 ≠ 0 then s5.read_string else pure ([], s5)) with
              | error e => rfl
              | ok x6 =>
                obtain ⟨name, s6⟩ := x6
                simp only [ok_bind]
                cases (if mask &&& 0x40 ≠ 0 then s6.read_uint16 else pure (0, s6)) with
                | error e => rfl
                | ok x7 => rfl

/-- Counterexample to C16: a PLACE_OBJECT2 body whose mask has the
clip-actions bit set decodes successfully, in both decoders, to the record
of the same mask without that bit (depth 1, character 5), five bytes being
consumed. -/
theorem place2_clip_actions_bit_accepted :
    parser_cpp.PlaceObject2.read (Stream.ofData place2ClipActions) =
      .ok ({ character_id := 5, depth := 1 },
           { data := place2ClipActions, pos := 5, cur := 0, unused := 0 }) ∧
    record_cpp.PlaceObject.read (Stream.ofData place2ClipActions)
        { code := TagCode.PLACE_OBJECT2, size := 7, end_pos := 7 } =
      .ok ({ character_id := 5, depth := 1 },
           { data := place2ClipActions, pos := 5, cur := 0, unused := 0 }) :=
  ⟨rfl, rfl⟩

/-- C16, amended. The decoder of a PLACE_OBJECT2 tag does not test the
clip-actions bit (`0x80`) of the mask and does not read a clip-action list:
it never fails on an assertion, and what it does after reading a mask with
the bit set is what it does for the same mask without the bit, so it
returns the same Place record from the bytes that follow. This holds of
`parse_tag_26` of record.cpp and of `PlaceObject2::read` of
openswf_parser.cpp, which is `parse_tag_26` on a fresh record. -/
theorem place2_ignores_clip_actions_bit (s : Stream) :
    (∀ this : record_cpp.PlaceObject, this.parse_tag_26 s ≠ .error .assertion) ∧
    parser_cpp.PlaceObject2.read s ≠ .error .assertion ∧
    (∀ this : record_cpp.PlaceObject,
      this.parse_tag_26 s = (s.read_uint8 >>= fun x => place2Body this x.1 x.2)) ∧
    (∀ (this : record_cpp.PlaceObject) (mask : Nat),
      place2Body this (mask ||| 0x80) s = place2Body this mask s) ∧
    parser_cpp.PlaceObject2.read s =
      ((({} : record_cpp.PlaceObject).parse_tag_26 s) >>=
        fun x => pure (x.1.toParser2, x.2)) := by
  have h1 : ∀ this : record_cpp.PlaceObject, this.parse_tag_26 s ≠ .error .assertion := by
    intro this
    rw [parse_tag_26_eq_body]
    exact bind_ne_assertion (read_uint8_ne_assertion _)
      (fun _ _ => place2Body_ne_assertion _ _ _)
  refine ⟨h1, ?_, fun this => parse_tag_26_eq_body this s,
    fun this mask => place2Body_clip_bit this mask s, PlaceObject2_read_eq_parse_tag_26 s⟩
  rw [PlaceObject2_read_eq_parse_tag_26]
  exact bind_ne_assertion (h1 _) (fun _ _ => pure_ne_assertion _)

/-! ## The playback clock -/

/-- C17. When the current frame index is at or beyond the number of frames
of the timeline, `Player::update(dt)` returns at once for every `dt`: the
player is unchanged, so the frame index, the timer and the display list are
unchanged and no command is executed; and this stays so over any sequence
of calls. -/
theorem update_finished_is_noop (pl : Player) (dt : Rat)
    (h : pl.m_frames.length ≤ pl.m_current_frame) :
    pl.update dt = pl ∧
    (pl.update dt).m_current_frame = pl.m_current_frame ∧
    (pl.update dt).m_timer = pl.m_timer ∧
    (pl.update dt).m_displays = pl.m_displays ∧
    ∀ dts : List Rat, dts.foldl Player.update pl = pl := by
  have h1 : ∀ d : Rat, pl.update d = pl := by
    intro d
    unfold Player.update
    rw [if_pos h]
  refine ⟨h1 dt, by rw [h1], by rw [h1], by rw [h1], fun dts => ?_⟩
  induction dts with
  | nil => rfl
  | cons d ds ih =>
    rw [List.foldl_cons, h1 d]
    exact ih

/-- Witness of C17: a player at frame index 3 of a timeline of three
frames. -/
theorem update_finished_is_noop_witness :
    finishedPlayer.update 5 = finishedPlayer ∧
    (finishedPlayer.update 5).m_current_frame = finishedPlayer.m_current_frame ∧
    (finishedPlayer.update 5).m_timer = finishedPlayer.m_timer ∧
    (finishedPlayer.update 5).m_displays = finishedPlayer.m_displays ∧
    ∀ dts : List Rat, dts.foldl Player.update finishedPlayer = finishedPlayer :=
  update_finished_is_noop finishedPlayer 5 (by decide)

theorem execute_frames (c : Command) (pl : Player) :
    (c.execute pl).m_frames = pl.m_frames ∧ (c.execute pl).m_timer = pl.m_timer ∧
    (c.execute pl).m_current_frame = pl.m_current_frame := by
  cases c with
  | place character_id depth transform cxform =>
    unfold Command.execute Player.place
    dsimp only
    split <;> exact ⟨rfl, rfl, rfl⟩
  | remove character_id depth => exact ⟨rfl, rfl, rfl⟩

theorem execute_all_frames (cs : List Command) (pl : Player) :
    (pl.execute_all cs).m_frames = pl.m_frames ∧ (pl.execute_all cs).m_timer = pl.m_timer ∧
    (pl.execute_all cs).m_current_frame = pl.m_current_frame := by
  induction cs generalizing pl with
  | nil => exact ⟨rfl, rfl, rfl⟩
  | cons c cs ih =>
    unfold Player.execute_all at ih ⊢
    rw [List.foldl_cons]
    obtain ⟨h1, h2, h3⟩ := ih (c.execute pl)
    obtain ⟨g1, g2, g3⟩ := execute_frames c pl
    exact ⟨h1.trans g1, h2.trans g2, h3.trans g3⟩

theorem withClock_self (pl : Player) : pl.withClock pl.m_timer pl.m_current_frame = pl := rfl

namespace record_cpp

theorem push_path_false_fields (st : ShapeState) :
    (push_path st false).fill_index_bits = st.fill_index_bits ∧
    (push_path st false).fill_index_base = st.fill_index_base := by
  unfold push_path
  simp only [Bool.false_eq_true, if_false]
  split <;> exact ⟨rfl, rfl⟩

/-- C19, counterexample. With a fill index width of 0, `DefineShape::read`
of record.cpp skips the fill-style-0 block: the style-change record with
mask 0x02 between two edges does not flush the path in progress, and the
shape comes out as one path with both edges. With a width of 1 the same
records give two paths of one edge each. -/
theorem DefineShape_read_zero_width_no_flush :
    (∃ s', DefineShape.read (Stream.ofData zeroWidthShape) TagCode.DEFINE_SHAPE =
      .ok ({ character_id := 1,
             bounds := { xmin := 0, xmax := 0, ymin := 0, ymax := 0 },
             edge_bounds := { xmin := 0, xmax := 0, ymin := 0, ymax := 0 },
             fill_styles := [],
             paths := [{ edges := [ShapeEdge.straight { x := 1, y := 0 },
                                   ShapeEdge.straight { x := 2, y := 0 }] }] }, s')) ∧
    (∃ s', DefineShape.read (Stream.ofData oneBitWidthShape) TagCode.DEFINE_SHAPE =
      .ok ({ character_id := 1,
             bounds := { xmin := 0, xmax := 0, ymin := 0, ymax := 0 },
             edge_bounds := { xmin := 0, xmax := 0, ymin := 0, ymax := 0 },
             fill_styles := [],
             paths := [{ edges := [ShapeEdge.straight { x := 1, y := 0 }] },
                       { start := { x := 1, y := 0 },
                         edges := [ShapeEdge.straight { x := 2, y := 0 }] }] }, s')) ∧
    (style_fill_0 0x02 (pathInProgress 0) (Stream.ofData []) =
        .ok (pathInProgress 0, Stream.ofData []) ∧
      (pathInProgress 0).current_path.left_fill = 3 ∧
      (pathInProgress 0).current_path.edges ≠ [] ∧
      (pathInProgress 0).paths = []) :=
  ⟨⟨_, rfl⟩, ⟨_, rfl⟩, rfl, rfl, by decide, rfl⟩

/-- C19, amended. For a style-change record whose fill-style-0 (resp.
fill-style-1) flag is set, `DefineShape::read` of record.cpp acts on the
fill index width `w`. When `w > 0` it flushes the path in progress
(`push_path()`), reads an index `v` of `w` bits and sets the new path's
`left_fill` (resp. `right_fill`) to `v + fill_index_base` when `v` is not 0
and to 0 when it is 0; a failing read fails the block. When `w = 0` the
block is skipped: no flush, no read, and `left_fill` (resp. `right_fill`)
keeps its value. A read of width 0 on its own yields 0 and consumes
nothing. -/
theorem style_fill_flushes_iff_width (mask : Nat) (st : ShapeState) (s : Stream) :
    (mask &&& 0x02 ≠ 0 →
      style_fill_0 mask st s =
        if st.fill_index_bits = 0 then .ok (st, s)
        else s.read_bits_as_uint32 st.fill_index_bits >>= fun r =>
          .ok ({ push_path st false with
                  current_path := { (push_path st false).current_path with
                    left_fill := if r.1 = 0 then 0 else r.1 + st.fill_index_base } }, r.2)) ∧
    (mask &&& 0x04 ≠ 0 →
      style_fill_1 mask st s =
        if st.fill_index_bits = 0 then .ok (st, s)
        else s.read_bits_as_uint32 st.fill_index_bits >>= fun r =>
          .ok ({ push_path st false with
                  current_path := { (push_path st false).current_path with
                    right_fill := if r.1 = 0 then 0 else r.1 + st.fill_index_base } }, r.2)) ∧
    s.read_bits_as_uint32 0 = .ok (0, s) := by
  obtain ⟨hb, hbase⟩ := push_path_false_fields st
  refine ⟨fun hm => ?_, fun hm => ?_, rfl⟩
  · unfold style_fill_0
    by_cases hw : st.fill_index_bits = 0
    · rw [if_neg (fun h => absurd hw (Nat.pos_iff_ne_zero.1 h.2)), if_pos hw]
      rfl
    · rw [if_pos ⟨hm, Nat.pos_of_ne_zero hw⟩, if_neg hw]
      dsimp only
      rw [hb, hbase]
      cases hr : s.read_bits_as_uint32 st.fill_index_bits with
      | error e => rfl
      | ok r =>
        obtain ⟨v, s1⟩ := r
        simp only [ok_bind]
        by_cases hv : v = 0
        · subst hv
          rfl
        · rw [if_pos (Nat.pos_of_ne_zero hv), if_neg hv]
          rfl
  · unfold style_fill_1
    by_cases hw : st.fill_index_bits = 0
    · rw [if_neg (fun h => absurd hw (Nat.pos_iff_ne_zero.1 h.2)), if_pos hw]
      rfl
    · rw [if_pos ⟨hm, Nat.pos_of_ne_zero hw⟩, if_neg hw]
      dsimp only
      rw [hb, hbase]
      cases hr : s.read_bits_as_uint32 st.fill_index_bits with
      | error e => rfl
      | ok r =>
        obtain ⟨v, s1⟩ := r
        simp only [ok_bind]
        by_cases hv : v = 0
        · subst hv
          rfl
        · rw [if_pos (Nat.pos_of_ne_zero hv), if_neg hv]
          rfl

/-- Witness of the amended C19: the mask with both fill flags, the state
with a path in progress and width 1, and a stream of one byte. -/
theorem style_fill_flushes_iff_width_witness :
    (0x06 &&& 0x02 ≠ 0 ∧ 0x06 &&& 0x04 ≠ 0) ∧
    ((0x06 &&& 0x02 ≠ 0 →
      style_fill_0 0x06 (pathInProgress 1) (Stream.ofData [0x80]) =
        if (pathInProgress 1).fill_index_bits = 0 then
          .ok (pathInProgress 1, Stream.ofData [0x80])
        else (Stream.ofData [0x80]).read_bits_as_uint32 (pathInProgress 1).fill_index_bits >>=
          fun r =>
          .ok ({ push_path (pathInProgress 1) false with
                  current_path := { (push_path (pathInProgress 1) false).current_path with
                    left_fill :=
                      if r.1 = 0 then 0 else r.1 + (pathInProgress 1).fill_index_base } },
               r.2)) ∧
    (0x06 &&& 0x04 ≠ 0 →
      style_fill_1 0x06 (pathInProgress 1) (Stream.ofData [0x80]) =
        if (pathInProgress 1).fill_index_bits = 0 then
          .ok (pathInProgress 1, Stream.ofData [0x80])
        else (Stream.ofData [0x80]).read_bits_as_uint32 (pathInProgress 1).fill_index_bits >>=
          fun r =>
          .ok ({ push_path (pathInProgress 1) false with
                  current_path := { (push_path (pathInProgress 1) false).current_path with
                    right_fill :=
                      if r.1 = 0 then 0 else r.1 + (pathInProgress 1).fill_index_base } },
               r.2)) ∧
    (Stream.ofData [0x80]).read_bits_as_uint32 0 = .ok (0, Stream.ofData [0x80])) :=
  ⟨⟨by decide, by decide⟩,
    style_fill_flushes_iff_width 0x06 (pathInProgress 1) (Stream.ofData [0x80])⟩

end record_cpp

/-! ## The new-styles flag of the style-change record -/

/-- C20. On a shape body whose style-change record carries the new-styles
flag 0x10, `DefineShape::read` of record.cpp fails its assertion for the tag
DEFINE_SHAPE2, as it does for DEFINE_SHAPE, and decodes the shape for
DEFINE_SHAPE3; the block fails for DEFINE_SHAPE2 in every state and on every
stream. `DefineShape::read` of openswf_parser.cpp decodes the same body for
type 2 and fails its assertion for type 1. -/
theorem DefineShape_read_new_styles_rejects_shape2 :
    record_cpp.DefineShape.read (Stream.ofData newStylesShape) TagCode.DEFINE_SHAPE2 =
      .error .assertion ∧
    record_cpp.DefineShape.read (Stream.ofData newStylesShape) TagCode.DEFINE_SHAPE =
      .error .assertion ∧
    (∃ s', record_cpp.DefineShape.read (Stream.ofData newStylesShape) TagCode.DEFINE_SHAPE3 =
      .ok ({ character_id := 1,
             bounds := { xmin := 0, xmax := 0, ymin := 0, ymax := 0 },
             edge_bounds := { xmin := 0, xmax := 0, ymin := 0, ymax := 0 },
             fill_styles := [], paths := [] }, s')) ∧
    (∃ r s', parser_cpp.DefineShape.read (Stream.ofData newStylesShape) 2 = .ok (r, s')) ∧
    (∃ r s', parser_cpp.DefineShape.read (Stream.ofData newStylesShape) 3 = .ok (r, s')) ∧
    parser_cpp.DefineShape.read (Stream.ofData newStylesShape) 1 = .error .assertion ∧
    (∀ (st : record_cpp.ShapeState) (s : Stream),
      record_cpp.style_new TagCode.DEFINE_SHAPE2 0x10 st s = .error .assertion) :=
  ⟨rfl, rfl, ⟨_, rfl⟩, ⟨_, _, rfl⟩, ⟨_, _, rfl⟩, rfl, fun _ _ => rfl⟩

/-! ## New styles, straight and curved edges (record.cpp) -/

namespace record_cpp

theorem read_fill_styles_loop_acc (tag : TagCode) (n : Nat) (s : Stream)
    (array : List FillStyle) :
    read_fill_styles_loop tag n s array =
      (read_fill_styles_loop tag n s [] >>= fun x => .ok (array ++ x.1, x.2)) := by
  induction n generalizing s array with
  | zero =>
    show Except.ok (array, s) = Except.ok (array ++ [], s)
    rw [List.append_nil]
  | succ n ih =>
    have step : ∀ arr : List FillStyle, read_fill_styles_loop tag (n + 1) s arr =
        (read_fill_style s tag >>= fun x => read_fill_styles_loop tag n x.2 (arr ++ [x.1])) :=
      fun _ => rfl
    rw [step array, step []]
    cases hr : read_fill_style s tag with
    | error e => rfl
    | ok x =>
      simp only [ok_bind]
      rw [ih x.2 (array ++ [x.1]), ih x.2 ([] ++ [x.1])]
      cases hl : read_fill_styles_loop tag n x.2 [] with
      | error e => rfl
      | ok y =>
        simp only [ok_bind]
        rw [List.nil_append, List.append_assoc]

theorem read_fill_styles_acc (tag : TagCode) (s : Stream) (array : List FillStyle) :
    read_fill_styles s array tag =
      (read_fill_styles s [] tag >>= fun x => .ok (array ++ x.1, x.2)) := by
  unfold read_fill_styles
  cases hc : read_style_count s with
  | error e => rfl
  | ok c =>
    simp only [ok_bind]
    exact read_fill_styles_loop_acc tag c.1 c.2 array

theorem toSigned_range (w v : Nat) (hw : 0 < w) (hv : v < 2 ^ w) :
    -(2 ^ (w - 1) : Int) ≤ toSigned w v ∧ toSigned w v < 2 ^ (w - 1) := by
  obtain ⟨k, rfl⟩ : ∃ k, w = k + 1 := ⟨w - 1, by omega⟩
  have hpow : (2 : Nat) ^ (k + 1) = 2 * 2 ^ k := by rw [pow_succ, Nat.mul_comm]
  have hcast : ((2 : Int) ^ k) = ((2 ^ k : Nat) : Int) := by push_cast; rfl
  have hcast1 : ((2 : Int) ^ (k + 1)) = ((2 ^ (k + 1) : Nat) : Int) := by push_cast; rfl
  unfold toSigned
  rw [Nat.add_sub_cancel, hcast]
  split
  · rename_i hc
    rw [hcast1]
    have := hc.2
    omega
  · rename_i hc
    have : ¬ 2 ^ k ≤ v := fun h => hc ⟨hw, h⟩
    omega

theorem read_bits_as_int32_range {n : Nat} {s s' : Stream} {d : Int} (hn : 0 < n)
    (h : s.read_bits_as_int32 n = .ok (d, s')) :
    -(2 ^ (n - 1) : Int) ≤ d ∧ d < 2 ^ (n - 1) := by
  unfold Stream.read_bits_as_int32 at h
  obtain ⟨⟨v, s1⟩, hv, h⟩ := (bind_eq_ok _ _ _).1 h
  cases h
  exact toSigned_range n v hn (read_bits_as_uint32_lt hv).1

/-- C22. For every straight-edge record that `DefineShape::read` of record.cpp
decodes, with 4-bit length field `L` from the cursor `(x, y)`: the deltas
are signed fields of width `L + 2`, so each lies in `[-2^(L+1), 2^(L+1))`;
a general line reads `dx` then `dy`, a vertical line reads `dy` alone
(`dx = 0`), a horizontal line reads `dx` alone (`dy = 0`); the new cursor is
`(x + dx, y + dy)`; the edge appended to the path in progress is the
straight edge to the new cursor, and nothing else of the state changes. -/
theorem straight_edge_decodes (st st' : ShapeState) (s s' : Stream)
    (h : straight_edge st s = .ok (st', s')) :
    ∃ (L g : Nat) (s1 s2 : Stream) (dx dy : Int),
      s.read_bits_as_uint32 4 = .ok (L, s1) ∧ L ≤ 15 ∧
      s1.read_bits_as_uint32 1 = .ok (g, s2) ∧
      ((0 < g ∧ ∃ s3, s2.read_bits_as_int32 (L + 2) = .ok (dx, s3) ∧
          s3.read_bits_as_int32 (L + 2) = .ok (dy, s')) ∨
       (g = 0 ∧ ∃ v s3, s2.read_bits_as_uint32 1 = .ok (v, s3) ∧
          ((0 < v ∧ dx = 0 ∧ s3.read_bits_as_int32 (L + 2) = .ok (dy, s')) ∨
           (v = 0 ∧ dy = 0 ∧ s3.read_bits_as_int32 (L + 2) = .ok (dx, s'))))) ∧
      (-(2 ^ (L + 1) : Int) ≤ dx ∧ dx < 2 ^ (L + 1)) ∧
      (-(2 ^ (L + 1) : Int) ≤ dy ∧ dy < 2 ^ (L + 1)) ∧
      st'.cursor = { x := st.cursor.x + dx, y := st.cursor.y + dy } ∧
      st'.current_path.edges = st.current_path.edges ++ [ShapeEdge.straight st'.cursor] ∧
      st' = { st with cursor := st'.cursor,
                      current_path := { st.current_path with
                        edges := st'.current_path.edges } } := by
  unfold straight_edge at h
  obtain ⟨⟨L, s1⟩, hL, h⟩ := (bind_eq_ok _ _ _).1 h
  obtain ⟨⟨g, s2⟩, hg, h⟩ := (bind_eq_ok _ _ _).1 h
  obtain ⟨⟨⟨dx, dy⟩, s3⟩, hd, h⟩ := (bind_eq_ok _ _ _).1 h
  cases h
  have hL15 : L ≤ 15 := by
    have := (read_bits_as_uint32_lt hL).1
    omega
  have hz : -(2 ^ (L + 1) : Int) ≤ 0 ∧ (0 : Int) < 2 ^ (L + 1) := by
    have : (0 : Int) < 2 ^ (L + 1) := by positivity
    omega
  dsimp only at hd
  refine ⟨L, g, s1, s2, dx, dy, hL, hL15, hg, ?_, ?_, ?_, rfl, rfl, rfl⟩
  · split at hd
    · rename_i hgp
      obtain ⟨⟨x, t1⟩, hx, hd⟩ := (bind_eq_ok _ _ _).1 hd
      obtain ⟨⟨y, t2⟩, hy, hd⟩ := (bind_eq_ok _ _ _).1 hd
      cases hd
      exact Or.inl ⟨hgp, _, hx, hy⟩
    · rename_i hgp
      obtain ⟨⟨v, t1⟩, hv, hd⟩ := (bind_eq_ok _ _ _).1 hd
      dsimp only at hd
      refine Or.inr ⟨by omega, v, t1, hv, ?_⟩
      split at hd
      · rename_i hvp
        obtain ⟨⟨y, t2⟩, hy, hd⟩ := (bind_eq_ok _ _ _).1 hd
        cases hd
        exact Or.inl ⟨hvp, rfl, hy⟩
      · rename_i hvp
        obtain ⟨⟨x, t2⟩, hx, hd⟩ := (bind_eq_ok _ _ _).1 hd
        cases hd
        exact Or.inr ⟨by omega, rfl, hx⟩
  · split at hd
    · obtain ⟨⟨x, t1⟩, hx, hd⟩ := (bind_eq_ok _ _ _).1 hd
      obtain ⟨⟨y, t2⟩, hy, hd⟩ := (bind_eq_ok _ _ _).1 hd
      cases hd
      exact read_bits_as_int32_range (Nat.succ_pos _) hx
    · obtain ⟨⟨v, t1⟩, hv, hd⟩ := (bind_eq_ok _ _ _).1 hd
      dsimp only at hd
      split at hd
      · obtain ⟨⟨y, t2⟩, hy, hd⟩ := (bind_eq_ok _ _ _).1 hd
        cases hd
        exact hz
      · obtain ⟨⟨x, t2⟩, hx, hd⟩ := (bind_eq_ok _ _ _).1 hd
        cases hd
        exact read_bits_as_int32_range (Nat.succ_pos _) hx
  · split at hd
    · obtain ⟨⟨x, t1⟩, hx, hd⟩ := (bind_eq_ok _ _ _).1 hd
      obtain ⟨⟨y, t2⟩, hy, hd⟩ := (bind_eq_ok _ _ _).1 hd
      cases hd
      exact read_bits_as_int32_range (Nat.succ_pos _) hy
    · obtain ⟨⟨v, t1⟩, hv, hd⟩ := (bind_eq_ok _ _ _).1 hd
      dsimp only at hd
      split at hd
      · obtain ⟨⟨y, t2⟩, hy, hd⟩ := (bind_eq_ok _ _ _).1 hd
        cases hd
        exact read_bits_as_int32_range (Nat.succ_pos _) hy
      · obtain ⟨⟨x, t2⟩, hx, hd⟩ := (bind_eq_ok _ _ _).1 hd
        cases hd
        exact hz

/-- Witness of C22: a general line by (1, -1) from the cursor (1, 0). -/
theorem straight_edge_decodes_witness :
    ∃ (st' : ShapeState) (s' : Stream),
      straight_edge (pathInProgress 0) (Stream.ofData generalEdgeBody) = .ok (st', s') ∧
      st'.cursor = { x := 2, y := -1 } ∧
      ∃ (L g : Nat) (s1 s2 : Stream) (dx dy : Int),
        (Stream.ofData generalEdgeBody).read_bits_as_uint32 4 = .ok (L, s1) ∧ L ≤ 15 ∧
        s1.read_bits_as_uint32 1 = .ok (g, s2) ∧
        ((0 < g ∧ ∃ s3, s2.read_bits_as_int32 (L + 2) = .ok (dx, s3) ∧
            s3.read_bits_as_int32 (L + 2) = .ok (dy, s')) ∨
         (g = 0 ∧ ∃ v s3, s2.read_bits_as_uint32 1 = .ok (v, s3) ∧
            ((0 < v ∧ dx = 0 ∧ s3.read_bits_as_int32 (L + 2) = .ok (dy, s')) ∨
             (v = 0 ∧ dy = 0 ∧ s3.read_bits_as_int32 (L + 2) = .ok (dx, s'))))) ∧
        (-(2 ^ (L + 1) : Int) ≤ dx ∧ dx < 2 ^ (L + 1)) ∧
        (-(2 ^ (L + 1) : Int) ≤ dy ∧ dy < 2 ^ (L + 1)) ∧
        st'.cursor = { x := (pathInProgress 0).cursor.x + dx,
                       y := (pathInProgress 0).cursor.y + dy } ∧
        st'.current_path.edges =
          (pathInProgress 0).current_path.edges ++ [ShapeEdge.straight st'.cursor] ∧
        st' = { (pathInProgress 0) with
                  cursor := st'.cursor,
                  current_path := { (pathInProgress 0).current_path with
                    edges := st'.current_path.edges } } :=
  ⟨_, _, rfl, rfl,
    straight_edge_decodes (pathInProgress 0) _ (Stream.ofData generalEdgeBody) _ rfl⟩

/-- C23. For every curved-edge record that `DefineShape::read` of record.cpp
decodes, with the four signed values `(cx, cy, ax, ay)` of width `L + 2`:
the edge appended to the path in progress has the control point `(cx, cy)`
and the anchor `(ax, ay)` as read, not offset by the previous cursor; the
cursor afterwards is `(ax, ay)`; nothing else of the state changes; and
from any other previous cursor the same record gives the same state. -/
theorem curved_edge_is_absolute (st st' : ShapeState) (s s' : Stream)
    (h : curved_edge st s = .ok (st', s')) :
    ∃ (L : Nat) (s1 s2 s3 s4 : Stream) (cx cy ax ay : Int),
      s.read_bits_as_uint32 4 = .ok (L, s1) ∧
      s1.read_bits_as_int32 (L + 2) = .ok (cx, s2) ∧
      s2.read_bits_as_int32 (L + 2) = .ok (cy, s3) ∧
      s3.read_bits_as_int32 (L + 2) = .ok (ax, s4) ∧
      s4.read_bits_as_int32 (L + 2) = .ok (ay, s') ∧
      st'.current_path.edges = st.current_path.edges ++ [ShapeEdge.curve cx cy ax ay] ∧
      st'.cursor = { x := ax, y := ay } ∧
      st' = { st with cursor := { x := ax, y := ay },
                      current_path := { st.current_path with
                        edges := st.current_path.edges ++ [ShapeEdge.curve cx cy ax ay] } } ∧
      ∀ c : Point, curved_edge { st with cursor := c } s = .ok (st', s') := by
  unfold curved_edge at h
  obtain ⟨⟨L, s1⟩, hL, h⟩ := (bind_eq_ok _ _ _).1 h
  obtain ⟨⟨cx, s2⟩, hcx, h⟩ := (bind_eq_ok _ _ _).1 h
  obtain ⟨⟨cy, s3⟩, hcy, h⟩ := (bind_eq_ok _ _ _).1 h
  obtain ⟨⟨ax, s4⟩, hax, h⟩ := (bind_eq_ok _ _ _).1 h
  obtain ⟨⟨ay, s5⟩, hay, h⟩ := (bind_eq_ok _ _ _).1 h
  cases h
  refine ⟨L, s1, s2, s3, s4, cx, cy, ax, ay, hL, hcx, hcy, hax, hay, rfl, rfl, rfl, ?_⟩
  intro c
  unfold curved_edge
  rw [hL, ok_bind]
  dsimp only
  rw [hcx, ok_bind]
  dsimp only
  rw [hcy, ok_bind]
  dsimp only
  rw [hax, ok_bind]
  dsimp only
  rw [hay, ok_bind]
  rfl

/-- Witness of C23: a curve with control point (1, 1) and anchor (-1, 1),
decoded at the cursor (1, 0). -/
theorem curved_edge_is_absolute_witness :
    ∃ (st' : ShapeState) (s' : Stream),
      curved_edge (pathInProgress 0) (Stream.ofData curvedEdgeBody) = .ok (st', s') ∧
      st'.cursor = { x := -1, y := 1 } ∧
      ∃ (L : Nat) (s1 s2 s3 s4 : Stream) (cx cy ax ay : Int),
        (Stream.ofData curvedEdgeBody).read_bits_as_uint32 4 = .ok (L, s1) ∧
        s1.read_bits_as_int32 (L + 2) = .ok (cx, s2) ∧
        s2.read_bits_as_int32 (L + 2) = .ok (cy, s3) ∧
        s3.read_bits_as_int32 (L + 2) = .ok (ax, s4) ∧
        s4.read_bits_as_int32 (L + 2) = .ok (ay, s') ∧
        st'.current_path.edges =
          (pathInProgress 0).current_path.edges ++ [ShapeEdge.curve cx cy ax ay] ∧
        st'.cursor = { x := ax, y := ay } ∧
        st' = { (pathInProgress 0) with
                  cursor := { x := ax, y := ay },
                  current_path := { (pathInProgress 0).current_path with
                    edges := (pathInProgress 0).current_path.edges ++
                      [ShapeEdge.curve cx cy ax ay] } } ∧
        ∀ c : Point,
          curved_edge { (pathInProgress 0) with cursor := c } (Stream.ofData curvedEdgeBody) =
            .ok (st', s') :=
  ⟨_, _, rfl, rfl,
    curved_edge_is_absolute (pathInProgress 0) _ (Stream.ofData curvedEdgeBody) _ rfl⟩

end record_cpp

/-! ## The records of a shape and the paths emitted (record.cpp) -/

namespace record_cpp

theorem push_path_all_edges (st : ShapeState) (reset : Bool) :
    (push_path st reset).all_edges = st.all_edges ∧
    (st.paths = [] → st.current_path.edges = [] →
      (push_path st reset).paths = [] ∧ (push_path st reset).current_path.edges = []) := by
  unfold push_path ShapeState.all_edges
  dsimp only
  by_cases he : st.current_path.edges ≠ []
  · rw [if_pos he]
    cases reset
    · rw [if_neg (by decide)]
      refine ⟨?_, fun _ h => absurd h he⟩
      simp [ShapePath.restart]
    · rw [if_pos rfl]
      refine ⟨?_, fun _ h => absurd h he⟩
      simp [ShapePath.restart, ShapePath.reset]
  · rw [if_neg he]
    have he' : st.current_path.edges = [] := not_not.1 he
    cases reset
    · rw [if_neg (by decide)]
      refine ⟨?_, fun hp _ => ⟨hp, rfl⟩⟩
      simp [ShapePath.restart, he']
    · rw [if_pos rfl]
      refine ⟨?_, fun hp _ => ⟨hp, rfl⟩⟩
      simp [ShapePath.restart, ShapePath.reset, he']

/-- What a step of the loop that is not an edge record keeps: the edges held
by the state, and the absence of any path and of any edge. -/
theorem keeps_trans {a b c : ShapeState}
    (h1 : b.all_edges = a.all_edges ∧
      (a.paths = [] → a.current_path.edges = [] → b.paths = [] ∧ b.current_path.edges = []))
    (h2 : c.all_edges = b.all_edges ∧
      (b.paths = [] → b.current_path.edges = [] → c.paths = [] ∧ c.current_path.edges = [])) :
    c.all_edges = a.all_edges ∧
      (a.paths = [] → a.current_path.edges = [] → c.paths = [] ∧ c.current_path.edges = []) :=
  ⟨h2.1.trans h1.1, fun hp he => h2.2 (h1.2 hp he).1 (h1.2 hp he).2⟩

theorem keeps_refl (a : ShapeState) :
    a.all_edges = a.all_edges ∧
      (a.paths = [] → a.current_path.edges = [] → a.paths = [] ∧ a.current_path.edges = []) :=
  ⟨rfl, fun hp he => ⟨hp, he⟩⟩

theorem style_move_to_keeps (mask : Nat) (st st' : ShapeState) (s s' : Stream)
    (h : style_move_to mask st s = .ok (st', s')) :
    st'.all_edges = st.all_edges ∧
      (st.paths = [] → st.current_path.edges = [] →
        st'.paths = [] ∧ st'.current_path.edges = []) := by
  unfold style_move_to at h
  split at h
  · obtain ⟨⟨bits, s1⟩, -, h⟩ := (bind_eq_ok _ _ _).1 h
    obtain ⟨⟨x, s2⟩, -, h⟩ := (bind_eq_ok _ _ _).1 h
    obtain ⟨⟨y, s3⟩, -, h⟩ := (bind_eq_ok _ _ _).1 h
    cases h
    exact push_path_all_edges { st with cursor := { x := x, y := y } } true
  · cases h
    exact keeps_refl _

theorem style_fill_0_keeps (mask : Nat) (st st' : ShapeState) (s s' : Stream)
    (h : style_fill_0 mask st s = .ok (st', s')) :
    st'.all_edges = st.all_edges ∧
      (st.paths = [] → st.current_path.edges = [] →
        st'.paths = [] ∧ st'.current_path.edges = []) := by
  unfold style_fill_0 at h
  split at h
  · obtain ⟨⟨v, s1⟩, -, h⟩ := (bind_eq_ok _ _ _).1 h
    cases h
    exact push_path_all_edges st false
  · cases h
    exact keeps_refl _

theorem style_fill_1_keeps (mask : Nat) (st st' : ShapeState) (s s' : Stream)
    (h : style_fill_1 mask st s = .ok (st', s')) :
    st'.all_edges = st.all_edges ∧
      (st.paths = [] → st.current_path.edges = [] →
        st'.paths = [] ∧ st'.current_path.edges = []) := by
  unfold style_fill_1 at h
  split at h
  · obtain ⟨⟨v, s1⟩, -, h⟩ := (bind_eq_ok _ _ _).1 h
    cases h
    exact push_path_all_edges st false
  · cases h
    exact keeps_refl _

theorem style_line_keeps (mask : Nat) (st st' : ShapeState) (s s' : Stream)
    (h : style_line mask st s = .ok (st', s')) :
    st'.all_edges = st.all_edges ∧
      (st.paths = [] → st.current_path.edges = [] →
        st'.paths = [] ∧ st'.current_path.edges = []) := by
  unfold style_line at h
  split at h
  · obtain ⟨⟨v, s1⟩, -, h⟩ := (bind_eq_ok _ _ _).1 h
    cases h
    exact push_path_all_edges st false
  · cases h
    exact keeps_refl _

theorem style_new_keeps (type : TagCode) (mask : Nat) (st st' : ShapeState) (s s' : Stream)
    (h : style_new type mask st s = .ok (st', s')) :
    st'.all_edges = st.all_edges ∧
      (st.paths = [] → st.current_path.edges = [] →
        st'.paths = [] ∧ st'.current_path.edges = []) := by
  unfold style_new at h
  split at h
  · split at h
    · cases h
    · obtain ⟨⟨fills, s1⟩, -, h⟩ := (bind_eq_ok _ _ _).1 h
      obtain ⟨⟨lines, s2⟩, -, h⟩ := (bind_eq_ok _ _ _).1 h
      obtain ⟨⟨fb, s3⟩, -, h⟩ := (bind_eq_ok _ _ _).1 h
      obtain ⟨⟨lb, s4⟩, -, h⟩ := (bind_eq_ok _ _ _).1 h
      cases h
      exact push_path_all_edges st false
  · cases h
    exact keeps_refl _

theorem style_change_keeps (type : TagCode) (mask : Nat) (st st' : ShapeState) (s s' : Stream)
    (h : style_change type mask st s = .ok (st', s')) :
    st'.all_edges = st.all_edges ∧
      (st.paths = [] → st.current_path.edges = [] →
        st'.paths = [] ∧ st'.current_path.edges = []) := by
  unfold style_change at h
  obtain ⟨⟨st1, s1⟩, h1, h⟩ := (bind_eq_ok _ _ _).1 h
  obtain ⟨⟨st2, s2⟩, h2, h⟩ := (bind_eq_ok _ _ _).1 h
  obtain ⟨⟨st3, s3⟩, h3, h⟩ := (bind_eq_ok _ _ _).1 h
  obtain ⟨⟨st4, s4⟩, h4, h⟩ := (bind_eq_ok _ _ _).1 h
  exact keeps_trans (keeps_trans (keeps_trans (keeps_trans (style_move_to_keeps _ _ _ _ _ h1)
    (style_fill_0_keeps _ _ _ _ _ h2)) (style_fill_1_keeps _ _ _ _ _ h3))
    (style_line_keeps _ _ _ _ _ h4)) (style_new_keeps _ _ _ _ _ _ h)

theorem straight_edge_event (st st1 : ShapeState) (s1 s2 s3 : Stream) (b : Nat)
    (hb : 0 < b) (hS : s1.read_bits_as_uint32 1 = .ok (b, s2))
    (h : straight_edge st s2 = .ok (st1, s3)) :
    ∃ ed, edge_of_record st.cursor s1 = .ok (ed, s3) ∧ st1.paths = st.paths ∧
      st1.current_path.edges = st.current_path.edges ++ [ed] := by
  unfold straight_edge at h
  obtain ⟨⟨L, t1⟩, hL, h⟩ := (bind_eq_ok _ _ _).1 h
  obtain ⟨⟨g, t2⟩, hg, h⟩ := (bind_eq_ok _ _ _).1 h
  obtain ⟨⟨⟨dx, dy⟩, t3⟩, hd, h⟩ := (bind_eq_ok _ _ _).1 h
  cases h
  dsimp only at hd
  refine ⟨_, ?_, rfl, rfl⟩
  unfold edge_of_record
  rw [hS, ok_bind]
  dsimp only
  rw [hL, ok_bind]
  dsimp only
  rw [if_pos hb, hg, ok_bind]
  dsimp only
  split at hd
  · rename_i hgp
    obtain ⟨⟨x, u1⟩, hx, hd⟩ := (bind_eq_ok _ _ _).1 hd
    obtain ⟨⟨y, u2⟩, hy, hd⟩ := (bind_eq_ok _ _ _).1 hd
    cases hd
    rw [if_pos hgp, hx, ok_bind]
    dsimp only
    rw [hy, ok_bind]
    rfl
  · rename_i hgp
    obtain ⟨⟨v, u1⟩, hv, hd⟩ := (bind_eq_ok _ _ _).1 hd
    dsimp only at hd
    rw [if_neg hgp, hv, ok_bind]
    dsimp only
    split at hd
    · rename_i hvp
      obtain ⟨⟨y, u2⟩, hy, hd⟩ := (bind_eq_ok _ _ _).1 hd
      cases hd
      rw [hy, ok_bind]
      dsimp only
      rw [if_pos hvp, Int.add_zero]
      rfl
    · rename_i hvp
      obtain ⟨⟨x, u2⟩, hx, hd⟩ := (bind_eq_ok _ _ _).1 hd
      cases hd
      rw [hx, ok_bind]
      dsimp only
      rw [if_neg hvp, Int.add_zero]
      rfl

theorem curved_edge_event (st st1 : ShapeState) (s1 s2 s3 : Stream) (b : Nat)
    (hb : ¬ 0 < b) (hS : s1.read_bits_as_uint32 1 = .ok (b, s2))
    (h : curved_edge st s2 = .ok (st1, s3)) :
    ∃ ed, edge_of_record st.cursor s1 = .ok (ed, s3) ∧ st1.paths = st.paths ∧
      st1.current_path.edges = st.current_path.edges ++ [ed] := by
  unfold curved_edge at h
  obtain ⟨⟨L, t1⟩, hL, h⟩ := (bind_eq_ok _ _ _).1 h
  obtain ⟨⟨cx, t2⟩, hcx, h⟩ := (bind_eq_ok _ _ _).1 h
  obtain ⟨⟨cy, t3⟩, hcy, h⟩ := (bind_eq_ok _ _ _).1 h
  obtain ⟨⟨ax, t4⟩, hax, h⟩ := (bind_eq_ok _ _ _).1 h
  obtain ⟨⟨ay, t5⟩, hay, h⟩ := (bind_eq_ok _ _ _).1 h
  cases h
  refine ⟨_, ?_, rfl, rfl⟩
  unfold edge_of_record
  rw [hS, ok_bind]
  dsimp only
  rw [hL, ok_bind]
  dsimp only
  rw [if_neg hb, hcx, ok_bind]
  dsimp only
  rw [hcy, ok_bind]
  dsimp only
  rw [hax, ok_bind]
  dsimp only
  rw [hay, ok_bind]
  rfl

/-- One iteration of the loop of `DefineShape::read` against the record at
the head of the stream: the loop is left exactly at the end record, after
`push_path()`; an edge record appends the edge it decodes to to the path in
progress; a style-change record keeps the edges held by the state. -/
theorem shape_record_event (type : TagCode) (st : ShapeState) (s : Stream)
    (r : ShapeState ⊕ ShapeState) (s' : Stream)
    (h : shape_record type st s = .ok (r, s')) :
    (∀ out, r = .inr out → record_event st.cursor s = .ok none ∧ out = push_path st false) ∧
    (∀ st1, r = .inl st1 → ∃ e, record_event st.cursor s = .ok (some e) ∧
      ((∃ ed, e = .edge ed ∧ st1.paths = st.paths ∧
          st1.current_path.edges = st.current_path.edges ++ [ed]) ∨
       (∃ m, e = .style m ∧ st1.all_edges = st.all_edges ∧
          (st.paths = [] → st.current_path.edges = [] →
            st1.paths = [] ∧ st1.current_path.edges = [])))) := by
  unfold shape_record at h
  obtain ⟨⟨is_edge, s1⟩, hE, h⟩ := (bind_eq_ok _ _ _).1 h
  dsimp only at h
  split at h
  · rename_i hne
    obtain ⟨⟨mask, s2⟩, hM, h⟩ := (bind_eq_ok _ _ _).1 h
    dsimp only at h
    have hev : record_event st.cursor s =
        .ok (if mask = 0 then none else some (.style mask)) := by
      unfold record_event
      rw [hE, ok_bind]
      dsimp only
      rw [if_neg hne, hM, ok_bind]
      rfl
    split at h
    · rename_i hm
      cases h
      refine ⟨fun out ho => ?_, fun st1 ho => (by cases ho)⟩
      cases ho
      rw [hev, if_pos hm]
      exact ⟨rfl, rfl⟩
    · rename_i hm
      obtain ⟨⟨st1, s3⟩, h1, h⟩ := (bind_eq_ok _ _ _).1 h
      cases h
      refine ⟨fun out ho => (by cases ho), fun st2 ho => ?_⟩
      cases ho
      rw [hev, if_neg hm]
      exact ⟨_, rfl, Or.inr ⟨mask, rfl, style_change_keeps _ _ _ _ _ _ h1⟩⟩
  · rename_i hne
    have hpos : is_edge > 0 := not_not.1 hne
    obtain ⟨⟨is_straight, s2⟩, hS, h⟩ := (bind_eq_ok _ _ _).1 h
    dsimp only at h
    have hev : ∀ ed s3, edge_of_record st.cursor s1 = .ok (ed, s3) →
        record_event st.cursor s = .ok (some (.edge ed)) := by
      intro ed s3 hed
      unfold record_event
      rw [hE, ok_bind]
      dsimp only
      rw [if_pos hpos, hed, ok_bind]
      rfl
    split at h
    · rename_i hst
      obtain ⟨⟨st1, s3⟩, h1, h⟩ := (bind_eq_ok _ _ _).1 h
      cases h
      refine ⟨fun out ho => (by cases ho), fun st2 ho => ?_⟩
      cases ho
      obtain ⟨ed, hed, hp, he⟩ := straight_edge_event st _ s1 s2 _ is_straight hst hS h1
      exact ⟨_, hev ed _ hed, Or.inl ⟨ed, rfl, hp, he⟩⟩
    · rename_i hst
      obtain ⟨⟨st1, s3⟩, h1, h⟩ := (bind_eq_ok _ _ _).1 h
      cases h
      refine ⟨fun out ho => (by cases ho), fun st2 ho => ?_⟩
      cases ho
      obtain ⟨ed, hed, hp, he⟩ := curved_edge_event st _ s1 s2 _ is_straight hst hS h1
      exact ⟨_, hev ed _ hed, Or.inl ⟨ed, rfl, hp, he⟩⟩

theorem push_path_paths (st : ShapeState) (reset : Bool) :
    (push_path st reset).paths =
      (if st.current_path.edges ≠ [] then st.paths ++ [st.current_path] else st.paths) ∧
    (push_path st reset).current_path.edges = [] := by
  unfold push_path
  dsimp only
  by_cases he : st.current_path.edges ≠ []
  · rw [if_pos he, if_pos he]
    cases reset
    · rw [if_neg (by decide)]
      exact ⟨rfl, rfl⟩
    · rw [if_pos rfl]
      exact ⟨rfl, rfl⟩
  · rw [if_neg he, if_neg he]
    cases reset
    · rw [if_neg (by decide)]
      exact ⟨rfl, rfl⟩
    · rw [if_pos rfl]
      exact ⟨rfl, rfl⟩

theorem events_head_edge {ed : ShapeEdge} {evs : List ShapeEvent} {masks : List Nat}
    {es : List ShapeEdge}
    (h : ShapeEvent.edge ed :: evs = masks.map ShapeEvent.style ++ es.map ShapeEvent.edge) :
    masks = [] ∧ ∃ es', es = ed :: es' ∧ evs = es'.map ShapeEvent.edge := by
  cases masks with
  | cons m ms =>
    rw [List.map_cons, List.cons_append] at h
    cases h
  | nil =>
    rw [List.map_nil, List.nil_append] at h
    cases es with
    | nil => cases h
    | cons e es' =>
      rw [List.map_cons] at h
      injection h with h1 h2
      cases h1
      exact ⟨rfl, es', rfl, h2⟩

theorem events_head_style {m : Nat} {evs : List ShapeEvent} {masks : List Nat}
    {es : List ShapeEdge}
    (h : ShapeEvent.style m :: evs = masks.map ShapeEvent.style ++ es.map ShapeEvent.edge) :
    ∃ ms, masks = m :: ms ∧ evs = ms.map ShapeEvent.style ++ es.map ShapeEvent.edge := by
  cases masks with
  | cons m' ms =>
    rw [List.map_cons, List.cons_append] at h
    injection h with h1 h2
    cases h1
    exact ⟨ms, rfl, h2⟩
  | nil =>
    rw [List.map_nil, List.nil_append] at h
    cases es with
    | nil => cases h
    | cons e es' =>
      rw [List.map_cons] at h
      injection h with h1 h2
      cases h1

/-- The loop of `DefineShape::read` against the records of the stream: when
the loop ends, the stream has a list of records up to its end record; the
edges held by the final state are those held at the start followed by the
edges of the records; no path is in progress; and when the loop starts with
no path emitted and the records are style-change records followed by edge
records only, the paths emitted are the single path of all edges, or none
when there is no edge. -/
theorem iterate_shape_events (type : TagCode) (fuel : Nat) :
    ∀ (st : ShapeState) (s : Stream) (out : ShapeState) (s' : Stream),
      iterate (shape_record type) fuel st s = .ok (out, s') →
      ∃ evs, shape_events type fuel st s = .ok evs ∧
        out.all_edges = st.all_edges ++ ShapeEvent.edges evs ∧
        out.current_path.edges = [] ∧
        (st.paths = [] → ∀ (masks : List Nat) (es : List ShapeEdge),
          evs = masks.map ShapeEvent.style ++ es.map ShapeEvent.edge →
          (masks ≠ [] → st.current_path.edges = []) →
          out.paths.map (fun p => p.edges) =
            if st.current_path.edges ++ es = [] then []
            else [st.current_path.edges ++ es]) := by
  induction fuel with
  | zero =>
    intro st s out s' h
    cases h
  | succ fuel ih =>
    intro st s out s' h
    unfold iterate at h
    obtain ⟨⟨r, s1⟩, h1, h⟩ := (bind_eq_ok _ _ _).1 h
    obtain ⟨hinr, hinl⟩ := shape_record_event type st s r s1 h1
    cases r with
    | inr o =>
      cases h
      obtain ⟨hev, ho⟩ := hinr _ rfl
      subst ho
      refine ⟨[], ?_, ?_, (push_path_paths st false).2, ?_⟩
      · unfold shape_events
        rw [hev, ok_bind]
        rfl
      · rw [(push_path_all_edges st false).1]
        exact (List.append_nil _).symm
      · intro hp masks es hevs _
        have hes : es = [] := by
          cases es with
          | nil => rfl
          | cons e es' =>
            have := congrArg List.length hevs
            simp at this
            omega
        subst hes
        rw [(push_path_paths st false).1, hp, List.append_nil]
        by_cases he : st.current_path.edges = []
        · rw [if_neg (not_not.2 he), if_pos he]
          rfl
        · rw [if_pos he, if_neg he]
          rfl
    | inl st1 =>
      obtain ⟨e, hev, heff⟩ := hinl _ rfl
      obtain ⟨evs, hevs, hall, hcur, hsingle⟩ := ih st1 s1 out s' h
      have hevents : shape_events type (fuel + 1) st s = .ok (e :: evs) := by
        unfold shape_events
        rw [hev, ok_bind]
        dsimp only
        rw [h1, ok_bind]
        dsimp only [Sum.elim_inl, id]
        rw [hevs, ok_bind]
        rfl
      refine ⟨e :: evs, hevents, ?_, hcur, ?_⟩
      · rcases heff with ⟨ed, rfl, hp, he⟩ | ⟨m, rfl, hk, -⟩
        · rw [hall]
          unfold ShapeState.all_edges
          rw [hp, he]
          show _ = _ ++ (ed :: ShapeEvent.edges evs)
          simp
        · rw [hall, hk]
          rfl
      · intro hp masks es hm hfresh
        rcases heff with ⟨ed, rfl, hp1, he⟩ | ⟨m, rfl, -, hk⟩
        · obtain ⟨rfl, es', rfl, hevs'⟩ := events_head_edge hm
          have := hsingle (hp1.trans hp) [] es' (by rw [hevs']; rfl) (fun h => absurd rfl h)
          rw [this, he]
          have hne1 : ¬ (st.current_path.edges ++ [ed] ++ es' = []) := by simp
          have hne2 : ¬ (st.current_path.edges ++ ed :: es' = []) := by simp
          rw [if_neg hne1, if_neg hne2, List.append_assoc]
          rfl
        · obtain ⟨ms, rfl, hevs'⟩ := events_head_style hm
          have he0 : st.current_path.edges = [] := hfresh (by simp)
          obtain ⟨hp1, he1⟩ := hk hp he0
          have := hsingle hp1 ms es hevs' (fun _ => he1)
          rw [this, he1, he0]

/-- The loop of `DefineShape::read` of record.cpp starts from the state and
the stream of `shape_loop_start`, with no path and no edge. -/
theorem read_state_loop {s s' : Stream} {type : TagCode} {id : Nat}
    {bounds edge_bounds : Rect} {st : ShapeState}
    (h : DefineShape.read_state s type = .ok ((id, bounds, edge_bounds, st), s')) :
    ∃ st0 s0, shape_loop_start s type = .ok (st0, s0) ∧
      st0.paths = [] ∧ st0.current_path.edges = [] ∧
      st0.fill_index_bits ≤ 15 ∧ st0.line_index_bits ≤ 15 ∧
      iterate (shape_record type) (shapeFuel s0) st0 s0 = .ok (st, s') := by
  unfold DefineShape.read_state at h
  split at h
  · cases h
  rename_i htype
  obtain ⟨⟨cid, s1⟩, h1, h⟩ := (bind_eq_ok _ _ _).1 h
  obtain ⟨⟨b, s2⟩, h2, h⟩ := (bind_eq_ok _ _ _).1 h
  obtain ⟨⟨eb, s3⟩, h3, h⟩ := (bind_eq_ok _ _ _).1 h
  obtain ⟨⟨fills, s4⟩, h4, h⟩ := (bind_eq_ok _ _ _).1 h
  obtain ⟨⟨lines, s5⟩, h5, h⟩ := (bind_eq_ok _ _ _).1 h
  obtain ⟨⟨fb, s6⟩, hfb, h⟩ := (bind_eq_ok _ _ _).1 h
  obtain ⟨⟨lb, s7⟩, hlb, h⟩ := (bind_eq_ok _ _ _).1 h
  obtain ⟨⟨st1, s8⟩, hloop, h⟩ := (bind_eq_ok _ _ _).1 h
  cases h
  have hb1 := (read_bits_as_uint32_lt hfb).1
  have hb2 := (read_bits_as_uint32_lt hlb).1
  refine ⟨_, s7, ?_, rfl, rfl, (by show fb ≤ 15; omega), (by show lb ≤ 15; omega), hloop⟩
  unfold shape_loop_start
  rw [if_neg htype, h1, ok_bind]
  dsimp only
  rw [h2, ok_bind]
  dsimp only
  dsimp only at h3
  rw [h3, ok_bind]
  dsimp only
  rw [h4, ok_bind]
  dsimp only
  rw [h5, ok_bind]
  dsimp only
  rw [hfb, ok_bind]
  dsimp only
  rw [hlb, ok_bind]
  rfl

/-- C24. Whenever `DefineShape::read` of record.cpp succeeds on a shape whose
records before the end record are style-change records followed by `k` edge
records, none of them after the first edge record: for `k ≥ 1` it emits
exactly one path, and that path has exactly the `k` edges the records
decode to, in stream order; for `k = 0` it emits no path. -/
theorem DefineShape_read_single_path (s s' : Stream) (type : TagCode) (record : DefineShape)
    (h : DefineShape.read s type = .ok (record, s')) :
    ∃ st0 s0 evs, shape_loop_start s type = .ok (st0, s0) ∧
      shape_events type (shapeFuel s0) st0 s0 = .ok evs ∧
      ∀ (masks : List Nat) (es : List ShapeEdge),
        evs = masks.map ShapeEvent.style ++ es.map ShapeEvent.edge →
        (es ≠ [] → ∃ p, record.paths = [p] ∧ p.edges = es) ∧
        (es = [] → record.paths = []) := by
  obtain ⟨st, hst, -, hpaths⟩ := DefineShape_read_ok h
  obtain ⟨st0, s0, hstart, hp0, he0, -, -, hloop⟩ := read_state_loop hst
  obtain ⟨evs, hevs, -, -, hsingle⟩ := iterate_shape_events type _ st0 s0 st _ hloop
  refine ⟨st0, s0, evs, hstart, hevs, fun masks es hm => ?_⟩
  have hmap := hsingle hp0 masks es hm (fun _ => he0)
  rw [he0, List.nil_append, ← hpaths] at hmap
  constructor
  · intro hne
    rw [if_neg hne] at hmap
    cases hrec : record.paths with
    | nil =>
      rw [hrec] at hmap
      cases hmap
    | cons p ps =>
      rw [hrec, List.map_cons] at hmap
      injection hmap with hpe hps
      exact ⟨p, by rw [List.map_eq_nil_iff.1 hps], hpe⟩
  · intro hnil
    rw [if_pos hnil] at hmap
    exact List.map_eq_nil_iff.1 hmap

/-- Witness of C24: the square of scenario A, one style-change record followed
by four straight edges, decodes to one path of four edges. -/
theorem DefineShape_read_single_path_witness :
    ∃ (record : DefineShape) (s' : Stream),
      DefineShape.read (Stream.ofData squareShape) TagCode.DEFINE_SHAPE = .ok (record, s') ∧
      (∃ st0 s0,
        shape_loop_start (Stream.ofData squareShape) TagCode.DEFINE_SHAPE = .ok (st0, s0) ∧
        shape_events TagCode.DEFINE_SHAPE (shapeFuel s0) st0 s0 =
          .ok ([5].map ShapeEvent.style ++
            [ShapeEdge.straight { x := 20, y := 0 }, ShapeEdge.straight { x := 20, y := 20 },
             ShapeEdge.straight { x := 0, y := 20 },
             ShapeEdge.straight { x := 0, y := 0 }].map ShapeEvent.edge)) ∧
      record.paths.map (fun p => p.edges) =
        [[ShapeEdge.straight { x := 20, y := 0 }, ShapeEdge.straight { x := 20, y := 20 },
          ShapeEdge.straight { x := 0, y := 20 }, ShapeEdge.straight { x := 0, y := 0 }]] ∧
      ∃ st0 s0 evs,
        shape_loop_start (Stream.ofData squareShape) TagCode.DEFINE_SHAPE = .ok (st0, s0) ∧
        shape_events TagCode.DEFINE_SHAPE (shapeFuel s0) st0 s0 = .ok evs ∧
        ∀ (masks : List Nat) (es : List ShapeEdge),
          evs = masks.map ShapeEvent.style ++ es.map ShapeEvent.edge →
          (es ≠ [] → ∃ p, record.paths = [p] ∧ p.edges = es) ∧
          (es = [] → record.paths = []) :=
  ⟨_, _, rfl, ⟨_, _, rfl, rfl⟩, rfl,
    DefineShape_read_single_path (Stream.ofData squareShape) _ TagCode.DEFINE_SHAPE _ rfl⟩

/-- C28. Whenever `DefineShape::read` of record.cpp succeeds, the edge lists
of the emitted paths, concatenated in emission order, are exactly the edges
that the edge records of the stream decode to, in stream order, whatever
style-change records lie between them. -/
theorem DefineShape_read_keeps_all_edges (s s' : Stream) (type : TagCode)
    (record : DefineShape) (h : DefineShape.read s type = .ok (record, s')) :
    ∃ st0 s0 evs, shape_loop_start s type = .ok (st0, s0) ∧
      shape_events type (shapeFuel s0) st0 s0 = .ok evs ∧
      (record.paths.map (fun p => p.edges)).flatten = ShapeEvent.edges evs := by
  obtain ⟨st, hst, -, hpaths⟩ := DefineShape_read_ok h
  obtain ⟨st0, s0, hstart, hp0, he0, -, -, hloop⟩ := read_state_loop hst
  obtain ⟨evs, hevs, hall, hcur, -⟩ := iterate_shape_events type _ st0 s0 st _ hloop
  refine ⟨st0, s0, evs, hstart, hevs, ?_⟩
  unfold ShapeState.all_edges at hall
  rw [hcur, hp0, he0, List.append_nil] at hall
  rw [hpaths, hall]
  rfl

/-- Witness of C28: two edges with a style-change record between them decode
to two paths whose edges, concatenated, are the two edges. -/
theorem DefineShape_read_keeps_all_edges_witness :
    ∃ (record : DefineShape) (s' : Stream),
      DefineShape.read (Stream.ofData oneBitWidthShape) TagCode.DEFINE_SHAPE =
        .ok (record, s') ∧
      record.paths.map (fun p => p.edges) =
        [[ShapeEdge.straight { x := 1, y := 0 }], [ShapeEdge.straight { x := 2, y := 0 }]] ∧
      ∃ st0 s0 evs,
        shape_loop_start (Stream.ofData oneBitWidthShape) TagCode.DEFINE_SHAPE =
          .ok (st0, s0) ∧
        shape_events TagCode.DEFINE_SHAPE (shapeFuel s0) st0 s0 = .ok evs ∧
        (record.paths.map (fun p => p.edges)).flatten = ShapeEvent.edges evs :=
  ⟨_, _, rfl, rfl,
    DefineShape_read_keeps_all_edges (Stream.ofData oneBitWidthShape) _
      TagCode.DEFINE_SHAPE _ rfl⟩

end record_cpp

/-! ## Widths of the bit-field reads of the shape-record loop (record.cpp) -/

theorem bind_eq_error {α β : Type} {x : Res α} {g : α → Res β} {err : DecodeError}
    (h : (x >>= g) = .error err) : x = .error err ∨ ∃ a, x = .ok a ∧ g a = .error err := by
  cases x with
  | error e =>
    rw [error_bind] at h
    cases h
    exact Or.inl rfl
  | ok a =>
    rw [ok_bind] at h
    exact Or.inr ⟨a, rfl, h⟩

namespace record_cpp

theorem shape_loop_start_inv {s s0 : Stream} {type : TagCode} {st0 : ShapeState}
    (h : shape_loop_start s type = .ok (st0, s0)) : ShapeInv st0 := by
  unfold shape_loop_start at h
  split at h
  · cases h
  obtain ⟨⟨cid, s1⟩, -, h⟩ := (bind_eq_ok _ _ _).1 h
  obtain ⟨⟨b, s2⟩, -, h⟩ := (bind_eq_ok _ _ _).1 h
  obtain ⟨⟨eb, s3⟩, -, h⟩ := (bind_eq_ok _ _ _).1 h
  obtain ⟨⟨fills, s4⟩, -, h⟩ := (bind_eq_ok _ _ _).1 h
  obtain ⟨⟨lines, s5⟩, -, h⟩ := (bind_eq_ok _ _ _).1 h
  obtain ⟨⟨fb, s6⟩, hfb, h⟩ := (bind_eq_ok _ _ _).1 h
  obtain ⟨⟨lb, s7⟩, hlb, h⟩ := (bind_eq_ok _ _ _).1 h
  cases h
  have h1 := (read_bits_as_uint32_lt hfb).1
  have h2 := (read_bits_as_uint32_lt hlb).1
  exact ⟨fun p hp => (by cases hp), (by dsimp only; omega), (by dsimp only; omega),
    Nat.zero_le _, ⟨Nat.zero_le _, Nat.zero_le _, Nat.zero_le _⟩, fun p hp => (by cases hp)⟩

theorem loop_state_after_inv (type : TagCode) (n : Nat) :
    ∀ (st0 : ShapeState) (s0 : Stream) (st : ShapeState) (t : Stream), ShapeInv st0 →
      loop_state_after (shape_record type) n st0 s0 = some (st, t) → ShapeInv st := by
  induction n with
  | zero =>
    intro st0 s0 st t hi h
    cases h
    exact hi
  | succ n ih =>
    intro st0 s0 st t hi h
    unfold loop_state_after at h
    cases hr : shape_record type st0 s0 with
    | error e =>
      rw [hr] at h
      cases h
    | ok x =>
      obtain ⟨r, s1⟩ := x
      rw [hr] at h
      cases r with
      | inr o => cases h
      | inl st1 =>
        exact ih st1 s1 st t (shape_record_inv type st0 s0 _ s1 hi hr) h

theorem style_move_to_ne_assertion (mask : Nat) (st : ShapeState) (s : Stream) :
    style_move_to mask st s ≠ .error .assertion := by
  unfold style_move_to
  refine ite_ne_assertion ?_ (pure_ne_assertion _)
  refine bind_ne_assertion (read_bits_as_uint32_ne_assertion _ _ (by omega)) (fun a ha => ?_)
  obtain ⟨bits, s1⟩ := a
  have hb : bits % 256 ≤ 32 := by
    have := (read_bits_as_uint32_lt ha).1
    omega
  refine bind_ne_assertion (read_bits_as_int32_ne_assertion _ _ hb) (fun _ _ => ?_)
  refine bind_ne_assertion (read_bits_as_int32_ne_assertion _ _ hb) (fun _ _ => ?_)
  exact pure_ne_assertion _

theorem style_fill_0_ne_assertion (mask : Nat) (st : ShapeState) (s : Stream)
    (hw : st.fill_index_bits ≤ 32) : style_fill_0 mask st s ≠ .error .assertion := by
  unfold style_fill_0
  refine ite_ne_assertion ?_ (pure_ne_assertion _)
  have hf := (push_path_fields st false).2.2.1
  refine bind_ne_assertion (read_bits_as_uint32_ne_assertion _ _ (by rw [hf]; exact hw))
    (fun _ _ => ?_)
  exact pure_ne_assertion _

theorem style_fill_1_ne_assertion (mask : Nat) (st : ShapeState) (s : Stream)
    (hw : st.fill_index_bits ≤ 32) : style_fill_1 mask st s ≠ .error .assertion := by
  unfold style_fill_1
  refine ite_ne_assertion ?_ (pure_ne_assertion _)
  have hf := (push_path_fields st false).2.2.1
  refine bind_ne_assertion (read_bits_as_uint32_ne_assertion _ _ (by rw [hf]; exact hw))
    (fun _ _ => ?_)
  exact pure_ne_assertion _

theorem style_line_ne_assertion (mask : Nat) (st : ShapeState) (s : Stream)
    (hw : st.line_index_bits ≤ 32) : style_line mask st s ≠ .error .assertion := by
  unfold style_line
  refine ite_ne_assertion ?_ (pure_ne_assertion _)
  have hf := (push_path_fields st false).2.2.2.1
  refine bind_ne_assertion (read_bits_as_uint32_ne_assertion _ _ (by rw [hf]; exact hw))
    (fun _ _ => ?_)
  exact pure_ne_assertion _

theorem straight_edge_ne_assertion (st : ShapeState) (s : Stream) :
    straight_edge st s ≠ .error .assertion := by
  unfold straight_edge
  refine bind_ne_assertion (read_bits_as_uint32_ne_assertion _ _ (by omega)) (fun a ha => ?_)
  obtain ⟨L, s1⟩ := a
  have hb : L + 2 ≤ 32 := by
    have := (read_bits_as_uint32_lt ha).1
    omega
  refine bind_ne_assertion (read_bits_as_uint32_ne_assertion _ _ (by omega)) (fun _ _ => ?_)
  refine bind_ne_assertion ?_ (fun _ _ => pure_ne_assertion _)
  refine ite_ne_assertion ?_ ?_
  · refine bind_ne_assertion (read_bits_as_int32_ne_assertion _ _ hb) (fun _ _ => ?_)
    refine bind_ne_assertion (read_bits_as_int32_ne_assertion _ _ hb) (fun _ _ => ?_)
    exact pure_ne_assertion _
  · refine bind_ne_assertion (read_bits_as_uint32_ne_assertion _ _ (by omega)) (fun _ _ => ?_)
    refine ite_ne_assertion ?_ ?_
    · refine bind_ne_assertion (read_bits_as_int32_ne_assertion _ _ hb) (fun _ _ => ?_)
      exact pure_ne_assertion _
    · refine bind_ne_assertion (read_bits_as_int32_ne_assertion _ _ hb) (fun _ _ => ?_)
      exact pure_ne_assertion _

theorem curved_edge_ne_assertion (st : ShapeState) (s : Stream) :
    curved_edge st s ≠ .error .assertion := by
  unfold curved_edge
  refine bind_ne_assertion (read_bits_as_uint32_ne_assertion _ _ (by omega)) (fun a ha => ?_)
  obtain ⟨L, s1⟩ := a
  have hb : L + 2 ≤ 32 := by
    have := (read_bits_as_uint32_lt ha).1
    omega
  refine bind_ne_assertion (read_bits_as_int32_ne_assertion _ _ hb) (fun _ _ => ?_)
  refine bind_ne_assertion (read_bits_as_int32_ne_assertion _ _ hb) (fun _ _ => ?_)
  refine bind_ne_assertion (read_bits_as_int32_ne_assertion _ _ hb) (fun _ _ => ?_)
  refine bind_ne_assertion (read_bits_as_int32_ne_assertion _ _ hb) (fun _ _ => ?_)
  exact pure_ne_assertion _

/-- An assertion failure of the new-styles block comes from the block's own
assertion on the tag or from one of the two style-array decoders, not from
its two 4-bit reads. -/
theorem style_new_assertion (type : TagCode) (mask : Nat) (st : ShapeState) (s : Stream)
    (h : style_new type mask st s = .error .assertion) :
    mask &&& 0x10 ≠ 0 ∧
    (¬ (type = TagCode.DEFINE_SHAPE3 ∨ type = TagCode.DEFINE_SHAPE4) ∨
      read_fill_styles s st.fill_styles type = .error .assertion ∨
      ∃ fills s1, read_fill_styles s st.fill_styles type = .ok (fills, s1) ∧
        read_line_styles s1 st.line_styles type = .error .assertion) := by
  unfold style_new at h
  split at h
  · rename_i hm
    refine ⟨hm, ?_⟩
    split at h
    · rename_i ht
      exact Or.inl ht
    · right
      obtain ⟨hf1, hf2, -⟩ := push_path_fields st false
      dsimp only at h
      rw [hf1, hf2] at h
      rcases bind_eq_error h with h | ⟨⟨fills, s1⟩, hf, h⟩
      · exact Or.inl h
      · right
        refine ⟨fills, s1, hf, ?_⟩
        rcases bind_eq_error h with h | ⟨⟨lines, s2⟩, hl, h⟩
        · exact h
        · exfalso
          revert h
          refine bind_ne_assertion (read_bits_as_uint32_ne_assertion _ _ (by omega))
            (fun _ _ => ?_)
          refine bind_ne_assertion (read_bits_as_uint32_ne_assertion _ _ (by omega))
            (fun _ _ => ?_)
          exact pure_ne_assertion _
  · cases h

/-- An assertion failure of an iteration of the shape-record loop, in a state
whose index widths are at most 15, comes from the new-styles block of a
style-change record, whose four blocks before it have succeeded. -/
theorem shape_record_assertion (type : TagCode) (st : ShapeState) (t : Stream)
    (hi : ShapeInv st) (h : shape_record type st t = .error .assertion) :
    ∃ (t1 t2 : Stream) (mask : Nat) (st1 st2 st3 st4 : ShapeState) (u1 u2 u3 u4 : Stream),
      t.read_bits_as_uint32 1 = .ok (0, t1) ∧ t1.read_bits_as_uint32 5 = .ok (mask, t2) ∧
      mask &&& 0x10 ≠ 0 ∧
      style_move_to mask st t2 = .ok (st1, u1) ∧ style_fill_0 mask st1 u1 = .ok (st2, u2) ∧
      style_fill_1 mask st2 u2 = .ok (st3, u3) ∧ style_line mask st3 u3 = .ok (st4, u4) ∧
      style_new type mask st4 u4 = .error .assertion ∧
      (¬ (type = TagCode.DEFINE_SHAPE3 ∨ type = TagCode.DEFINE_SHAPE4) ∨
        read_fill_styles u4 st4.fill_styles type = .error .assertion ∨
        ∃ fills u5, read_fill_styles u4 st4.fill_styles type = .ok (fills, u5) ∧
          read_line_styles u5 st4.line_styles type = .error .assertion) := by
  unfold shape_record at h
  rcases bind_eq_error h with h | ⟨⟨is_edge, t1⟩, hE, h⟩
  · exact absurd h (read_bits_as_uint32_ne_assertion _ _ (by omega))
  dsimp only at h
  split at h
  · rename_i hne
    have hz : is_edge = 0 := by omega
    subst hz
    rcases bind_eq_error h with h | ⟨⟨mask, t2⟩, hM, h⟩
    · exact absurd h (read_bits_as_uint32_ne_assertion _ _ (by omega))
    dsimp only at h
    split at h
    · cases h
    rcases bind_eq_error h with h | ⟨_, _, h⟩
    swap
    · cases h
    unfold style_change at h
    rcases bind_eq_error h with h | ⟨⟨st1, u1⟩, h1, h⟩
    · exact absurd h (style_move_to_ne_assertion _ _ _)
    have hi1 := style_move_to_inv _ _ _ _ _ hi h1
    dsimp only at h
    rcases bind_eq_error h with h | ⟨⟨st2, u2⟩, h2, h⟩
    · exact absurd h (style_fill_0_ne_assertion _ _ _ (by have := hi1.fill_bits; omega))
    have hi2 := style_fill_0_inv _ _ _ _ _ hi1 h2
    dsimp only at h
    rcases bind_eq_error h with h | ⟨⟨st3, u3⟩, h3, h⟩
    · exact absurd h (style_fill_1_ne_assertion _ _ _ (by have := hi2.fill_bits; omega))
    have hi3 := style_fill_1_inv _ _ _ _ _ hi2 h3
    dsimp only at h
    rcases bind_eq_error h with h | ⟨⟨st4, u4⟩, h4, h⟩
    · exact absurd h (style_line_ne_assertion _ _ _ (by have := hi3.line_bits; omega))
    dsimp only at h
    obtain ⟨hm, hsrc⟩ := style_new_assertion _ _ _ _ h
    exact ⟨t1, t2, mask, st1, st2, st3, st4, u1, u2, u3, u4, hE, hM, hm, h1, h2, h3, h4, h,
      hsrc⟩
  · rcases bind_eq_error h with h | ⟨⟨is_straight, t2⟩, hS, h⟩
    · exact absurd h (read_bits_as_uint32_ne_assertion _ _ (by omega))
    dsimp only at h
    split at h
    · rcases bind_eq_error h with h | ⟨_, _, h⟩
      · exact absurd h (straight_edge_ne_assertion _ _)
      · cases h
    · rcases bind_eq_error h with h | ⟨_, _, h⟩
      · exact absurd h (curved_edge_ne_assertion _ _)
      · cases h

/-- C25. In every state that the shape-record loop of `DefineShape::read` of
record.cpp reaches, on every input: the two index widths are at most 15;
the width of the move-to deltas, taken from a 5-bit field, is at most 31;
the width of the edge deltas, a 4-bit field plus 2, is between 2 and 17; no
block of the loop that reads bit fields fails the reader's precondition
`n ≤ 32` (a violation is an assertion failure); and an assertion failure of
the iteration can only come from the new-styles block, by its own assertion
on the tag or inside a style-array decoder. -/
theorem shape_loop_widths_in_range (s : Stream) (type : TagCode) (st0 : ShapeState)
    (s0 : Stream) (h0 : shape_loop_start s type = .ok (st0, s0)) (n : Nat)
    (st : ShapeState) (t : Stream)
    (hn : loop_state_after (shape_record type) n st0 s0 = some (st, t)) :
    (st.fill_index_bits ≤ 15 ∧ st.line_index_bits ≤ 15) ∧
    (∀ (u u' : Stream) (bits : Nat), u.read_bits_as_uint32 5 = .ok (bits, u') →
      bits % 256 ≤ 31) ∧
    (∀ (u u' : Stream) (L : Nat), u.read_bits_as_uint32 4 = .ok (L, u') →
      2 ≤ L + 2 ∧ L + 2 ≤ 17) ∧
    (∀ (st1 : ShapeState) (mask : Nat) (u : Stream),
      st1.fill_index_bits = st.fill_index_bits → st1.line_index_bits = st.line_index_bits →
      style_move_to mask st1 u ≠ .error .assertion ∧
      style_fill_0 mask st1 u ≠ .error .assertion ∧
      style_fill_1 mask st1 u ≠ .error .assertion ∧
      style_line mask st1 u ≠ .error .assertion ∧
      straight_edge st1 u ≠ .error .assertion ∧
      curved_edge st1 u ≠ .error .assertion) ∧
    (shape_record type st t = .error .assertion →
      ∃ (t1 t2 : Stream) (mask : Nat) (st1 st2 st3 st4 : ShapeState) (u1 u2 u3 u4 : Stream),
        t.read_bits_as_uint32 1 = .ok (0, t1) ∧ t1.read_bits_as_uint32 5 = .ok (mask, t2) ∧
        mask &&& 0x10 ≠ 0 ∧
        style_move_to mask st t2 = .ok (st1, u1) ∧ style_fill_0 mask st1 u1 = .ok (st2, u2) ∧
        style_fill_1 mask st2 u2 = .ok (st3, u3) ∧ style_line mask st3 u3 = .ok (st4, u4) ∧
        style_new type mask st4 u4 = .error .assertion ∧
        (¬ (type = TagCode.DEFINE_SHAPE3 ∨ type = TagCode.DEFINE_SHAPE4) ∨
          read_fill_styles u4 st4.fill_styles type = .error .assertion ∨
          ∃ fills u5, read_fill_styles u4 st4.fill_styles type = .ok (fills, u5) ∧
            read_line_styles u5 st4.line_styles type = .error .assertion)) := by
  have hi : ShapeInv st := loop_state_after_inv type n st0 s0 st t (shape_loop_start_inv h0) hn
  refine ⟨⟨hi.fill_bits, hi.line_bits⟩, ?_, ?_, ?_, shape_record_assertion type st t hi⟩
  · intro u u' bits hb
    have := (read_bits_as_uint32_lt hb).1
    omega
  · intro u u' L hL
    have := (read_bits_as_uint32_lt hL).1
    omega
  · intro st1 mask u hf hl
    have h1 := hi.fill_bits
    have h2 := hi.line_bits
    exact ⟨style_move_to_ne_assertion _ _ _,
      style_fill_0_ne_assertion _ _ _ (by omega),
      style_fill_1_ne_assertion _ _ _ (by omega),
      style_line_ne_assertion _ _ _ (by omega),
      straight_edge_ne_assertion _ _, curved_edge_ne_assertion _ _⟩

/-- Witness of C25: the state after two records (an edge, a style-change
record) of a shape with fill index width 1. -/
theorem shape_loop_widths_in_range_witness :
    ∃ (st0 : ShapeState) (s0 : Stream) (st : ShapeState) (t : Stream),
      shape_loop_start (Stream.ofData oneBitWidthShape) TagCode.DEFINE_SHAPE = .ok (st0, s0) ∧
      loop_state_after (shape_record TagCode.DEFINE_SHAPE) 2 st0 s0 = some (st, t) ∧
      ((st.fill_index_bits ≤ 15 ∧ st.line_index_bits ≤ 15) ∧
      (∀ (u u' : Stream) (bits : Nat), u.read_bits_as_uint32 5 = .ok (bits, u') →
        bits % 256 ≤ 31) ∧
      (∀ (u u' : Stream) (L : Nat), u.read_bits_as_uint32 4 = .ok (L, u') →
        2 ≤ L + 2 ∧ L + 2 ≤ 17) ∧
      (∀ (st1 : ShapeState) (mask : Nat) (u : Stream),
        st1.fill_index_bits = st.fill_index_bits → st1.line_index_bits = st.line_index_bits →
        style_move_to mask st1 u ≠ .error .assertion ∧
        style_fill_0 mask st1 u ≠ .error .assertion ∧
        style_fill_1 mask st1 u ≠ .error .assertion ∧
        style_line mask st1 u ≠ .error .assertion ∧
        straight_edge st1 u ≠ .error .assertion ∧
        curved_edge st1 u ≠ .error .assertion) ∧
      (shape_record TagCode.DEFINE_SHAPE st t = .error .assertion →
        ∃ (t1 t2 : Stream) (mask : Nat) (st1 st2 st3 st4 : ShapeState) (u1 u2 u3 u4 : Stream),
          t.read_bits_as_uint32 1 = .ok (0, t1) ∧ t1.read_bits_as_uint32 5 = .ok (mask, t2) ∧
          mask &&& 0x10 ≠ 0 ∧
          style_move_to mask st t2 = .ok (st1, u1) ∧ style_fill_0 mask st1 u1 = .ok (st2, u2) ∧
          style_fill_1 mask st2 u2 = .ok (st3, u3) ∧ style_line mask st3 u3 = .ok (st4, u4) ∧
          style_new TagCode.DEFINE_SHAPE mask st4 u4 = .error .assertion ∧
          (¬ (TagCode.DEFINE_SHAPE = TagCode.DEFINE_SHAPE3 ∨ TagCode.DEFINE_SHAPE = TagCode.DEFINE_SHAPE4) ∨
            read_fill_styles u4 st4.fill_styles TagCode.DEFINE_SHAPE = .error .assertion ∨
            ∃ fills u5, read_fill_styles u4 st4.fill_styles TagCode.DEFINE_SHAPE = .ok (fills, u5) ∧
              read_line_styles u5 st4.line_styles TagCode.DEFINE_SHAPE = .error .assertion))) :=
  ⟨_, _, _, _, rfl, rfl,
    shape_loop_widths_in_range (Stream.ofData oneBitWidthShape) TagCode.DEFINE_SHAPE _ _ rfl
      2 _ _ rfl⟩

end record_cpp
/-! ## Termination of `parse` -/

theorem steady_pure_of {α : Type} (F : Stream → α) :
    Steady (fun s => (Pure.pure (F s, s) : Res (α × Stream))) := by
  intro s hu
  refine ⟨fun h => (by cases h), fun a s' h => ?_⟩
  cases h
  exact ⟨rfl, hu, Nat.le_refl _⟩

theorem steady_pure {α : Type} (v : α) :
    Steady (fun s => (Pure.pure (v, s) : Res (α × Stream))) :=
  steady_pure_of (fun _ => v)

theorem steady_ok {α : Type} (v : α) :
    Steady (fun s => (Except.ok (v, s) : Res (α × Stream))) :=
  steady_pure v

theorem steady_assertion {α : Type} :
    Steady (fun _ => (Except.error DecodeError.assertion : Res (α × Stream))) := by
  intro s _
  exact ⟨fun h => (by cases h), fun a s' h => (by cases h)⟩

theorem steady_bind {α β : Type} {f : Stream → Res (α × Stream)}
    {g : α × Stream → Res (β × Stream)}
    (hf : Steady f) (hg : ∀ a, Steady (fun s => g (a, s))) :
    Steady (fun s => f s >>= g) := by
  intro s hu
  obtain ⟨hf1, hf2⟩ := hf s hu
  constructor
  · intro h
    change f s >>= g = _ at h
    rcases bind_eq_error h with h | ⟨⟨a, s1⟩, h1, h⟩
    · exact hf1 h
    · exact (hg a s1 (hf2 a s1 h1).2.1).1 h
  · intro b s' h
    change f s >>= g = _ at h
    obtain ⟨⟨a, s1⟩, h1, h⟩ := (bind_eq_ok _ _ _).1 h
    obtain ⟨hd1, hu1, hb1⟩ := hf2 a s1 h1
    obtain ⟨hd2, hu2, hb2⟩ := (hg a s1 hu1).2 b s' h
    exact ⟨hd2.trans hd1, hu2, Nat.le_trans hb2 hb1⟩

theorem steady_ite {α : Type} (c : Prop) [Decidable c] {f g : Stream → Res (α × Stream)}
    (hf : Steady f) (hg : Steady g) : Steady (fun s => if c then f s else g s) := by
  by_cases h : c
  · simpa [h] using hf
  · simpa [h] using hg

theorem steady_ite_pos {α : Type} (P : Nat → Prop) [DecidablePred P]
    {f g : Stream → Res (α × Stream)}
    (hf : Steady f) (hg : Steady g) :
    Steady (fun s => if P s.get_position then f s else g s) := by
  intro s hu
  by_cases hp : P s.get_position
  · simp only [hp, if_true]
    exact hf s hu
  · simp only [hp, if_false]
    exact hg s hu

theorem strict_bind {α β : Type} {f : Stream → Res (α × Stream)}
    {g : α × Stream → Res (β × Stream)}
    (hf : Steady f) (hs : Strict f) (hg : ∀ a, Steady (fun s => g (a, s))) :
    Strict (fun s => f s >>= g) := by
  intro s hu b s' h
  change f s >>= g = _ at h
  obtain ⟨⟨a, s1⟩, h1, h⟩ := (bind_eq_ok _ _ _).1 h
  obtain ⟨-, hu1, -⟩ := (hf s hu).2 a s1 h1
  have hlt := hs s hu a s1 h1
  obtain ⟨-, -, hb2⟩ := (hg a s1 hu1).2 b s' h
  omega

theorem steady_read_uint8 : Steady Stream.read_uint8 := by
  intro s hu
  unfold Stream.read_uint8
  split
  · exact ⟨fun h => (by cases h), fun a s' h => (by cases h)⟩
  · refine ⟨fun h => (by cases h), fun a s' h => ?_⟩
    cases h
    refine ⟨rfl, Nat.zero_le _, ?_⟩
    unfold Stream.bits_left
    dsimp only
    omega

theorem steady_read_bit : Steady Stream.read_bit ∧ Strict Stream.read_bit := by
  constructor
  · intro s hu
    unfold Stream.read_bit
    split
    · split
      · exact ⟨fun h => (by cases h), fun a s' h => (by cases h)⟩
      · rename_i b hb
        refine ⟨fun h => (by cases h), fun a s' h => ?_⟩
        cases h
        refine ⟨rfl, Nat.le_refl _, ?_⟩
        have hlt := (List.getElem?_eq_some.1 hb).1
        unfold Stream.bits_left
        dsimp only
        omega
    · refine ⟨fun h => (by cases h), fun a s' h => ?_⟩
      cases h
      refine ⟨rfl, (by dsimp only; omega), ?_⟩
      unfold Stream.bits_left
      dsimp only
      omega
  · intro s hu a s' h
    unfold Stream.read_bit at h
    split at h
    · rename_i hz
      split at h
      · cases h
      · rename_i b hb
        cases h
        have hlt := (List.getElem?_eq_some.1 hb).1
        unfold Stream.bits_left
        dsimp only
        omega
    · rename_i hz
      cases h
      unfold Stream.bits_left
      dsimp only
      omega

theorem steady_read_uint16 : Steady Stream.read_uint16 := by
  unfold Stream.read_uint16
  repeat (first | exact steady_read_uint8 | exact steady_pure _ | apply steady_bind | intro _)

theorem steady_read_uint32 : Steady Stream.read_uint32 := by
  unfold Stream.read_uint32
  repeat (first | exact steady_read_uint8 | exact steady_pure _ | apply steady_bind | intro _)

theorem steady_read_int16 : Steady Stream.read_int16 := by
  unfold Stream.read_int16
  repeat (first | exact steady_read_uint16 | exact steady_pure _ | apply steady_bind | intro _)

theorem steady_read_int32 : Steady Stream.read_int32 := by
  unfold Stream.read_int32
  repeat (first | exact steady_read_uint32 | exact steady_pure _ | apply steady_bind | intro _)

theorem steady_read_bits_loop (n : Nat) : Steady (Stream.read_bits_loop n) := by
  induction n with
  | zero => exact steady_ok 0
  | succ n ih =>
    show Steady (fun s => Stream.read_bits_loop (n + 1) s)
    unfold Stream.read_bits_loop
    repeat (first | exact steady_read_bit.1 | exact ih | exact steady_pure _
                  | apply steady_bind | intro _)

theorem strict_read_bits_loop (n : Nat) : Strict (Stream.read_bits_loop (n + 1)) := by
  show Strict (fun s => Stream.read_bits_loop (n + 1) s)
  unfold Stream.read_bits_loop
  apply strict_bind steady_read_bit.1 steady_read_bit.2
  intro a
  repeat (first | exact steady_read_bits_loop n | exact steady_pure _
                | apply steady_bind | intro _)

theorem steady_read_bits_as_uint32 (n : Nat) :
    Steady (fun s => Stream.read_bits_as_uint32 s n) := by
  unfold Stream.read_bits_as_uint32
  exact steady_ite _ steady_assertion (steady_read_bits_loop n)

theorem strict_read_one_bit : Strict (fun s => Stream.read_bits_as_uint32 s 1) := by
  intro s hu a s' h
  have h' : s.read_bits_as_uint32 1 = .ok (a, s') := h
  unfold Stream.read_bits_as_uint32 at h'
  rw [if_neg (by omega)] at h'
  exact strict_read_bits_loop 0 s hu a s' h'

theorem steady_read_bits_as_int32 (n : Nat) :
    Steady (fun s => Stream.read_bits_as_int32 s n) := by
  unfold Stream.read_bits_as_int32
  repeat (first | exact steady_read_bits_as_uint32 _ | exact steady_pure _
                | apply steady_bind | intro _)

theorem steady_read_rect : Steady Stream.read_rect := by
  unfold Stream.read_rect
  repeat (first | exact steady_read_bits_as_uint32 _ | exact steady_read_bits_as_int32 _
                | exact steady_pure _ | apply steady_bind | intro _)

theorem steady_read_fixed16 : Steady Stream.read_fixed16 := by
  unfold Stream.read_fixed16
  repeat (first | exact steady_read_int16 | exact steady_pure _ | apply steady_bind | intro _)

theorem steady_Header_read : Steady Header.read := by
  unfold Header.read
  repeat (first | exact steady_read_uint8 | exact steady_read_uint32 | exact steady_read_rect
                | exact steady_read_fixed16 | exact steady_read_uint16
                | exact steady_pure _ | exact steady_assertion
                | apply steady_bind | apply steady_ite | intro _)

theorem steady_TagHeader_read : Steady TagHeader.read := by
  unfold TagHeader.read
  repeat (first | exact steady_read_uint16 | exact steady_read_int32
                | exact steady_pure_of (fun s => (_ : TagHeader))
                | exact steady_assertion
                | apply steady_bind | apply steady_ite | intro _)

theorem steady_read_rgb : Steady Stream.read_rgb := by
  unfold Stream.read_rgb
  repeat (first | exact steady_read_uint8 | exact steady_pure _ | apply steady_bind | intro _)

theorem steady_read_rgba : Steady Stream.read_rgba := by
  unfold Stream.read_rgba
  repeat (first | exact steady_read_uint8 | exact steady_pure _ | apply steady_bind | intro _)

theorem steady_read_int_pair : Steady Stream.read_int_pair := by
  unfold Stream.read_int_pair
  repeat (first | exact steady_read_bits_as_uint32 _ | exact steady_read_bits_as_int32 _
                | exact steady_pure _ | apply steady_bind | intro _)

theorem steady_read_matrix : Steady Stream.read_matrix := by
  unfold Stream.read_matrix
  repeat (first | exact steady_read_bits_as_uint32 _ | exact steady_read_int_pair
                | exact steady_pure _ | apply steady_bind | apply steady_ite | intro _)

theorem steady_read_channels (bits : Nat) (alpha : Bool) (da : Int) :
    Steady (fun s => Stream.read_channels s bits alpha da) := by
  unfold Stream.read_channels
  repeat (first | exact steady_read_bits_as_int32 _
                | exact steady_pure _ | apply steady_bind | apply steady_ite | intro _)

theorem steady_read_cxform (alpha : Bool) : Steady (fun s => Stream.read_cxform s alpha) := by
  unfold Stream.read_cxform
  repeat (first | exact steady_read_bits_as_uint32 _ | exact steady_read_channels _ _ _
                | exact steady_pure _ | apply steady_bind | apply steady_ite | intro _)

theorem steady_read_cxform_rgb : Steady Stream.read_cxform_rgb := steady_read_cxform false

theorem steady_read_cxform_rgba : Steady Stream.read_cxform_rgba := steady_read_cxform true

theorem steady_read_string : Steady Stream.read_string := by
  intro s hu
  unfold Stream.read_string
  split
  · exact ⟨fun h => (by cases h), fun a s' h => (by cases h)⟩
  · refine ⟨fun h => (by cases h), fun a s' h => ?_⟩
    cases h
    refine ⟨rfl, Nat.zero_le _, ?_⟩
    unfold Stream.bits_left
    dsimp only
    omega

theorem steady_read_style_count : Steady read_style_count := by
  unfold read_style_count
  repeat (first | exact steady_read_uint8 | exact steady_read_uint16
                | exact steady_pure _ | apply steady_bind | apply steady_ite | intro _)

/-- A loop whose iterations are steady and each consume at least one bit
does not run out of a fuel larger than the number of bits left. -/
theorem steady_iterate {α ρ : Type} (step : α → Stream → Res ((α ⊕ ρ) × Stream))
    (hstep : ∀ a, Steady (step a)) (hstrict : ∀ a, Strict (step a)) (fuel : Nat) :
    ∀ (a : α) (s : Stream), s.unused ≤ 7 → s.bits_left < fuel →
      iterate step fuel a s ≠ .error .fuel ∧
      ∀ out s', iterate step fuel a s = .ok (out, s') →
        s'.data = s.data ∧ s'.unused ≤ 7 ∧ s'.bits_left ≤ s.bits_left := by
  induction fuel with
  | zero =>
    intro a s _ hlt
    omega
  | succ fuel ih =>
    intro a s hu hlt
    obtain ⟨hne, hok⟩ := hstep a s hu
    constructor
    · intro h
      unfold iterate at h
      rcases bind_eq_error h with h | ⟨⟨r, s1⟩, h1, h⟩
      · exact hne h
      · obtain ⟨-, hu1, -⟩ := hok r s1 h1
        have hlt1 := hstrict a s hu r s1 h1
        cases r with
        | inl a1 => exact (ih a1 s1 hu1 (by omega)).1 h
        | inr out => cases h
    · intro out s' h
      unfold iterate at h
      obtain ⟨⟨r, s1⟩, h1, h⟩ := (bind_eq_ok _ _ _).1 h
      obtain ⟨hd1, hu1, hb1⟩ := hok r s1 h1
      have hlt1 := hstrict a s hu r s1 h1
      cases r with
      | inl a1 =>
        obtain ⟨hd2, hu2, hb2⟩ := (ih a1 s1 hu1 (by omega)).2 out s' h
        exact ⟨hd2.trans hd1, hu2, Nat.le_trans hb2 hb1⟩
      | inr o =>
        cases h
        exact ⟨hd1, hu1, hb1⟩

theorem steady_iterate_shapeFuel {α ρ : Type} (step : α → Stream → Res ((α ⊕ ρ) × Stream))
    (hstep : ∀ a, Steady (step a)) (hstrict : ∀ a, Strict (step a)) (a : α) :
    Steady (fun s => iterate step (shapeFuel s) a s) := by
  intro s hu
  refine steady_iterate step hstep hstrict (shapeFuel s) a s hu ?_
  unfold shapeFuel Stream.bits_left
  omega

namespace parser_cpp

theorem steady_read_line_styles_loop (type n : Nat) (array : List LineStyle) :
    Steady (fun s => read_line_styles_loop type n s array) := by
  induction n generalizing array with
  | zero => exact steady_ok _
  | succ n ih =>
    unfold read_line_styles_loop
    repeat (first | exact steady_read_uint8 | exact steady_read_rgb | exact steady_read_rgba
                  | exact ih _ | exact steady_pure _
                  | apply steady_bind | apply steady_ite | intro _)

theorem steady_read_line_styles (array : List LineStyle) (type : Nat) :
    Steady (fun s => DefineShape.read_line_styles s array type) := by
  unfold DefineShape.read_line_styles
  repeat (first | exact steady_read_style_count | exact steady_read_line_styles_loop _ _ _
                | apply steady_bind | intro _)

theorem steady_read_fill_styles_loop (type n : Nat) (array : List FillStyle) :
    Steady (fun s => read_fill_styles_loop type n s array) := by
  induction n generalizing array with
  | zero => exact steady_ok _
  | succ n ih =>
    unfold read_fill_styles_loop
    repeat (first | exact steady_read_uint8 | exact steady_read_rgb | exact steady_read_rgba
                  | exact ih _ | exact steady_pure _ | exact steady_assertion
                  | apply steady_bind | apply steady_ite | intro _)

theorem steady_read_fill_styles (array : List FillStyle) (type : Nat) :
    Steady (fun s => DefineShape.read_fill_styles s array type) := by
  unfold DefineShape.read_fill_styles
  repeat (first | exact steady_read_style_count | exact steady_read_fill_styles_loop _ _ _
                | apply steady_bind | intro _)

theorem steady_read_style_change (type fb lb mask : Nat) (shape : ShapeRecord) :
    Steady (fun s => read_style_change type fb lb mask s shape) := by
  unfold read_style_change
  with_reducible
  repeat (first | exact steady_read_bits_as_uint32 _ | exact steady_read_bits_as_int32 _
                | exact steady_read_fill_styles _ _ | exact steady_read_line_styles _ _
                | exact steady_pure _ | exact steady_assertion
                | apply steady_bind | apply steady_ite | intro _)

theorem steady_read_shape_record (type fb lb : Nat) (records : List ShapeRecord) :
    Steady (read_shape_record type fb lb records) := by
  unfold read_shape_record
  with_reducible
  repeat (first | exact steady_read_bits_as_uint32 _ | exact steady_read_bits_as_int32 _
                | exact steady_read_style_change _ _ _ _ _
                | exact steady_pure _ | exact steady_assertion
                | apply steady_bind | apply steady_ite | intro _)

theorem strict_read_shape_record (type fb lb : Nat) (records : List ShapeRecord) :
    Strict (read_shape_record type fb lb records) := by
  unfold read_shape_record
  apply strict_bind (steady_read_bits_as_uint32 1) strict_read_one_bit
  intro a
  with_reducible
  repeat (first | exact steady_read_bits_as_uint32 _ | exact steady_read_bits_as_int32 _
                | exact steady_read_style_change _ _ _ _ _
                | exact steady_pure _ | exact steady_assertion
                | apply steady_bind | apply steady_ite | intro _)

theorem steady_DefineShape_read (type : Nat) : Steady (fun s => DefineShape.read s type) := by
  unfold DefineShape.read
  with_reducible
  repeat (first | exact steady_read_uint16 | exact steady_read_rect
                | exact steady_read_bits_as_uint32 _
                | exact steady_read_fill_styles _ _ | exact steady_read_line_styles _ _
                | exact steady_iterate_shapeFuel _ (steady_read_shape_record _ _ _)
                    (strict_read_shape_record _ _ _) _
                | exact steady_pure _
                | apply steady_bind | intro _)

theorem steady_PlaceObject_read_from (start_pos : Nat) (size : Int) :
    Steady (PlaceObject.read_from start_pos size) := by
  unfold PlaceObject.read_from
  with_reducible
  repeat (first | exact steady_read_uint16 | exact steady_read_matrix
                | exact steady_read_cxform_rgb
                | exact steady_pure _
                | apply steady_bind
                | apply steady_ite_pos (fun p => (p : Int) < (start_pos : Int) + size)
                | intro _)

theorem steady_PlaceObject_read (size : Int) : Steady (fun s => PlaceObject.read s size) := by
  intro s hu
  exact steady_PlaceObject_read_from s.get_position size s hu

theorem steady_RemoveObject_read : Steady RemoveObject.read := by
  unfold RemoveObject.read
  repeat (first | exact steady_read_uint16 | exact steady_pure _ | apply steady_bind | intro _)

theorem steady_PlaceObject2_read : Steady PlaceObject2.read := by
  unfold PlaceObject2.read
  with_reducible
  repeat (first | exact steady_read_uint8 | exact steady_read_uint16 | exact steady_read_matrix
                | exact steady_read_cxform_rgba | exact steady_read_string
                | exact steady_pure _
                | apply steady_bind | apply steady_ite | intro _)

end parser_cpp

theorem steady_dispatch (tag : TagHeader) (player : Player) : Steady (dispatch tag player) := by
  unfold dispatch
  with_reducible
  repeat (first | exact parser_cpp.steady_DefineShape_read _
                | exact parser_cpp.steady_PlaceObject_read _
                | exact parser_cpp.steady_PlaceObject2_read
                | exact parser_cpp.steady_RemoveObject_read
                | exact steady_pure _
                | apply steady_bind | apply steady_ite | intro _)

/-- A tag header that is read takes at least two bytes, within the buffer, and
the tag's end offset is not before the end of the header. -/
theorem TagHeader_read_progress {s s' : Stream} {tag : TagHeader}
    (h : TagHeader.read s = .ok (tag, s')) :
    s'.data = s.data ∧ s.pos + 2 ≤ s'.pos ∧ s'.pos ≤ s'.data.length ∧ s'.unused = 0 ∧
      tag.end_pos = s'.pos + tag.size := by
  unfold TagHeader.read at h
  obtain ⟨⟨hv, s1⟩, h1, h⟩ := (bind_eq_ok _ _ _).1 h
  obtain ⟨b0, b1, -, hb1, -, rfl⟩ := read_uint16_ok h1
  have hlt := (List.getElem?_eq_some.1 hb1).1
  dsimp only at h
  split at h
  · obtain ⟨⟨v, s2⟩, h2, h⟩ := (bind_eq_ok _ _ _).1 h
    unfold Stream.read_int32 at h2
    obtain ⟨⟨u, s3⟩, h3, h2⟩ := (bind_eq_ok _ _ _).1 h2
    obtain ⟨c0, c1, c2, c3, -, -, -, hc3, -, rfl⟩ := read_uint32_ok h3
    have hlt3 := (List.getElem?_eq_some.1 hc3).1
    cases h2
    cases h
    dsimp only at hlt3
    refine ⟨rfl, ?_, ?_, rfl, rfl⟩
    · show s.pos + 2 ≤ s.pos + 2 + 4
      omega
    · show s.pos + 2 + 4 ≤ s.data.length
      omega
  · cases h
    refine ⟨rfl, Nat.le_refl _, ?_, rfl, rfl⟩
    show s.pos + 2 ≤ s.data.length
    omega

/-- A tag header read past the end of the buffer is a decode error. -/
theorem TagHeader_read_past_end (t : Stream) (h : t.data.length < t.pos + 2) :
    TagHeader.read t = .error .eof := by
  unfold TagHeader.read Stream.read_uint16 Stream.read_uint8
  cases h0 : t.data[t.pos]? with
  | none => rfl
  | some b0 =>
    have hlt := (List.getElem?_eq_some.1 h0).1
    have h1 : t.data[t.pos + 1]? = none := List.getElem?_eq_none (by omega)
    dsimp only
    rw [ok_bind]
    dsimp only
    rw [h1]
    rfl

/-- An iteration of the loop of `parse` that goes on has read the next tag
header at the end offset of the tag it has dispatched, in the same buffer. -/
theorem parse_step_next {tag tag' : TagHeader} {player player' : Player} {s1 s2 : Stream}
    (h : parse_step (tag, player) s1 = .ok (.inl (tag', player'), s2)) :
    ∃ s3, s3.data = s1.data ∧ s3.pos = tag.end_pos ∧ s3.unused = 0 ∧
      TagHeader.read s3 = .ok (tag', s2) := by
  unfold parse_step at h
  dsimp only at h
  split at h
  · cases h
  · obtain ⟨⟨p, t⟩, hd, h⟩ := (bind_eq_ok _ _ _).1 h
    dsimp only at h
    obtain ⟨⟨tg, t2⟩, ht, h⟩ := (bind_eq_ok _ _ _).1 h
    cases h
    exact ⟨t.set_position tag.end_pos, (local_dispatch tag player s1 _ t hd).1, rfl, rfl, ht⟩

/-- The loop of `parse` does not run out of fuel: each iteration that goes on
has moved the cursor at least two bytes forward within the buffer. -/
theorem iterate_parse_step_no_fuel (fuel : Nat) :
    ∀ (tag : TagHeader) (player : Player) (s : Stream),
      s.unused ≤ 7 → s.pos ≤ s.data.length → s.pos ≤ tag.end_pos →
      s.data.length < s.pos + fuel →
      iterate parse_step fuel (tag, player) s ≠ .error .fuel := by
  induction fuel with
  | zero =>
    intro tag player s _ h1 _ h2
    omega
  | succ fuel ih =>
    intro tag player s hu hlen hend hfuel h
    unfold iterate at h
    rcases bind_eq_error h with h | ⟨⟨r, s2⟩, hstep, h⟩
    · unfold parse_step at h
      dsimp only at h
      split at h
      · cases h
      · rcases bind_eq_error h with h | ⟨⟨p, t⟩, hd, h⟩
        · exact (steady_dispatch tag player s hu).1 h
        · dsimp only at h
          rcases bind_eq_error h with h | ⟨_, _, h⟩
          · exact (steady_TagHeader_read (t.set_position tag.end_pos) (Nat.zero_le _)).1 h
          · cases h
    · cases r with
      | inr out => cases h
      | inl st1 =>
        obtain ⟨tag', player'⟩ := st1
        obtain ⟨s3, hdata, hpos, -, hread⟩ := parse_step_next hstep
        obtain ⟨hd2, hp2, hl2, hu2, he2⟩ := TagHeader_read_progress hread
        refine ih tag' player' s2 (by omega) hl2 (by omega) ?_ h
        rw [hd2, hdata]
        omega

/-- C26. The decode loop of `parse` terminates on every finite buffer, with a
result or a decode error: with offsets as natural numbers, `parse` never
runs out of the fuel of its loops. Each iteration that goes on reads the
next tag header at the end offset of the tag dispatched, which lies at least
two bytes after the offset of that tag's header, in the same buffer; and a
tag header read with fewer than two bytes left is a decode error. -/
theorem parse_terminates (s : Stream) :
    parse s ≠ .error .fuel ∧
    (∀ (s0 s1 s2 : Stream) (tag tag' : TagHeader) (player player' : Player),
      TagHeader.read s0 = .ok (tag, s1) →
      parse_step (tag, player) s1 = .ok (.inl (tag', player'), s2) →
      ∃ s3, s3.data = s0.data ∧ s3.pos = tag.end_pos ∧ TagHeader.read s3 = .ok (tag', s2) ∧
        s0.pos + 2 ≤ s3.pos ∧ s3.pos + 2 ≤ s2.pos ∧ s2.pos ≤ s0.data.length) ∧
    (∀ t : Stream, t.data.length < t.pos + 2 → TagHeader.read t = .error .eof) := by
  refine ⟨?_, ?_, TagHeader_read_past_end⟩
  · intro h
    unfold parse at h
    dsimp only at h
    rcases bind_eq_error h with h | ⟨⟨hd, s1⟩, h1, h⟩
    · exact (steady_Header_read (s.set_position 0) (Nat.zero_le _)).1 h
    · obtain ⟨-, hu1, -⟩ := (steady_Header_read (s.set_position 0) (Nat.zero_le _)).2 _ _ h1
      dsimp only at h
      rcases bind_eq_error h with h | ⟨⟨tag, s2⟩, h2, h⟩
      · exact (steady_TagHeader_read s1 hu1).1 h
      · obtain ⟨-, -, hl2, hu2, he2⟩ := TagHeader_read_progress h2
        dsimp only at h
        exact iterate_parse_step_no_fuel _ tag _ s2 (by omega) hl2 (by omega) (by omega) h
  · intro s0 s1 s2 tag tag' player player' h0 hstep
    obtain ⟨hd1, hp1, -, -, he1⟩ := TagHeader_read_progress h0
    obtain ⟨s3, hdata, hpos, -, hread⟩ := parse_step_next hstep
    obtain ⟨hd2, hp2, hl2, -, -⟩ := TagHeader_read_progress hread
    refine ⟨s3, hdata.trans hd1, hpos, hread, by omega, hp2, ?_⟩
    rw [← hd1, ← hdata, ← hd2]
    exact hl2

/-! ## Style counts and dropped edges -/

set_option maxRecDepth 8000 in
/-- C27, the code at the failing input. The count that `read_fill_styles`
and `read_line_styles` use is the declared count reduced modulo 256, the
variable `count` being 8 bits wide. On a style array that declares 257
entries in the extended form, `read_fill_styles` and `read_line_styles` of
record.cpp and `DefineShape::read_fill_styles` of openswf_parser.cpp append
one entry and stop. -/
theorem read_styles_count_truncated :
    (∀ s : Stream,
      read_style_count s = (declared_style_count s >>= fun x => .ok (x.1 % 256, x.2))) ∧
    (∃ s1, declared_style_count (Stream.ofData wideCountStyles) = .ok (257, s1)) ∧
    wideCountStyles.length = 3 + 257 * 4 ∧
    (∃ f s', record_cpp.read_fill_styles (Stream.ofData wideCountStyles) []
        TagCode.DEFINE_SHAPE = .ok ([f], s') ∧ s'.pos = 3 + 4) ∧
    (∃ l s', record_cpp.read_line_styles (Stream.ofData wideCountStyles) []
        TagCode.DEFINE_SHAPE = .ok ([l], s') ∧ s'.pos = 3 + 5) ∧
    (∃ f s', parser_cpp.DefineShape.read_fill_styles (Stream.ofData wideCountStyles) [] 1 =
        .ok ([f], s') ∧ s'.pos = 3 + 4) := by
  refine ⟨fun s => ?_, ⟨_, rfl⟩, rfl, ⟨_, _, rfl, rfl⟩, ⟨_, _, rfl, rfl⟩, ⟨_, _, rfl, rfl⟩⟩
  unfold read_style_count declared_style_count
  cases h : s.read_uint8 with
  | error e => rfl
  | ok x =>
    obtain ⟨c, s1⟩ := x
    simp only [ok_bind]
    by_cases hc : c = 0xFF
    · simp only [hc, if_true]
      cases h2 : s1.read_uint16 with
      | error e => rfl
      | ok y => rfl
    · simp only [hc, if_false]
      obtain ⟨b, -, rfl, -⟩ := read_uint8_ok h
      show Except.ok (b % 256, s1) = Except.ok (b % 256 % 256, s1)
      rw [Nat.mod_mod]

/-- C30, the code at the failing input. On a shape with a style-change
record, a general, a vertical and a horizontal straight edge,
`DefineShape::read` of openswf_parser.cpp returns two records, the one of
the style-change record and the one of the horizontal edge: the general and
the vertical edge leave the iteration through `continue`, before the
`push_back`, and their deltas are lost. `DefineShape::read` of record.cpp
decodes the three edges from the same bytes. -/
theorem DefineShape_read_drops_straight_edges :
    (∃ s', parser_cpp.DefineShape.read (Stream.ofData mixedEdgesShape) 1 =
      .ok ({ character_id := 1,
             bounds := { xmin := 0, xmax := 0, ymin := 0, ymax := 0 },
             fill_styles := [], line_styles := [],
             fill_index_bits := 0, line_index_bits := 0,
             records := [{}, { move_delta_x := 1 }] }, s')) ∧
    (∃ s', record_cpp.DefineShape.read (Stream.ofData mixedEdgesShape) TagCode.DEFINE_SHAPE =
      .ok ({ character_id := 1,
             bounds := { xmin := 0, xmax := 0, ymin := 0, ymax := 0 },
             edge_bounds := { xmin := 0, xmax := 0, ymin := 0, ymax := 0 },
             fill_styles := [],
             paths := [{ edges := [record_cpp.ShapeEdge.straight { x := 1, y := 1 },
                                   record_cpp.ShapeEdge.straight { x := 1, y := 2 },
                                   record_cpp.ShapeEdge.straight { x := 2, y := 2 }] }] },
           s')) :=
  ⟨⟨_, rfl⟩, ⟨_, rfl⟩⟩

/-! ## Bound on the loop of `Player::update` -/

/-- The loop of `Player::update`, started below the end of the timeline, with
any frame period: any two amounts of fuel of at least the number of frames
left give the same result and the same count of iterations; that count is
at most the number of frames left; the frame index grows by the count and
ends at most at the number of frames; the timeline is unchanged. -/
theorem update_loop_within_fuel (p : Rat) (fuel : Nat) :
    ∀ (pl : Player) (fuel' : Nat),
      pl.m_current_frame < pl.m_frames.length →
      pl.m_frames.length - pl.m_current_frame ≤ fuel →
      pl.m_frames.length - pl.m_current_frame ≤ fuel' →
      Player.update_loop p fuel pl = Player.update_loop p fuel' pl ∧
      Player.update_loop_count p fuel pl = Player.update_loop_count p fuel' pl ∧
      Player.update_loop_count p fuel pl ≤ pl.m_frames.length - pl.m_current_frame ∧
      (Player.update_loop p fuel pl).m_current_frame =
        pl.m_current_frame + Player.update_loop_count p fuel pl ∧
      (Player.update_loop p fuel pl).m_current_frame ≤ pl.m_frames.length ∧
      (Player.update_loop p fuel pl).m_frames = pl.m_frames := by
  induction fuel with
  | zero =>
    intro pl fuel' hc hf _
    omega
  | succ fuel ih =>
    intro pl fuel' hc hf hf'
    cases fuel' with
    | zero => omega
    | succ fuel' =>
      unfold Player.update_loop Player.update_loop_count
      by_cases hgt : pl.m_timer > p
      · rw [if_pos hgt, if_pos hgt, if_pos hgt, if_pos hgt]
        dsimp only
        by_cases hend : pl.m_current_frame + 1 ≥ pl.m_frames.length
        · rw [if_pos hend, if_pos hend, if_pos hend, if_pos hend]
          exact ⟨rfl, rfl, by omega, rfl, (by show pl.m_current_frame + 1 ≤ _; omega), rfl⟩
        · rw [if_neg hend, if_neg hend, if_neg hend, if_neg hend]
          obtain ⟨g1, -, g3⟩ :=
            execute_all_frames (pl.m_frames.getD (pl.m_current_frame + 1) [])
              (pl.withClock (pl.m_timer - p) (pl.m_current_frame + 1))
          have e1 : (pl.withClock (pl.m_timer - p) (pl.m_current_frame + 1)).m_frames =
              pl.m_frames := rfl
          have e3 : (pl.withClock (pl.m_timer - p) (pl.m_current_frame + 1)).m_current_frame =
              pl.m_current_frame + 1 := rfl
          rw [e1] at g1
          rw [e3] at g3
          obtain ⟨h1, h2, h3, h4, h5, h6⟩ := ih
            ((pl.withClock (pl.m_timer - p) (pl.m_current_frame + 1)).execute_all
              (pl.m_frames.getD (pl.m_current_frame + 1) [])) fuel'
            (by rw [g1, g3]; omega) (by rw [g1, g3]; omega) (by rw [g1, g3]; omega)
          rw [g1, g3] at h3
          rw [g1] at h5
          rw [g3] at h4
          rw [g1] at h6
          refine ⟨h1, congrArg (1 + ·) h2, ?_, ?_, h5, h6⟩
          · have : Player.update_loop_count p fuel
                (Player.execute_all
                  { pl with m_timer := pl.m_timer - p,
                            m_current_frame := pl.m_current_frame + 1 }
                  (pl.m_frames.getD (pl.m_current_frame + 1) [])) ≤
                pl.m_frames.length - (pl.m_current_frame + 1) := h3
            omega
          · have : (Player.update_loop p fuel
                (Player.execute_all
                  { pl with m_timer := pl.m_timer - p,
                            m_current_frame := pl.m_current_frame + 1 }
                  (pl.m_frames.getD (pl.m_current_frame + 1) []))).m_current_frame =
                pl.m_current_frame + 1 + Player.update_loop_count p fuel
                  (Player.execute_all
                    { pl with m_timer := pl.m_timer - p,
                              m_current_frame := pl.m_current_frame + 1 }
                    (pl.m_frames.getD (pl.m_current_frame + 1) [])) := h4
            omega
      · rw [if_neg hgt, if_neg hgt, if_neg hgt, if_neg hgt]
        exact ⟨rfl, rfl, Nat.zero_le _, rfl, Nat.le_of_lt hc, rfl⟩

/-- C29. A call of `Player::update` started at a frame index `c ≤ n` never
decreases the frame index, ends with it at most `n` and leaves the timeline
alone, for every `dt` and every frame rate. Its loop, entered when `c < n`,
performs at most `n - c` iterations for every frame period `p`, zero and
negative ones included: the count of its iterations is at most `n - c`, the
frame index grows by that count, and more fuel than `n - c` changes neither
the result nor the count. -/
theorem update_iterations_bounded (pl : Player) (dt : Rat)
    (hc : pl.m_current_frame ≤ pl.m_frames.length) :
    (pl.m_current_frame ≤ (pl.update dt).m_current_frame ∧
      (pl.update dt).m_current_frame ≤ pl.m_frames.length ∧
      (pl.update dt).m_frames = pl.m_frames) ∧
    (pl.m_current_frame < pl.m_frames.length →
      pl.update dt = Player.update_loop pl.frame_delta
        (pl.m_frames.length - pl.m_current_frame)
        (pl.withClock (pl.m_timer + dt) pl.m_current_frame)) ∧
    (∀ (p : Rat) (fuel : Nat), pl.m_current_frame < pl.m_frames.length →
      pl.m_frames.length - pl.m_current_frame ≤ fuel →
      Player.update_loop p fuel (pl.withClock (pl.m_timer + dt) pl.m_current_frame) =
        Player.update_loop p (pl.m_frames.length - pl.m_current_frame)
          (pl.withClock (pl.m_timer + dt) pl.m_current_frame) ∧
      Player.update_loop_count p fuel (pl.withClock (pl.m_timer + dt) pl.m_current_frame) =
        Player.update_loop_count p (pl.m_frames.length - pl.m_current_frame)
          (pl.withClock (pl.m_timer + dt) pl.m_current_frame) ∧
      Player.update_loop_count p fuel (pl.withClock (pl.m_timer + dt) pl.m_current_frame) ≤
        pl.m_frames.length - pl.m_current_frame ∧
      (Player.update_loop p fuel
          (pl.withClock (pl.m_timer + dt) pl.m_current_frame)).m_current_frame =
        pl.m_current_frame +
          Player.update_loop_count p fuel
            (pl.withClock (pl.m_timer + dt) pl.m_current_frame) ∧
      (Player.update_loop p fuel
          (pl.withClock (pl.m_timer + dt) pl.m_current_frame)).m_current_frame ≤
        pl.m_frames.length) := by
  have hloop : ∀ (p : Rat) (fuel : Nat), pl.m_current_frame < pl.m_frames.length →
      pl.m_frames.length - pl.m_current_frame ≤ fuel → _ := fun p fuel hlt hf =>
    update_loop_within_fuel p fuel (pl.withClock (pl.m_timer + dt) pl.m_current_frame)
      (pl.m_frames.length - pl.m_current_frame) hlt hf (Nat.le_refl _)
  have hupd : pl.m_current_frame < pl.m_frames.length →
      pl.update dt = Player.update_loop pl.frame_delta
        (pl.m_frames.length - pl.m_current_frame)
        (pl.withClock (pl.m_timer + dt) pl.m_current_frame) := by
    intro hlt
    unfold Player.update
    rw [if_neg (not_le.2 hlt)]
    rfl
  refine ⟨?_, hupd, fun p fuel hlt hf => ?_⟩
  · by_cases hlt : pl.m_current_frame < pl.m_frames.length
    · obtain ⟨-, -, -, h4, h5, h6⟩ := hloop pl.frame_delta _ hlt (Nat.le_refl _)
      rw [hupd hlt]
      refine ⟨?_, h5, h6⟩
      rw [h4]
      exact Nat.le_add_right _ _
    · have : pl.update dt = pl := by
        unfold Player.update
        rw [if_pos (not_lt.1 hlt)]
      rw [this]
      exact ⟨Nat.le_refl _, hc, rfl⟩
  · obtain ⟨h1, h2, h3, h4, h5, -⟩ := hloop p fuel hlt hf
    exact ⟨h1, h2, h3, h4, h5⟩

/-- Witness of C29: the player of three frames at frame 1 with a negative
frame period, where the loop runs for the two frames left. -/
theorem update_iterations_bounded_witness :
    negativeRatePlayer.m_current_frame ≤ negativeRatePlayer.m_frames.length ∧
    Player.update_loop_count negativeRatePlayer.frame_delta 2
      (negativeRatePlayer.withClock (negativeRatePlayer.m_timer + 0) 1) = 2 ∧
    ((negativeRatePlayer.m_current_frame ≤ (negativeRatePlayer.update 0).m_current_frame ∧
      (negativeRatePlayer.update 0).m_current_frame ≤ negativeRatePlayer.m_frames.length ∧
      (negativeRatePlayer.update 0).m_frames = negativeRatePlayer.m_frames) ∧
    (negativeRatePlayer.m_current_frame < negativeRatePlayer.m_frames.length →
      negativeRatePlayer.update 0 = Player.update_loop negativeRatePlayer.frame_delta
        (negativeRatePlayer.m_frames.length - negativeRatePlayer.m_current_frame)
        (negativeRatePlayer.withClock (negativeRatePlayer.m_timer + 0) negativeRatePlayer.m_current_frame)) ∧
    (∀ (p : Rat) (fuel : Nat), negativeRatePlayer.m_current_frame < negativeRatePlayer.m_frames.length →
      negativeRatePlayer.m_frames.length - negativeRatePlayer.m_current_frame ≤ fuel →
      Player.update_loop p fuel (negativeRatePlayer.withClock (negativeRatePlayer.m_timer + 0) negativeRatePlayer.m_current_frame) =
        Player.update_loop p (negativeRatePlayer.m_frames.length - negativeRatePlayer.m_current_frame)
          (negativeRatePlayer.withClock (negativeRatePlayer.m_timer + 0) negativeRatePlayer.m_current_frame) ∧
      Player.update_loop_count p fuel (negativeRatePlayer.withClock (negativeRatePlayer.m_timer + 0) negativeRatePlayer.m_current_frame) =
        Player.update_loop_count p (negativeRatePlayer.m_frames.length - negativeRatePlayer.m_current_frame)
          (negativeRatePlayer.withClock (negativeRatePlayer.m_timer + 0) negativeRatePlayer.m_current_frame) ∧
      Player.update_loop_count p fuel (negativeRatePlayer.withClock (negativeRatePlayer.m_timer + 0) negativeRatePlayer.m_current_frame) ≤
        negativeRatePlayer.m_frames.length - negativeRatePlayer.m_current_frame ∧
      (Player.update_loop p fuel
          (negativeRatePlayer.withClock (negativeRatePlayer.m_timer + 0) negativeRatePlayer.m_current_frame)).m_current_frame =
        negativeRatePlayer.m_current_frame +
          Player.update_loop_count p fuel
            (negativeRatePlayer.withClock (negativeRatePlayer.m_timer + 0) negativeRatePlayer.m_current_frame) ∧
      (Player.update_loop p fuel
          (negativeRatePlayer.withClock (negativeRatePlayer.m_timer + 0) negativeRatePlayer.m_current_frame)).m_current_frame ≤
        negativeRatePlayer.m_frames.length)) :=
  ⟨by decide,
    (by
      simp only [Player.update_loop_count, negativeRatePlayer, threeFramePlayer,
        Player.frame_delta, Fixed.toRat, Player.withClock]
      norm_num
      rw [(execute_all_frames _ _).2.1]
      norm_num),
    update_iterations_bounded negativeRatePlayer 0 (by decide)⟩

end openswf
